import Mathlib

/-!
# GameEngineComponents: skeleton animation

A shallow embedding of the animation path of `Algebra.h` and
`SkeletonAnimation.h`.

* `float` is an arbitrary linearly ordered field `α` (exact arithmetic); the
  definitions evaluate on `ℚ`.
* `sqrtf` comes from the C library, not from this repository: it is the
  operation of the class `HasSqrtf`.
* `unsigned int` is `Nat`, reduced modulo `2^32` where the source can wrap.
* A C pointer to an array is a function from the index to the element: what
  lies beyond the element count is whatever the memory holds.
-/

namespace goblin

/-- The C library square root used by `length`. -/
class HasSqrtf (α : Type) where
  /-- The function `sqrtf`. -/
  sqrtf : α → α

export HasSqrtf (sqrtf)

/-- On the rationals, for the evaluation of concrete inputs: `Rat.sqrt`, which is
the square root on the squares of rationals only. -/
instance : HasSqrtf ℚ := ⟨Rat.sqrt⟩

/-- On the real numbers `sqrtf` is the square root. -/
noncomputable instance : HasSqrtf ℝ := ⟨Real.sqrt⟩

/-- The number of values of an `unsigned int`. -/
def UINT_SIZE : Nat := 4294967296

/-! ## Data model (`Algebra.h`) -/

structure Vec3 (α : Type) where
  x : α
  y : α
  z : α
deriving DecidableEq, Repr

structure Vec4 (α : Type) where
  x : α
  y : α
  z : α
  w : α
deriving DecidableEq, Repr

/-- Row major order: `cRC` is the cell `c[R][C]`. -/
structure Matrix4x4 (α : Type) where
  c00 : α
  c01 : α
  c02 : α
  c03 : α
  c10 : α
  c11 : α
  c12 : α
  c13 : α
  c20 : α
  c21 : α
  c22 : α
  c23 : α
  c30 : α
  c31 : α
  c32 : α
  c33 : α
deriving DecidableEq, Repr

/-- Multiplication order goes `quat3*quat2*quat1*vec`. -/
structure Quaternion (α : Type) where
  w : α
  x : α
  y : α
  z : α
deriving DecidableEq, Repr

structure Transform (α : Type) where
  position : Vec3 α
  rotation : Quaternion α
  scale : Vec3 α
deriving DecidableEq, Repr

section Algebra

variable {α : Type} [LinearOrderedField α]

/-! ## Scalars -/

/-- C: `float lerp(float a, float b, float t)`. -/
def lerp (a b t : α) : α := (1 - t) * a + t * b

/-- C: `float inverseLerp(float a, float b, float t)`. -/
def inverseLerp (a b t : α) : α := (t - a) / (b - a)

/-! ## Vec3 -/

/-- C: `Vec3 operator+(const Vec3&, const Vec3&)`. -/
instance : Add (Vec3 α) := ⟨fun v1 v2 => ⟨v1.x + v2.x, v1.y + v2.y, v1.z + v2.z⟩⟩

/-- C: `Vec3 operator-(const Vec3&, const Vec3&)`. -/
instance : Sub (Vec3 α) := ⟨fun v1 v2 => ⟨v1.x - v2.x, v1.y - v2.y, v1.z - v2.z⟩⟩

/-- C: `Vec3 operator*(Vec3 a, Vec3 b)`, component-wise. -/
instance : Mul (Vec3 α) := ⟨fun a b => ⟨a.x * b.x, a.y * b.y, a.z * b.z⟩⟩

/-- C: `Vec3 operator*(const Vec3& v, float s)`. -/
instance : HMul (Vec3 α) α (Vec3 α) := ⟨fun v s => ⟨v.x * s, v.y * s, v.z * s⟩⟩

/-- C: `Vec3 lerp(Vec3 a, Vec3 b, float t)`. -/
def Vec3.lerp (a b : Vec3 α) (t : α) : Vec3 α := a * (1 - t) + b * t

/-- The member `xyz` of the union in `Vec4`. -/
def Vec4.xyz (v : Vec4 α) : Vec3 α := ⟨v.x, v.y, v.z⟩

/-! ## Matrix4x4 -/

/-- C: `Matrix4x4::identity`. -/
def Matrix4x4.identity : Matrix4x4 α :=
  ⟨1, 0, 0, 0,
   0, 1, 0, 0,
   0, 0, 1, 0,
   0, 0, 0, 1⟩

/-- C: `Matrix4x4 operator*(const Matrix4x4& a, const Matrix4x4& b)`. -/
instance : Mul (Matrix4x4 α) := ⟨fun a b =>
  ⟨a.c00*b.c00 + a.c01*b.c10 + a.c02*b.c20 + a.c03*b.c30,
   a.c00*b.c01 + a.c01*b.c11 + a.c02*b.c21 + a.c03*b.c31,
   a.c00*b.c02 + a.c01*b.c12 + a.c02*b.c22 + a.c03*b.c32,
   a.c00*b.c03 + a.c01*b.c13 + a.c02*b.c23 + a.c03*b.c33,

   a.c10*b.c00 + a.c11*b.c10 + a.c12*b.c20 + a.c13*b.c30,
   a.c10*b.c01 + a.c11*b.c11 + a.c12*b.c21 + a.c13*b.c31,
   a.c10*b.c02 + a.c11*b.c12 + a.c12*b.c22 + a.c13*b.c32,
   a.c10*b.c03 + a.c11*b.c13 + a.c12*b.c23 + a.c13*b.c33,

   a.c20*b.c00 + a.c21*b.c10 + a.c22*b.c20 + a.c23*b.c30,
   a.c20*b.c01 + a.c21*b.c11 + a.c22*b.c21 + a.c23*b.c31,
   a.c20*b.c02 + a.c21*b.c12 + a.c22*b.c22 + a.c23*b.c32,
   a.c20*b.c03 + a.c21*b.c13 + a.c22*b.c23 + a.c23*b.c33,

   a.c30*b.c00 + a.c31*b.c10 + a.c32*b.c20 + a.c33*b.c30,
   a.c30*b.c01 + a.c31*b.c11 + a.c32*b.c21 + a.c33*b.c31,
   a.c30*b.c02 + a.c31*b.c12 + a.c32*b.c22 + a.c33*b.c32,
   a.c30*b.c03 + a.c31*b.c13 + a.c32*b.c23 + a.c33*b.c33⟩⟩

/-- C: `Vec4 operator*(const Matrix4x4& m, const Vec4& v)`. -/
instance : HMul (Matrix4x4 α) (Vec4 α) (Vec4 α) := ⟨fun m v =>
  ⟨m.c00*v.x + m.c01*v.y + m.c02*v.z + m.c03*v.w,
   m.c10*v.x + m.c11*v.y + m.c12*v.z + m.c13*v.w,
   m.c20*v.x + m.c21*v.y + m.c22*v.z + m.c23*v.w,
   m.c30*v.x + m.c31*v.y + m.c32*v.z + m.c33*v.w⟩⟩

/-- C: `Vec4 operator*(const Matrix4x4& m, const Vec3& v)`; `w` is set to 1. -/
instance : HMul (Matrix4x4 α) (Vec3 α) (Vec4 α) := ⟨fun m v =>
  m * (⟨v.x, v.y, v.z, 1⟩ : Vec4 α)⟩

/-! ## Quaternion -/

/-- C: `Quaternion::identity`. -/
def Quaternion.identity : Quaternion α := ⟨1, 0, 0, 0⟩

/-- C: `float length(Quaternion q)`. -/
def Quaternion.length [HasSqrtf α] (q : Quaternion α) : α :=
  sqrtf (q.w*q.w + q.x*q.x + q.y*q.y + q.z*q.z)

/-- C: `Quaternion inverse(Quaternion q)`. -/
def Quaternion.inverse (q : Quaternion α) : Quaternion α := ⟨q.w, -q.x, -q.y, -q.z⟩

/-- C: `Quaternion normalize(Quaternion q)`. -/
def Quaternion.normalize [HasSqrtf α] (q : Quaternion α) : Quaternion α :=
  let l := q.length
  if l = 0 then ⟨0, 0, 0, 0⟩
  else ⟨q.w/l, q.x/l, q.y/l, q.z/l⟩

/-- C: `float dot(Quaternion a, Quaternion b)`. -/
def Quaternion.dot (a b : Quaternion α) : α := a.w*b.w + a.x*b.x + a.y*b.y + a.z*b.z

/-- C: `Quaternion operator*(const Quaternion& q1, const Quaternion& q2)`. -/
instance : Mul (Quaternion α) := ⟨fun q1 q2 =>
  ⟨q1.w*q2.w - q1.x*q2.x - q1.y*q2.y - q1.z*q2.z,
   q1.w*q2.x + q1.x*q2.w + q1.y*q2.z - q1.z*q2.y,
   q1.w*q2.y + q1.y*q2.w + q1.z*q2.x - q1.x*q2.z,
   q1.w*q2.z + q1.z*q2.w + q1.x*q2.y - q1.y*q2.x⟩⟩

/-- C: `Quaternion operator*(const Quaternion& q, float s)`. -/
instance : HMul (Quaternion α) α (Quaternion α) := ⟨fun q s =>
  ⟨q.w*s, q.x*s, q.y*s, q.z*s⟩⟩

/-- C: `Quaternion operator+(const Quaternion& q1, const Quaternion& q2)`. -/
instance : Add (Quaternion α) := ⟨fun q1 q2 =>
  ⟨q1.w+q2.w, q1.x+q2.x, q1.y+q2.y, q1.z+q2.z⟩⟩

/-- C: `Quaternion lerp(Quaternion a, Quaternion b, float t)`: when the
quaternions would go the long way around, `b` is negated first. -/
def Quaternion.lerp [HasSqrtf α] (a b : Quaternion α) (t : α) : Quaternion α :=
  let b := if a.dot b < 0 then b * (-1 : α) else b
  (a * (1 - t) + b * t).normalize

/-! ## Conversions and Transform -/

/-- C: `Transform::identity`. -/
def Transform.identity : Transform α :=
  ⟨⟨0, 0, 0⟩, Quaternion.identity, ⟨1, 1, 1⟩⟩

/-- C: `Matrix4x4 quaternionToMatrix4x4(const Quaternion& q)`. -/
def quaternionToMatrix4x4 (q : Quaternion α) : Matrix4x4 α :=
  ⟨1 - 2*q.y*q.y - 2*q.z*q.z, 2*q.x*q.y - 2*q.z*q.w,     2*q.x*q.z + 2*q.y*q.w,     0,
   2*q.x*q.y + 2*q.z*q.w,     1 - 2*q.x*q.x - 2*q.z*q.z, 2*q.y*q.z - 2*q.x*q.w,     0,
   2*q.x*q.z - 2*q.y*q.w,     2*q.y*q.z + 2*q.x*q.w,     1 - 2*q.x*q.x - 2*q.y*q.y, 0,
   0,                         0,                         0,                         1⟩

/-- C: `Vec3 operator*(const Quaternion& q, const Vec3& v)`. -/
instance : HMul (Quaternion α) (Vec3 α) (Vec3 α) := ⟨fun q v =>
  (quaternionToMatrix4x4 q * v).xyz⟩

/-- C: `Transform lerp(Transform a, Transform b, float t)`. -/
def Transform.lerp [HasSqrtf α] (a b : Transform α) (t : α) : Transform α :=
  { position := Vec3.lerp a.position b.position t
    rotation := Quaternion.lerp a.rotation b.rotation t
    scale := Vec3.lerp a.scale b.scale t }

/-- C: `Transform concatenateTransforms(Transform parent, Transform child)`. -/
def concatenateTransforms (parent child : Transform α) : Transform α :=
  { scale := child.scale * parent.scale
    rotation := parent.rotation * child.rotation
    position :=
      (quaternionToMatrix4x4 parent.rotation * (child.position * parent.scale)).xyz
        + parent.position }

/-! ## More of `Algebra.h`: square, slerp, matrices of a transform -/

/-- C: `float square(float x)`. -/
def square (x : α) : α := x * x

/-- The local variable `halfAngleSine` of `slerp`, the number that `slerp`
divides by: `sqrt(1.0f - square(halfAngleCosine))`, where `halfAngleCosine` is
the `dot` of `a` and of `b` after the negation that forces the shortest path.
The square root is the operation `sqrtf` of the model. -/
def slerpHalfAngleSine [HasSqrtf α] (a b : Quaternion α) : α :=
  let b := if a.dot b < 0 then b * (-1 : α) else b
  let halfAngleCosine := a.dot b
  sqrtf (1 - square halfAngleCosine)

/-- C: `Quaternion slerp(Quaternion a, Quaternion b, float t)`. The C library
functions `acos` and `sin` are parameters, `fabs` is the absolute value, and
the constant `0.999f` is the rational 999/1000. -/
def Quaternion.slerp [HasSqrtf α] (acos sin : α → α) (a b : Quaternion α) (t : α) :
    Quaternion α :=
  let b := if a.dot b < 0 then b * (-1 : α) else b
  let halfAngleCosine := a.dot b
  let halfAngle := acos halfAngleCosine
  let halfAngleSine := sqrtf (1 - square halfAngleCosine)
  if |halfAngleSine| > 999 / 1000 then
    -- We can't slerp with a 180 degree angle, so do a simple lerp
    Quaternion.lerp a b t
  else
    let ratioA := sin ((1 - t) * halfAngle) / halfAngleSine
    let ratioB := sin (t * halfAngle) / halfAngleSine
    a * ratioA + b * ratioB

/-- C: `Matrix4x4 transformToMatrix4x4(const Transform& t)`. -/
def transformToMatrix4x4 (t : Transform α) : Matrix4x4 α :=
  let scale : Matrix4x4 α :=
    ⟨t.scale.x, 0, 0, 0,
     0, t.scale.y, 0, 0,
     0, 0, t.scale.z, 0,
     0, 0, 0, 1⟩
  let rotation := quaternionToMatrix4x4 t.rotation
  let position : Matrix4x4 α :=
    ⟨1, 0, 0, t.position.x,
     0, 1, 0, t.position.y,
     0, 0, 1, t.position.z,
     0, 0, 0, 1⟩
  position * rotation * scale

/-- C: `Matrix4x4 transformToMatrix4x4Inverse(const Transform& t)`. -/
def transformToMatrix4x4Inverse (t : Transform α) : Matrix4x4 α :=
  let position : Matrix4x4 α :=
    ⟨1, 0, 0, -t.position.x,
     0, 1, 0, -t.position.y,
     0, 0, 1, -t.position.z,
     0, 0, 0, 1⟩
  let rotation := quaternionToMatrix4x4 t.rotation.inverse
  let scale : Matrix4x4 α :=
    ⟨1 / t.scale.x, 0, 0, 0,
     0, 1 / t.scale.y, 0, 0,
     0, 0, 1 / t.scale.z, 0,
     0, 0, 0, 1⟩
  scale * rotation * position

/-! ## More of `Algebra.h`: the matrix inverse -/

/-- The local variable `determinant` of `inverse(Matrix4x4)`. -/
def Matrix4x4.determinant (m : Matrix4x4 α) : α :=
  m.c03*m.c12*m.c21*m.c30 - m.c02*m.c13*m.c21*m.c30 - m.c03*m.c11*m.c22*m.c30
    + m.c01*m.c13*m.c22*m.c30 + m.c02*m.c11*m.c23*m.c30 - m.c01*m.c12*m.c23*m.c30
    - m.c03*m.c12*m.c20*m.c31 + m.c02*m.c13*m.c20*m.c31 + m.c03*m.c10*m.c22*m.c31
    - m.c00*m.c13*m.c22*m.c31 - m.c02*m.c10*m.c23*m.c31 + m.c00*m.c12*m.c23*m.c31
    + m.c03*m.c11*m.c20*m.c32 - m.c01*m.c13*m.c20*m.c32 - m.c03*m.c10*m.c21*m.c32
    + m.c00*m.c13*m.c21*m.c32 + m.c01*m.c10*m.c23*m.c32 - m.c00*m.c11*m.c23*m.c32
    - m.c02*m.c11*m.c20*m.c33 + m.c01*m.c12*m.c20*m.c33 + m.c02*m.c10*m.c21*m.c33
    - m.c00*m.c12*m.c21*m.c33 - m.c01*m.c10*m.c22*m.c33 + m.c00*m.c11*m.c22*m.c33

/-- C: `Matrix4x4 inverse(Matrix4x4 m)`. The sixteen cells `r[i][j]` are
assigned first; then the four cells of the diagonal, and only they, are
multiplied by `1/determinant`. -/
def Matrix4x4.inverse (m : Matrix4x4 α) : Matrix4x4 α :=
  let r00 := m.c12*m.c23*m.c31 - m.c13*m.c22*m.c31 + m.c13*m.c21*m.c32 - m.c11*m.c23*m.c32
      - m.c12*m.c21*m.c33 + m.c11*m.c22*m.c33
  let r01 := m.c03*m.c22*m.c31 - m.c02*m.c23*m.c31 - m.c03*m.c21*m.c32 + m.c01*m.c23*m.c32
      + m.c02*m.c21*m.c33 - m.c01*m.c22*m.c33
  let r02 := m.c02*m.c13*m.c31 - m.c03*m.c12*m.c31 + m.c03*m.c11*m.c32 - m.c01*m.c13*m.c32
      - m.c02*m.c11*m.c33 + m.c01*m.c12*m.c33
  let r03 := m.c03*m.c12*m.c21 - m.c02*m.c13*m.c21 - m.c03*m.c11*m.c22 + m.c01*m.c13*m.c22
      + m.c02*m.c11*m.c23 - m.c01*m.c12*m.c23
  let r10 := m.c13*m.c22*m.c30 - m.c12*m.c23*m.c30 - m.c13*m.c20*m.c32 + m.c10*m.c23*m.c32
      + m.c12*m.c20*m.c33 - m.c10*m.c22*m.c33
  let r11 := m.c02*m.c23*m.c30 - m.c03*m.c22*m.c30 + m.c03*m.c20*m.c32 - m.c00*m.c23*m.c32
      - m.c02*m.c20*m.c33 + m.c00*m.c22*m.c33
  let r12 := m.c03*m.c12*m.c30 - m.c02*m.c13*m.c30 - m.c03*m.c10*m.c32 + m.c00*m.c13*m.c32
      + m.c02*m.c10*m.c33 - m.c00*m.c12*m.c33
  let r13 := m.c02*m.c13*m.c20 - m.c03*m.c12*m.c20 + m.c03*m.c10*m.c22 - m.c00*m.c13*m.c22
      - m.c02*m.c10*m.c23 + m.c00*m.c12*m.c23
  let r20 := m.c11*m.c23*m.c30 - m.c13*m.c21*m.c30 + m.c13*m.c20*m.c31 - m.c10*m.c23*m.c31
      - m.c11*m.c20*m.c33 + m.c10*m.c21*m.c33
  let r21 := m.c03*m.c21*m.c30 - m.c01*m.c23*m.c30 - m.c03*m.c20*m.c31 + m.c00*m.c23*m.c31
      + m.c01*m.c20*m.c33 - m.c00*m.c21*m.c33
  let r22 := m.c01*m.c13*m.c30 - m.c03*m.c11*m.c30 + m.c03*m.c10*m.c31 - m.c00*m.c13*m.c31
      - m.c01*m.c10*m.c33 + m.c00*m.c11*m.c33
  let r23 := m.c03*m.c11*m.c20 - m.c01*m.c13*m.c20 - m.c03*m.c10*m.c21 + m.c00*m.c13*m.c21
      + m.c01*m.c10*m.c23 - m.c00*m.c11*m.c23
  let r30 := m.c12*m.c21*m.c30 - m.c11*m.c22*m.c30 - m.c12*m.c20*m.c31 + m.c10*m.c22*m.c31
      + m.c11*m.c20*m.c32 - m.c10*m.c21*m.c32
  let r31 := m.c01*m.c22*m.c30 - m.c02*m.c21*m.c30 + m.c02*m.c20*m.c31 - m.c00*m.c22*m.c31
      - m.c01*m.c20*m.c32 + m.c00*m.c21*m.c32
  let r32 := m.c02*m.c11*m.c30 - m.c01*m.c12*m.c30 - m.c02*m.c10*m.c31 + m.c00*m.c12*m.c31
      + m.c01*m.c10*m.c32 - m.c00*m.c11*m.c32
  let r33 := m.c01*m.c12*m.c20 - m.c02*m.c11*m.c20 + m.c02*m.c10*m.c21 - m.c00*m.c12*m.c21
      - m.c01*m.c10*m.c22 + m.c00*m.c11*m.c22
  let determinant := m.determinant
  let r00 := r00 * (1 / determinant)
  let r11 := r11 * (1 / determinant)
  let r22 := r22 * (1 / determinant)
  let r33 := r33 * (1 / determinant)
  ⟨r00, r01, r02, r03,
   r10, r11, r12, r13,
   r20, r21, r22, r23,
   r30, r31, r32, r33⟩

/-- The local matrix `scale` of `transformToMatrix4x4` for the scale `v`. -/
def scaleMatrix (v : Vec3 α) : Matrix4x4 α :=
  ⟨v.x, 0, 0, 0,
   0, v.y, 0, 0,
   0, 0, v.z, 0,
   0, 0, 0, 1⟩

/-- The local matrix `position` of `transformToMatrix4x4` for the position `v`. -/
def positionMatrix (v : Vec3 α) : Matrix4x4 α :=
  ⟨1, 0, 0, v.x,
   0, 1, 0, v.y,
   0, 0, 1, v.z,
   0, 0, 0, 1⟩
end Algebra

/-! ## Data model (`SkeletonAnimation.h`) -/

/-- C: `Skeleton::Joint`. -/
structure Skeleton.Joint (α : Type) where
  parentIndex : Nat
  modelSpaceBindPoseInverse : Matrix4x4 α

/-- C: `struct Skeleton`. The array of joints is a tree; every joint must come
after its parent in the array; the root joint is at 0 and its parent index is
itself. -/
structure Skeleton (α : Type) where
  joints : Nat → Skeleton.Joint α
  jointCount : Nat
  rootJointIndex : Nat

/-- C: `SkeletonAnimation::JointAnimation`: the scale, rotate and translate
channels in separate arrays. -/
structure SkeletonAnimation.JointAnimation (α : Type) where
  scaleKeyCount : Nat
  scaleKeyTimes : Nat → α
  scaleKeyValues : Nat → Vec3 α
  rotateKeyCount : Nat
  rotateKeyTimes : Nat → α
  rotateKeyValues : Nat → Quaternion α
  translateKeyCount : Nat
  translateKeyTimes : Nat → α
  translateKeyValues : Nat → Vec3 α

/-- C: `struct SkeletonAnimation`. -/
structure SkeletonAnimation (α : Type) where
  duration : α
  keysPerSecond : Nat
  jointCount : Nat
  jointAnimations : Nat → SkeletonAnimation.JointAnimation α

section Animation

variable {α : Type} [LinearOrderedField α]

/-! ## Keyframe sampler -/

/-- The key times of a channel of `n` keys are strictly ascending. -/
def StrictlyAscending (times : Nat → α) (n : Nat) : Prop :=
  ∀ j < n, ∀ i < j, times i < times j

instance (times : Nat → α) (n : Nat) : Decidable (StrictlyAscending times n) := by
  unfold StrictlyAscending
  infer_instance

/-- The loop of `findAnimationKeys` from index `i` on, with `fuel` iterations
left (`i + fuel = numberOfTimes`). The result is `(firstKey, secondKey)`. -/
def findAnimationKeysLoop (time : α) (arrayOfTimes : Nat → α) (numberOfTimes : Nat) :
    Nat → Nat → Nat × Nat
  | 0, _ =>
    ((numberOfTimes + UINT_SIZE - 1) % UINT_SIZE, (numberOfTimes + UINT_SIZE - 1) % UINT_SIZE)
  | fuel + 1, i =>
    if arrayOfTimes i > time ∧ i > 0 then (i - 1, i)
    else findAnimationKeysLoop time arrayOfTimes numberOfTimes fuel (i + 1)

/-- C: `void findAnimationKeys(unsigned int* out_firstKey, unsigned int*
out_secondKey, float time, float* arrayOfTimes, unsigned int numberOfTimes)`;
the two out parameters are the returned pair. -/
def findAnimationKeys (time : α) (arrayOfTimes : Nat → α) (numberOfTimes : Nat) : Nat × Nat :=
  findAnimationKeysLoop time arrayOfTimes numberOfTimes numberOfTimes 0

/-- The body of the loop of `sampleSkeletonAnimation` for one joint: the value
of `jointTransform` that is stored in `out_jointTransformsArray[i]`. -/
def sampleJointTransform [HasSqrtf α] (time : α)
    (ja : SkeletonAnimation.JointAnimation α) : Transform α :=
  let jointTransform : Transform α := Transform.identity
  -- Rotation
  let jointTransform :=
    if ja.rotateKeyCount > 0 then
      let keys := findAnimationKeys time ja.rotateKeyTimes ja.rotateKeyCount
      if keys.1 = keys.2 then
        { jointTransform with rotation := ja.rotateKeyValues keys.1 }
      else
        let lerpTime := inverseLerp (ja.rotateKeyTimes keys.1) (ja.rotateKeyTimes keys.2) time
        { jointTransform with
          rotation := Quaternion.lerp (ja.rotateKeyValues keys.1) (ja.rotateKeyValues keys.2) lerpTime }
    else jointTransform
  -- Position
  let jointTransform :=
    if ja.translateKeyCount > 0 then
      let keys := findAnimationKeys time ja.translateKeyTimes ja.translateKeyCount
      if keys.1 = keys.2 then
        { jointTransform with position := ja.translateKeyValues keys.1 }
      else
        let lerpTime :=
          inverseLerp (ja.translateKeyTimes keys.1) (ja.translateKeyTimes keys.2) time
        { jointTransform with
          position := Vec3.lerp (ja.translateKeyValues keys.1) (ja.translateKeyValues keys.2) lerpTime }
    else jointTransform
  -- Scale
  let jointTransform :=
    if ja.scaleKeyCount > 0 then
      let keys := findAnimationKeys time ja.scaleKeyTimes ja.scaleKeyCount
      if keys.1 = keys.2 then
        { jointTransform with scale := ja.scaleKeyValues keys.1 }
      else
        let lerpTime := inverseLerp (ja.scaleKeyTimes keys.1) (ja.scaleKeyTimes keys.2) time
        { jointTransform with
          scale := Vec3.lerp (ja.scaleKeyValues keys.1) (ja.scaleKeyValues keys.2) lerpTime }
    else jointTransform
  jointTransform

/-- C: `void sampleSkeletonAnimation(Transform* out_jointTransformsArray, float
time, const SkeletonAnimation& animation)`; the result is the output array
after the call. -/
def sampleSkeletonAnimation [HasSqrtf α] (out_jointTransformsArray : Nat → Transform α)
    (time : α) (animation : SkeletonAnimation α) : Nat → Transform α :=
  (List.range animation.jointCount).foldl
    (fun out i => Function.update out i (sampleJointTransform time (animation.jointAnimations i)))
    out_jointTransformsArray

/-- The calls of `findAnimationKeys` that the loop body of
`sampleSkeletonAnimation` makes for one joint, in order: the `numberOfTimes`
argument of each. -/
def sampleJointFindCalls (ja : SkeletonAnimation.JointAnimation α) : List Nat :=
  (if ja.rotateKeyCount > 0 then [ja.rotateKeyCount] else [])
    ++ (if ja.translateKeyCount > 0 then [ja.translateKeyCount] else [])
    ++ (if ja.scaleKeyCount > 0 then [ja.scaleKeyCount] else [])

/-! ## Pose blender -/

/-- An input pointer `Transform*` of a blend function. The header says of these
functions that inputs and output can be the same array: the pointer is either
the output pointer itself or a pointer to another array. -/
inductive PosePtr (α : Type) where
  | sameAsOutput : PosePtr α
  | other (poses : Nat → Transform α) : PosePtr α

/-- The element `p[i]` read through an input pointer, when the output array
holds `out` at that moment. -/
def PosePtr.read (p : PosePtr α) (out : Nat → Transform α) (i : Nat) : Transform α :=
  match p with
  | .sameAsOutput => out i
  | .other poses => poses i

/-- C: `void buildDifferenceSkeletonPose(Transform *out_differenceJointPoses,
Transform *referenceJointPoses, Transform *targetJointPoses, unsigned int
jointCount)`; the result is the output array after the call. -/
def buildDifferenceSkeletonPose (out_differenceJointPoses : Nat → Transform α)
    (referenceJointPoses targetJointPoses : PosePtr α) (jointCount : Nat) :
    Nat → Transform α :=
  (List.range jointCount).foldl
    (fun out i =>
      let t : Transform α := Transform.identity
      let t := { t with
        rotation :=
          (targetJointPoses.read out i).rotation
            * (referenceJointPoses.read out i).rotation.inverse }
      let t := { t with
        position :=
          (targetJointPoses.read out i).position - (referenceJointPoses.read out i).position }
      let t := { t with
        scale := (targetJointPoses.read out i).scale - (referenceJointPoses.read out i).scale }
      Function.update out i t)
    out_differenceJointPoses

/-- C: `void additiveBlendSkeletonPoses(Transform *out_blendedJointPoses,
Transform *baseJointPoses, Transform *addedJointPoses, unsigned int jointCount,
float addWeight)`; the result is the output array after the call. -/
def additiveBlendSkeletonPoses [HasSqrtf α] (out_blendedJointPoses : Nat → Transform α)
    (baseJointPoses addedJointPoses : PosePtr α) (jointCount : Nat) (addWeight : α) :
    Nat → Transform α :=
  (List.range jointCount).foldl
    (fun out i =>
      let t : Transform α := Transform.identity
      let t := { t with
        position :=
          (baseJointPoses.read out i).position
            + (addedJointPoses.read out i).position * addWeight }
      let t := { t with
        rotation :=
          Quaternion.lerp Quaternion.identity (addedJointPoses.read out i).rotation addWeight
            * (baseJointPoses.read out i).rotation }
      let t := { t with
        scale :=
          (baseJointPoses.read out i).scale + (addedJointPoses.read out i).scale * addWeight }
      Function.update out i t)
    out_blendedJointPoses

/-- C: `void lerpBlendSkeletonPoses(Transform *out_blendedJointPoses, Transform
*jointPosesA, Transform *jointPosesB, unsigned int jointCount, float t)`; the
result is the output array after the call. -/
def lerpBlendSkeletonPoses [HasSqrtf α] (out_blendedJointPoses : Nat → Transform α)
    (jointPosesA jointPosesB : PosePtr α) (jointCount : Nat) (t : α) : Nat → Transform α :=
  (List.range jointCount).foldl
    (fun out i =>
      Function.update out i (Transform.lerp (jointPosesA.read out i) (jointPosesB.read out i) t))
    out_blendedJointPoses

/-- The elements of a `std::vector<Transform>` after its construction with a
size: every float is zero. -/
def zeroTransform : Transform α := ⟨⟨0, 0, 0⟩, ⟨0, 0, 0, 0⟩, ⟨0, 0, 0⟩⟩

/-- C: `void blendSkeletonAnimation(Transform *out_blendedJointPoses,
SkeletonAnimation* animation, float animationTime, float weight,
SkeletonAnimation *referencePose, float referencePoseTime)`; the null pointer
for `referencePose` is `none`, and the result is the output array after the
call. The two local vectors have `jointCount` elements; the second is written
by `sampleSkeletonAnimation` up to the joint count of the reference clip. -/
def blendSkeletonAnimation [HasSqrtf α] (out_blendedJointPoses : Nat → Transform α)
    (animation : SkeletonAnimation α) (animationTime weight : α)
    (referencePose : Option (SkeletonAnimation α)) (referencePoseTime : α) :
    Nat → Transform α :=
  let jointCount := animation.jointCount
  let jointTransforms : Nat → Transform α := fun _ => zeroTransform
  let jointTransforms := sampleSkeletonAnimation jointTransforms animationTime animation
  let jointTransforms :=
    match referencePose with
    | some referencePose =>
      let jointTransformsReferencePose : Nat → Transform α := fun _ => zeroTransform
      let jointTransformsReferencePose :=
        sampleSkeletonAnimation jointTransformsReferencePose referencePoseTime referencePose
      buildDifferenceSkeletonPose jointTransforms (.other jointTransformsReferencePose)
        .sameAsOutput jointCount
    | none => jointTransforms
  additiveBlendSkeletonPoses out_blendedJointPoses .sameAsOutput (.other jointTransforms)
    jointCount weight

/-- The composition that the specification states for `blendSkeletonAnimation`,
on arrays that are all apart: with `S` the sample of the clip, `D` is `S` when
there is no reference clip and the difference pose of the sample of the
reference clip and `S` when there is one, and the result is the additive blend
of the accumulator and `D` over the joints of the clip. -/
def blendSkeletonAnimationStated [HasSqrtf α] (acc : Nat → Transform α)
    (animation : SkeletonAnimation α) (animationTime weight : α)
    (referencePose : Option (SkeletonAnimation α)) (referencePoseTime : α) :
    Nat → Transform α :=
  let n := animation.jointCount
  let S := sampleSkeletonAnimation (fun _ => zeroTransform) animationTime animation
  let D :=
    match referencePose with
    | none => S
    | some referencePose =>
      buildDifferenceSkeletonPose (fun _ => zeroTransform)
        (.other (sampleSkeletonAnimation (fun _ => zeroTransform) referencePoseTime
          referencePose))
        (.other S) n
  additiveBlendSkeletonPoses acc (.other acc) (.other D) n weight

/-! ## Hierarchy resolver -/

/-- The loop of `jointPosesToModelSpace` over the joints `1 .. m`, on a memory
of transforms in which `out_modelSpaceJoints` and `jointPoses` are addresses. -/
def jointPosesToModelSpaceUpTo (mem : Nat → Transform α) (out_modelSpaceJoints jointPoses : Nat)
    (skeleton : Skeleton α) (m : Nat) : Nat → Transform α :=
  (List.range' 1 m).foldl
    (fun mem i =>
      let parentTransform := mem (jointPoses + (skeleton.joints i).parentIndex)
      Function.update mem (out_modelSpaceJoints + i)
        (concatenateTransforms parentTransform (mem (jointPoses + i))))
    mem

/-- C: `void jointPosesToModelSpace(Transform* out_modelSpaceJoints, Transform*
jointPoses, Skeleton& skeleton)`. The two pointers are addresses in one memory
of transforms, so that they may be the same array; the result is the memory
after the call. The loop runs from `i=1`, to skip the root joint, while
`i<skeleton.jointCount`. -/
def jointPosesToModelSpace (mem : Nat → Transform α) (out_modelSpaceJoints jointPoses : Nat)
    (skeleton : Skeleton α) : Nat → Transform α :=
  jointPosesToModelSpaceUpTo mem out_modelSpaceJoints jointPoses skeleton
    (skeleton.jointCount - 1)

/-- C: `void buildSkinningMatrix(Matrix4x4* out_matrixArray, Transform*
modelSpaceJoints, Skeleton& skeleton)`; the result is the output array after
the call. -/
def buildSkinningMatrix (out_matrixArray : Nat → Matrix4x4 α)
    (modelSpaceJoints : Nat → Transform α) (skeleton : Skeleton α) : Nat → Matrix4x4 α :=
  (List.range skeleton.jointCount).foldl
    (fun out i =>
      Function.update out i
        (transformToMatrix4x4 (modelSpaceJoints i)
          * (skeleton.joints i).modelSpaceBindPoseInverse))
    out_matrixArray

end Animation

/-! ## Binary assets (`Goblin3D.h`, `SkeletonAnimation.h`, `Gobmesh.h`)

A file is a sequence of 32-bit words: every item of the two formats is an
`unsigned int` or a `float`, and every size that is read or written is a
multiple of 4 bytes. A word is kept as the number that its bit pattern
encodes; a `float` of a file is the word itself. `size_t` has 64 bits.
-/

/-- A 32-bit word of a file. -/
abbrev Word := Nat

/-- The number of values of a `size_t`. -/
def SIZE_SIZE : Nat := 18446744073709551616

/-- C: `class BinaryReader`. `bytes` is the buffer `_bytes` seen as words:
`bytes k` is made of the bytes `4k .. 4k+3`. The counter `skippedReads` is not
a member of the class: it counts the calls of `readInto` that copied nothing. -/
structure BinaryReader where
  bytes : Nat → Word
  byteCount : Nat
  readPosition : Nat
  skippedReads : Nat

/-- C: `BinaryReader::BinaryReader(char* data, size_t byteCount, size_t
startingOffset=0)`, with the default starting offset. -/
def BinaryReader.create (data : Nat → Word) (byteCount : Nat) : BinaryReader :=
  ⟨data, byteCount, 0, 0⟩

/-- The test of `readInto`: `_readPosition+numberOfBytes <= _byteCount`, the sum
in `size_t`. -/
def BinaryReader.fits (b : BinaryReader) (numberOfBytes : Nat) : Bool :=
  decide ((b.readPosition + numberOfBytes) % SIZE_SIZE ≤ b.byteCount)

/-- C: `void BinaryReader::readInto(void* readInto, size_t numberOfBytes)`, the
reader after the call: the read position advances whether or not the copy is
made. -/
def BinaryReader.advance (b : BinaryReader) (numberOfBytes : Nat) : BinaryReader :=
  { b with
    readPosition := (b.readPosition + numberOfBytes) % SIZE_SIZE
    skippedReads := if b.fits numberOfBytes then b.skippedReads else b.skippedReads + 1 }

/-- The word at `index` words after the read position. -/
def BinaryReader.word (b : BinaryReader) (index : Nat) : Word :=
  b.bytes (b.readPosition / 4 + index)

/-- C: `bool BinaryReader::atEnd()`. -/
def BinaryReader.atEnd (b : BinaryReader) : Bool :=
  decide (b.readPosition = b.byteCount)

/-- C: `b.readInto(&x, sizeof(x))` for an `unsigned int x` that holds
`destination` before the call. -/
def BinaryReader.readUInt (b : BinaryReader) (destination : Nat) : Nat × BinaryReader :=
  (if b.fits 4 then b.word 0 % UINT_SIZE else destination, b.advance 4)

/-- C: `b.readInto(&x, sizeof(x))` for a `float x`. -/
def BinaryReader.readFloat (b : BinaryReader) (destination : Word) : Word × BinaryReader :=
  (if b.fits 4 then b.word 0 else destination, b.advance 4)

/-- C: `b.readInto(array, count*sizeof(float))` for a `float* array`. -/
def BinaryReader.readFloats (b : BinaryReader) (destination : Nat → Word) (count : Nat) :
    (Nat → Word) × BinaryReader :=
  (if b.fits (count * 4) then fun i => if i < count then b.word i else destination i
   else destination,
   b.advance (count * 4))

/-- C: `b.readInto(array, count*sizeof(Vec3))` for a `Vec3* array`. -/
def BinaryReader.readVec3s (b : BinaryReader) (destination : Nat → Vec3 Word) (count : Nat) :
    (Nat → Vec3 Word) × BinaryReader :=
  (if b.fits (count * 12) then
     fun i => if i < count then ⟨b.word (3 * i), b.word (3 * i + 1), b.word (3 * i + 2)⟩
       else destination i
   else destination,
   b.advance (count * 12))

/-- C: `b.readInto(array, count*sizeof(Quaternion))` for a `Quaternion* array`;
the members of a `Quaternion` are in the order `w, x, y, z`. -/
def BinaryReader.readQuaternions (b : BinaryReader) (destination : Nat → Quaternion Word)
    (count : Nat) : (Nat → Quaternion Word) × BinaryReader :=
  (if b.fits (count * 16) then
     fun i =>
       if i < count then
         ⟨b.word (4 * i), b.word (4 * i + 1), b.word (4 * i + 2), b.word (4 * i + 3)⟩
       else destination i
   else destination,
   b.advance (count * 16))

/-- C: `b.readInto(&m, sizeof(m))` for a `Matrix4x4 m`, 16 floats in row major
order. -/
def BinaryReader.readMatrix4x4 (b : BinaryReader) (destination : Matrix4x4 Word) :
    Matrix4x4 Word × BinaryReader :=
  (if b.fits 64 then
     ⟨b.word 0, b.word 1, b.word 2, b.word 3,
      b.word 4, b.word 5, b.word 6, b.word 7,
      b.word 8, b.word 9, b.word 10, b.word 11,
      b.word 12, b.word 13, b.word 14, b.word 15⟩
   else destination,
   b.advance 64)

/-- The loop of `createSkeletonFromGOBSKEL` from joint `i` on, with `fuel`
iterations left. `junk i` is what the local variable `joint` holds before it is
read in iteration `i`. The result is the array `joints`, or `none` when the
assertion fails. -/
def createSkeletonFromGOBSKELLoop (junk : Nat → Skeleton.Joint Word) (jointCount : Nat) :
    Nat → Nat → BinaryReader → (Nat → Skeleton.Joint Word) → Option (Nat → Skeleton.Joint Word)
  | 0, _, _, joints => some joints
  | fuel + 1, i, b, joints =>
    let joint := junk i
    let r1 := b.readUInt joint.parentIndex
    let r2 := r1.2.readMatrix4x4 joint.modelSpaceBindPoseInverse
    let joint : Skeleton.Joint Word := ⟨r1.1, r2.1⟩
    if joint.parentIndex < jointCount then
      createSkeletonFromGOBSKELLoop junk jointCount fuel (i + 1) r2.2
        (Function.update joints i joint)
    else none

/-- C: `void createSkeletonFromGOBSKEL(Skeleton* out_skeleton, char* bytes,
size_t byteCount)`. `out_skeleton` is what the structure holds before the call,
`junk` what the local `joint` and the new array hold before they are written;
the result is the structure after the call, or `none` when the assertion
fails. Its `new[]` is taken to get its storage; `createSkeletonFromGOBSKELAlloc`
is the loader with the `std::bad_alloc` of `new[]`. -/
def createSkeletonFromGOBSKEL (out_skeleton : Skeleton Word) (junk : Nat → Skeleton.Joint Word)
    (bytes : Nat → Word) (byteCount : Nat) : Option (Skeleton Word) :=
  let b := BinaryReader.create bytes byteCount
  let r1 := b.readUInt out_skeleton.jointCount
  let r2 := r1.2.readUInt out_skeleton.rootJointIndex
  match createSkeletonFromGOBSKELLoop junk r1.1 r1.1 0 r2.2 junk with
  | none => none
  | some joints => some ⟨joints, r1.1, r2.1⟩

/-- The body of the loop of `createSkeletonAnimationFromGOBSKELANIM` for one
joint. `junk` is what the local variable `joint` and the arrays made by `new`
hold before they are read into. -/
def readJointAnimation (junk : SkeletonAnimation.JointAnimation Word) (b : BinaryReader) :
    SkeletonAnimation.JointAnimation Word × BinaryReader :=
  -- Scale
  let c1 := b.readUInt junk.scaleKeyCount
  let t1 := c1.2.readFloats junk.scaleKeyTimes c1.1
  let v1 := t1.2.readVec3s junk.scaleKeyValues c1.1
  -- Rotation
  let c2 := v1.2.readUInt junk.rotateKeyCount
  let t2 := c2.2.readFloats junk.rotateKeyTimes c2.1
  let v2 := t2.2.readQuaternions junk.rotateKeyValues c2.1
  -- Translation
  let c3 := v2.2.readUInt junk.translateKeyCount
  let t3 := c3.2.readFloats junk.translateKeyTimes c3.1
  let v3 := t3.2.readVec3s junk.translateKeyValues c3.1
  (⟨c1.1, t1.1, v1.1, c2.1, t2.1, v2.1, c3.1, t3.1, v3.1⟩, v3.2)

/-- The loop of `createSkeletonAnimationFromGOBSKELANIM` from joint `i` on, with
`fuel` iterations left. -/
def createSkeletonAnimationFromGOBSKELANIMLoop
    (junk : Nat → SkeletonAnimation.JointAnimation Word) :
    Nat → Nat → BinaryReader → (Nat → SkeletonAnimation.JointAnimation Word) →
      (Nat → SkeletonAnimation.JointAnimation Word) × BinaryReader
  | 0, _, b, jointAnimations => (jointAnimations, b)
  | fuel + 1, i, b, jointAnimations =>
    let r := readJointAnimation (junk i) b
    createSkeletonAnimationFromGOBSKELANIMLoop junk fuel (i + 1) r.2
      (Function.update jointAnimations i r.1)

/-- C: `void createSkeletonAnimationFromGOBSKELANIM(SkeletonAnimation*
out_animation, char* bytes, size_t byteCount)`. `out_animation` is what the
structure holds before the call, `junk` what the local `joint` and the new
arrays hold before they are written; the result is the structure after the
call, with the reader as it is at the end. Every `new[]` is taken to get its
storage; `createSkeletonAnimationFromGOBSKELANIMAlloc` is the loader with the
`std::bad_alloc` of `new[]`. -/
def createSkeletonAnimationFromGOBSKELANIM (out_animation : SkeletonAnimation Word)
    (junk : Nat → SkeletonAnimation.JointAnimation Word) (bytes : Nat → Word)
    (byteCount : Nat) : SkeletonAnimation Word × BinaryReader :=
  let b := BinaryReader.create bytes byteCount
  let r1 := b.readFloat out_animation.duration
  let r2 := r1.2.readUInt out_animation.jointCount
  let r := createSkeletonAnimationFromGOBSKELANIMLoop junk r2.1 0 r2.2 junk
  ({ out_animation with duration := r1.1, jointCount := r2.1, jointAnimations := r.1 }, r.2)

namespace gobmesh

/-- C: `struct JointAnimation` of `Gobmesh.h`. -/
structure JointAnimation where
  scaleKeyTimes : List Word
  scaleKeys : List (Vec3 Word)
  roateKeyTimes : List Word
  rotationKeys : List (Quaternion Word)
  translateKeyTimes : List Word
  translationKeys : List (Vec3 Word)

/-- C: `struct SkeletonAnimation` of `Gobmesh.h`. -/
structure SkeletonAnimation where
  name : String
  duration : Word
  keysPerSecond : Word
  joints : List JointAnimation

/-- C: `output.write((char*)&(times[0]), count*sizeof(float))`: the first
`count` floats of the vector. -/
def writeFloats (times : List Word) (count : Nat) : List Word :=
  times.take count

/-- C: `output.write((char*)&(keys[0]), count*sizeof(Vec3))`. -/
def writeVec3s (keys : List (Vec3 Word)) (count : Nat) : List Word :=
  (keys.take count).flatMap fun v => [v.x, v.y, v.z]

/-- C: `output.write((char*)&(keys[0]), count*sizeof(Quaternion))`. -/
def writeQuaternions (keys : List (Quaternion Word)) (count : Nat) : List Word :=
  (keys.take count).flatMap fun q => [q.w, q.x, q.y, q.z]

/-- The body of the loop of `outputGOBSKELANIM`: the words written for one
joint. Every key count is the size of the vector of values, as an `unsigned
int`. -/
def outputJoint (joint : JointAnimation) : List Word :=
  -- Scale
  let scaleKeyCount := joint.scaleKeys.length % UINT_SIZE
  let scale :=
    [scaleKeyCount]
      ++ (if scaleKeyCount > 0 then
            writeFloats joint.scaleKeyTimes scaleKeyCount
              ++ writeVec3s joint.scaleKeys scaleKeyCount
          else [])
  -- Rotation
  let rotateKeyCount := joint.rotationKeys.length % UINT_SIZE
  let rotate :=
    [rotateKeyCount]
      ++ (if rotateKeyCount > 0 then
            writeFloats joint.roateKeyTimes rotateKeyCount
              ++ writeQuaternions joint.rotationKeys rotateKeyCount
          else [])
  -- Translation
  let translateKeyCount := joint.translationKeys.length % UINT_SIZE
  let translate :=
    [translateKeyCount]
      ++ (if translateKeyCount > 0 then
            writeFloats joint.translateKeyTimes translateKeyCount
              ++ writeVec3s joint.translationKeys translateKeyCount
          else [])
  scale ++ rotate ++ translate

/-- C: `void outputGOBSKELANIM(const std::string& fileName, SkeletonAnimation&
animation)`, when the file can be created: the words written to it. -/
def outputGOBSKELANIM (animation : SkeletonAnimation) : List Word :=
  [animation.duration, animation.joints.length % UINT_SIZE]
    ++ animation.joints.flatMap outputJoint

end gobmesh

/-- The words of `L` are in the buffer from word `p` on, the reader stands at
word `p`, and the buffer is at least as long as that and no longer than a
`size_t` can say. -/
def BinaryReader.AtWords (b : BinaryReader) (p : Nat) (L : List Word) : Prop :=
  b.readPosition = 4 * p
  ∧ (∀ k, k < L.length → b.bytes (p + k) = L.getD k 0)
  ∧ 4 * (p + L.length) ≤ b.byteCount
  ∧ b.byteCount < SIZE_SIZE

/-- The time list and the value list of each channel of `joint` have the same
length, and every key count is in the range of `unsigned int`. -/
def gobmesh.JointAnimation.WellFormed (joint : gobmesh.JointAnimation) : Prop :=
  joint.scaleKeyTimes.length = joint.scaleKeys.length
  ∧ joint.roateKeyTimes.length = joint.rotationKeys.length
  ∧ joint.translateKeyTimes.length = joint.translationKeys.length
  ∧ joint.scaleKeys.length < UINT_SIZE
  ∧ joint.rotationKeys.length < UINT_SIZE
  ∧ joint.translationKeys.length < UINT_SIZE

/-- The arrays of `a` hold the keys of `joint`: for each channel the key count,
and key for key the times and the values. -/
def gobmesh.JointAnimation.LoadedAs (joint : gobmesh.JointAnimation)
    (a : SkeletonAnimation.JointAnimation Word) : Prop :=
  a.scaleKeyCount = joint.scaleKeys.length
  ∧ (∀ k, k < joint.scaleKeys.length →
      joint.scaleKeyTimes[k]? = some (a.scaleKeyTimes k)
      ∧ joint.scaleKeys[k]? = some (a.scaleKeyValues k))
  ∧ a.rotateKeyCount = joint.rotationKeys.length
  ∧ (∀ k, k < joint.rotationKeys.length →
      joint.roateKeyTimes[k]? = some (a.rotateKeyTimes k)
      ∧ joint.rotationKeys[k]? = some (a.rotateKeyValues k))
  ∧ a.translateKeyCount = joint.translationKeys.length
  ∧ (∀ k, k < joint.translationKeys.length →
      joint.translateKeyTimes[k]? = some (a.translateKeyTimes k)
      ∧ joint.translationKeys[k]? = some (a.translateKeyValues k))

/-! ## The converter (`gobmesh_converter/AssimpConvert.h`, `Gobmesh.h`) -/

/-- Assimp: `aiMatrix4x4`, a row-major 4x4 matrix with the members `a1` to
`d4`. -/
structure aiMatrix4x4 (α : Type) where
  a1 : α
  a2 : α
  a3 : α
  a4 : α
  b1 : α
  b2 : α
  b3 : α
  b4 : α
  c1 : α
  c2 : α
  c3 : α
  c4 : α
  d1 : α
  d2 : α
  d3 : α
  d4 : α

/-- Assimp: `aiNode`, the members that `readJoint` uses: the name, the
transformation relative to the parent, and the children (`mNumChildren` is the
length of the list). -/
inductive aiNode (α : Type) where
  | mk (mName : String) (mTransformation : aiMatrix4x4 α) (mChildren : List (aiNode α)) :
      aiNode α

/-- The member `mName`. -/
def aiNode.mName {α : Type} : aiNode α → String
  | .mk mName _ _ => mName

/-- The member `mTransformation`. -/
def aiNode.mTransformation {α : Type} : aiNode α → aiMatrix4x4 α
  | .mk _ mTransformation _ => mTransformation

/-- The member `mChildren`. -/
def aiNode.mChildren {α : Type} : aiNode α → List (aiNode α)
  | .mk _ _ mChildren => mChildren

namespace gobmesh

/-- C: `struct Joint` of `Gobmesh.h`. -/
structure Joint (α : Type) where
  name : String
  parentIndex : Nat
  inverseBindMatrix : Matrix4x4 α

/-- C: `struct Skeleton` of `Gobmesh.h`. -/
structure Skeleton (α : Type) where
  joints : List (Joint α)
  rootJointIndex : Nat

end gobmesh

section Converter

variable {α : Type} [LinearOrderedField α]

/-- C: `Matrix4x4 getMatrix4x4(aiMatrix4x4 m)`. -/
def getMatrix4x4 (m : aiMatrix4x4 α) : Matrix4x4 α :=
  ⟨m.a1, m.a2, m.a3, m.a4,
   m.b1, m.b2, m.b3, m.b4,
   m.c1, m.c2, m.c3, m.c4,
   m.d1, m.d2, m.d3, m.d4⟩

mutual

/-- C: `void readJoint(Skeleton* out_skeleton, const aiNode* jointNode, uint
parentIndex, Matrix4x4 parentTransform)`, the skeleton after the call. -/
def readJoint (out_skeleton : gobmesh.Skeleton α) :
    aiNode α → Nat → Matrix4x4 α → gobmesh.Skeleton α
  | .mk mName mTransformation mChildren, parentIndex, parentTransform =>
    let transform := parentTransform * getMatrix4x4 mTransformation
    let joint : gobmesh.Joint α := ⟨mName, parentIndex, Matrix4x4.inverse transform⟩
    let jointIndex := out_skeleton.joints.length % UINT_SIZE
    readJointChildren { out_skeleton with joints := out_skeleton.joints ++ [joint] }
      mChildren jointIndex transform

/-- The loop of `readJoint` over the children that are left. -/
def readJointChildren (out_skeleton : gobmesh.Skeleton α) :
    List (aiNode α) → Nat → Matrix4x4 α → gobmesh.Skeleton α
  | [], _, _ => out_skeleton
  | child :: rest, jointIndex, transform =>
    readJointChildren (readJoint out_skeleton child jointIndex transform) rest jointIndex
      transform

end

/-- C: `void convertAssimpSkeleton(Skeleton* out_skeleton, aiNode*
assimpSkeleton)`, the skeleton after the call. -/
def convertAssimpSkeleton (out_skeleton : gobmesh.Skeleton α) (assimpSkeleton : aiNode α) :
    gobmesh.Skeleton α :=
  readJoint { out_skeleton with rootJointIndex := 0 } assimpSkeleton 0 Matrix4x4.identity

end Converter

mutual

/-- The nodes of a tree in pre-order: the node, then the nodes of the subtrees
of its children, in the order of the children. -/
def aiNode.preorder {α : Type} : aiNode α → List (aiNode α)
  | .mk mName mTransformation mChildren =>
    .mk mName mTransformation mChildren :: aiNode.preorderList mChildren

/-- The nodes of a list of trees in pre-order, tree after tree. -/
def aiNode.preorderList {α : Type} : List (aiNode α) → List (aiNode α)
  | [] => []
  | child :: rest => child.preorder ++ aiNode.preorderList rest

end

/-! ## Concrete inputs -/

/-- The transform that translates by (1,0,0). -/
def stepX : Transform ℚ := ⟨⟨1, 0, 0⟩, Quaternion.identity, ⟨1, 1, 1⟩⟩

/-- A chain of three joints: parent indices 0, 0, 1. -/
def chain3 : Skeleton ℚ := ⟨fun i => ⟨i - 1, Matrix4x4.identity⟩, 3, 0⟩

/-- A skeleton of one joint, the root. -/
def rootOnly : Skeleton ℚ := ⟨fun _ => ⟨0, Matrix4x4.identity⟩, 1, 0⟩

/-- A memory whose cell 0 holds `stepX` and every other cell the identity. -/
def stepXAtZero : Nat → Transform ℚ := fun a => if a = 0 then stepX else Transform.identity

/-- Joint 0 of `demoClip`: scale keys at 1, 2; rotate keys at 1, 2 (the
identity, then half a turn about x); translate keys at 1, 2, 4. -/
def demoJoint0 : SkeletonAnimation.JointAnimation ℚ where
  scaleKeyCount := 2
  scaleKeyTimes := fun i => if i = 0 then 1 else 2
  scaleKeyValues := fun i => if i = 0 then ⟨1, 1, 1⟩ else ⟨2, 2, 2⟩
  rotateKeyCount := 2
  rotateKeyTimes := fun i => if i = 0 then 1 else 2
  rotateKeyValues := fun i => if i = 0 then ⟨1, 0, 0, 0⟩ else ⟨0, 1, 0, 0⟩
  translateKeyCount := 3
  translateKeyTimes := fun i => if i = 0 then 1 else if i = 1 then 2 else 4
  translateKeyValues := fun i => if i = 0 then ⟨0, 0, 0⟩ else if i = 1 then ⟨1, 0, 0⟩ else ⟨3, 0, 0⟩

/-- Joint 1 of `demoClip`: one key per channel, at time 1. -/
def demoJoint1 : SkeletonAnimation.JointAnimation ℚ where
  scaleKeyCount := 1
  scaleKeyTimes := fun _ => 1
  scaleKeyValues := fun _ => ⟨2, 3, 4⟩
  rotateKeyCount := 1
  rotateKeyTimes := fun _ => 1
  rotateKeyValues := fun _ => ⟨0, 2, 0, 0⟩
  translateKeyCount := 1
  translateKeyTimes := fun _ => 1
  translateKeyValues := fun _ => ⟨5, 6, 7⟩

/-- Joint 2 of `demoClip`: no key on the scale and rotate channels, one
translate key. -/
def demoJoint2 : SkeletonAnimation.JointAnimation ℚ where
  scaleKeyCount := 0
  scaleKeyTimes := fun _ => 0
  scaleKeyValues := fun _ => ⟨9, 9, 9⟩
  rotateKeyCount := 0
  rotateKeyTimes := fun _ => 0
  rotateKeyValues := fun _ => ⟨9, 9, 9, 9⟩
  translateKeyCount := 1
  translateKeyTimes := fun _ => 1
  translateKeyValues := fun _ => ⟨5, 6, 7⟩

/-- A clip of three joints. -/
def demoClip : SkeletonAnimation ℚ where
  duration := 4
  keysPerSecond := 1
  jointCount := 3
  jointAnimations := fun i => if i = 0 then demoJoint0 else if i = 1 then demoJoint1 else demoJoint2

/-- A bind pose: position (1,2,3), a rotation of squared length 1, scale
(2,4,5). -/
def bindPose : Nat → Transform ℚ := fun _ => ⟨⟨1, 2, 3⟩, ⟨3 / 5, 4 / 5, 0, 0⟩, ⟨2, 4, 5⟩⟩

/-- A chain of three joints whose inverse bind matrices are those of
`bindPose`. -/
def bindSkeleton : Skeleton ℚ :=
  ⟨fun i => ⟨i - 1, transformToMatrix4x4Inverse (bindPose i)⟩, 3, 0⟩

/-- A pose with the rotation (1,0,0,0). -/
def plusPose : Transform ℚ := ⟨⟨0, 0, 0⟩, ⟨1, 0, 0, 0⟩, ⟨1, 1, 1⟩⟩

/-- A pose with the rotation (-1,0,0,0), the same rotation as that of
`plusPose`. -/
def minusPose : Transform ℚ := ⟨⟨0, 0, 0⟩, ⟨-1, 0, 0, 0⟩, ⟨1, 1, 1⟩⟩

/-- The matrix that scales by 2 and then translates by (1,0,0); its determinant
is 8. -/
def scaleTranslate : Matrix4x4 ℚ :=
  ⟨2, 0, 0, 1,
   0, 2, 0, 0,
   0, 0, 2, 0,
   0, 0, 0, 1⟩

/-- A skeleton file of two joints whose parent indices are both 1: the words 2
(joint count), 0 (root joint index), and 1 everywhere else. -/
def unorderedSkeletonFile : Nat → Word := fun k => if k = 0 then 2 else if k = 1 then 0 else 1

/-- A skeleton file of one joint whose parent index is 7: the word 1 (joint
count), and 7 everywhere else. -/
def badParentFile : Nat → Word := fun k => if k = 0 then 1 else 7

/-- Joints before they are written: parent index 0 and a matrix of zeros. -/
def zeroJoints : Nat → Skeleton.Joint Word :=
  fun _ => ⟨0, ⟨0, 0, 0, 0, 0, 0, 0, 0, 0, 0, 0, 0, 0, 0, 0, 0⟩⟩

/-- Joint animations before they are written: no key on any channel. -/
def zeroJointAnimations : Nat → SkeletonAnimation.JointAnimation Word :=
  fun _ => ⟨0, fun _ => 0, fun _ => ⟨0, 0, 0⟩, 0, fun _ => 0, fun _ => ⟨0, 0, 0, 0⟩, 0,
    fun _ => 0, fun _ => ⟨0, 0, 0⟩⟩

/-- A joint with one scale key, no rotation key and two translation keys. -/
def roundTripJoint : gobmesh.JointAnimation :=
  ⟨[1], [⟨2, 3, 4⟩], [], [], [5, 6], [⟨7, 8, 9⟩, ⟨10, 11, 12⟩]⟩

/-- A clip of one joint, `roundTripJoint`, with the duration word 7. -/
def roundTripClip : gobmesh.SkeletonAnimation := ⟨"clip", 7, 30, [roundTripJoint]⟩

/-- The identity as an `aiMatrix4x4`. -/
def identityTransformation : aiMatrix4x4 ℚ := ⟨1, 0, 0, 0, 0, 1, 0, 0, 0, 0, 1, 0, 0, 0, 0, 1⟩

/-- A node "arm" with one child, "hand". -/
def armNode : aiNode ℚ := .mk "arm" identityTransformation [.mk "hand" identityTransformation []]

/-- A tree of four nodes: "hip" with the children "arm" (which has the child
"hand") and "leg". -/
def demoTree : aiNode ℚ :=
  .mk "hip" identityTransformation [armNode, .mk "leg" identityTransformation []]

/-! ## The operators, unfolded -/

section Operators

variable {α : Type} [LinearOrderedField α]

theorem vec3_add_def (v1 v2 : Vec3 α) :
    v1 + v2 = ⟨v1.x + v2.x, v1.y + v2.y, v1.z + v2.z⟩ := rfl

theorem vec3_sub_def (v1 v2 : Vec3 α) :
    v1 - v2 = ⟨v1.x - v2.x, v1.y - v2.y, v1.z - v2.z⟩ := rfl

theorem vec3_mul_def (a b : Vec3 α) : a * b = ⟨a.x * b.x, a.y * b.y, a.z * b.z⟩ := rfl

theorem vec3_smul_def (v : Vec3 α) (s : α) : v * s = ⟨v.x * s, v.y * s, v.z * s⟩ := rfl

theorem matrix_mulVec4_def (m : Matrix4x4 α) (v : Vec4 α) :
    m * v =
      (⟨m.c00*v.x + m.c01*v.y + m.c02*v.z + m.c03*v.w,
        m.c10*v.x + m.c11*v.y + m.c12*v.z + m.c13*v.w,
        m.c20*v.x + m.c21*v.y + m.c22*v.z + m.c23*v.w,
        m.c30*v.x + m.c31*v.y + m.c32*v.z + m.c33*v.w⟩ : Vec4 α) := rfl

theorem matrix_mulVec3_def (m : Matrix4x4 α) (v : Vec3 α) :
    (m * v : Vec4 α) = m * (⟨v.x, v.y, v.z, 1⟩ : Vec4 α) := rfl

theorem quaternion_mul_def (q1 q2 : Quaternion α) :
    q1 * q2 =
      ⟨q1.w*q2.w - q1.x*q2.x - q1.y*q2.y - q1.z*q2.z,
       q1.w*q2.x + q1.x*q2.w + q1.y*q2.z - q1.z*q2.y,
       q1.w*q2.y + q1.y*q2.w + q1.z*q2.x - q1.x*q2.z,
       q1.w*q2.z + q1.z*q2.w + q1.x*q2.y - q1.y*q2.x⟩ := rfl

theorem quaternion_smul_def (q : Quaternion α) (s : α) :
    q * s = ⟨q.w*s, q.x*s, q.y*s, q.z*s⟩ := rfl

theorem quaternion_add_def (q1 q2 : Quaternion α) :
    q1 + q2 = ⟨q1.w+q2.w, q1.x+q2.x, q1.y+q2.y, q1.z+q2.z⟩ := rfl

theorem quaternion_mulVec3_def (q : Quaternion α) (v : Vec3 α) :
    q * v = (quaternionToMatrix4x4 q * v).xyz := rfl

/-! ### Interpolation at the ends of the parameter range -/

theorem inverseLerp_left (a b : α) : inverseLerp a b a = 0 := by
  simp [inverseLerp]

theorem inverseLerp_bounds (a b t : α) (h1 : a ≤ t) (h2 : t < b) :
    0 ≤ inverseLerp a b t ∧ inverseLerp a b t < 1 := by
  have hab : 0 < b - a := by linarith
  unfold inverseLerp
  constructor
  · exact div_nonneg (by linarith) (le_of_lt hab)
  · rw [div_lt_one hab]
    linarith

theorem vec3_lerp_zero (a b : Vec3 α) : Vec3.lerp a b 0 = a := by
  cases a
  simp [Vec3.lerp, vec3_add_def, vec3_smul_def]

end Operators

/-! ## Loops over arrays -/

section Loops

variable {α : Type} [LinearOrderedField α]

/-- A loop `for (i = 0; i < n; i++) out[i] = f i` writes `f i` below `n` and
leaves the rest of the array as it was. -/
theorem foldl_update_range {β : Type} (f : Nat → β) (out : Nat → β) (n i : Nat) :
    (List.range n).foldl (fun out i => Function.update out i (f i)) out i
      = if i < n then f i else out i := by
  induction n with
  | zero => simp
  | succ n ih =>
    rw [List.range_succ, List.foldl_append]
    simp only [List.foldl_cons, List.foldl_nil]
    by_cases h : i = n
    · subst h; simp
    · rw [Function.update_noteq h, ih]
      by_cases h2 : i < n
      · simp [h2, Nat.lt_succ_of_lt h2]
      · have : ¬ i < n + 1 := by omega
        simp [h2, this]

/-- What `sampleSkeletonAnimation` leaves in the output array. -/
theorem sampleSkeletonAnimation_apply [HasSqrtf α] (out : Nat → Transform α) (time : α)
    (animation : SkeletonAnimation α) (i : Nat) :
    sampleSkeletonAnimation out time animation i
      = if i < animation.jointCount then sampleJointTransform time (animation.jointAnimations i)
        else out i := by
  unfold sampleSkeletonAnimation
  exact foldl_update_range
    (fun i => sampleJointTransform time (animation.jointAnimations i)) out _ i

theorem jointPosesToModelSpaceUpTo_zero (mem : Nat → Transform α) (o p : Nat)
    (skeleton : Skeleton α) :
    jointPosesToModelSpaceUpTo mem o p skeleton 0 = mem := rfl

theorem jointPosesToModelSpaceUpTo_succ (mem : Nat → Transform α) (o p : Nat)
    (skeleton : Skeleton α) (m : Nat) :
    jointPosesToModelSpaceUpTo mem o p skeleton (m + 1)
      = Function.update (jointPosesToModelSpaceUpTo mem o p skeleton m) (o + (1 + m))
          (concatenateTransforms
            (jointPosesToModelSpaceUpTo mem o p skeleton m
              (p + (skeleton.joints (1 + m)).parentIndex))
            (jointPosesToModelSpaceUpTo mem o p skeleton m (p + (1 + m)))) := by
  unfold jointPosesToModelSpaceUpTo
  rw [List.range'_concat, List.foldl_append]
  simp

/-- The loop writes only the cells `out[1] .. out[m]`. -/
theorem jointPosesToModelSpaceUpTo_outside (mem : Nat → Transform α) (o p : Nat)
    (skeleton : Skeleton α) (m a : Nat) (h : a < o + 1 ∨ o + m < a) :
    jointPosesToModelSpaceUpTo mem o p skeleton m a = mem a := by
  induction m with
  | zero => rfl
  | succ m ih =>
    rw [jointPosesToModelSpaceUpTo_succ, Function.update_noteq (by omega)]
    exact ih (by omega)

/-- The cell `out[0]` is never written. -/
theorem jointPosesToModelSpace_root_untouched (mem : Nat → Transform α) (o p : Nat)
    (skeleton : Skeleton α) :
    jointPosesToModelSpace mem o p skeleton (o + 0) = mem (o + 0) := by
  unfold jointPosesToModelSpace
  exact jointPosesToModelSpaceUpTo_outside mem o p skeleton _ _ (by omega)

/-- In place, after the joints `1 .. m`, every one of them holds its parent's
cell concatenated with its own local pose. -/
theorem jointPosesToModelSpaceUpTo_inPlace (mem : Nat → Transform α) (p : Nat)
    (skeleton : Skeleton α) (m : Nat)
    (hparent : ∀ i, 0 < i → i ≤ m → (skeleton.joints i).parentIndex < i) :
    ∀ i, 1 ≤ i → i ≤ m →
      jointPosesToModelSpaceUpTo mem p p skeleton m (p + i)
        = concatenateTransforms
            (jointPosesToModelSpaceUpTo mem p p skeleton m (p + (skeleton.joints i).parentIndex))
            (mem (p + i)) := by
  induction m with
  | zero => intro i h1 h2; omega
  | succ m ih =>
    intro i h1 h2
    have hpi := hparent i (by omega) h2
    rw [jointPosesToModelSpaceUpTo_succ]
    rw [Function.update_noteq (a := p + (skeleton.joints i).parentIndex) (by omega)]
    by_cases hi : i = 1 + m
    · subst hi
      rw [Function.update_same]
      rw [jointPosesToModelSpaceUpTo_outside mem p p skeleton m (p + (1 + m)) (by omega)]
    · rw [Function.update_noteq (by omega)]
      exact ih (fun j hj hjm => hparent j hj (by omega)) i h1 (by omega)

/-- With the output array apart from the input array, after the joints
`1 .. m` every one of them holds its parent's LOCAL pose concatenated with its
own local pose: the input array is never written, so the parent that is read is
the unresolved one. -/
theorem jointPosesToModelSpaceUpTo_distinct (mem : Nat → Transform α) (o p : Nat)
    (skeleton : Skeleton α) (n m : Nat) (hm : m < n)
    (hdis : p + n ≤ o ∨ o + n ≤ p)
    (hparent : ∀ i, 0 < i → i ≤ m → (skeleton.joints i).parentIndex < i) :
    ∀ i, 1 ≤ i → i ≤ m →
      jointPosesToModelSpaceUpTo mem o p skeleton m (o + i)
        = concatenateTransforms (mem (p + (skeleton.joints i).parentIndex)) (mem (p + i)) := by
  induction m with
  | zero => intro i h1 h2; omega
  | succ m ih =>
    intro i h1 h2
    rw [jointPosesToModelSpaceUpTo_succ]
    by_cases hi : i = 1 + m
    · subst hi
      have hpi := hparent (1 + m) (by omega) h2
      rw [Function.update_same,
        jointPosesToModelSpaceUpTo_outside mem o p skeleton m _ (by omega),
        jointPosesToModelSpaceUpTo_outside mem o p skeleton m _ (by omega)]
    · rw [Function.update_noteq (by omega)]
      exact ih (by omega) (fun j hj hjm => hparent j hj (by omega)) i h1 (by omega)

end Loops

/-! ## Hierarchy resolver: the claims -/

section Resolver

variable {α : Type} [LinearOrderedField α]

/-- C1, evaluated on `chain3` (parents 0, 0, 1, so the topological invariant
holds) with every local pose `stepX`, the output array at address 10, the input
at address 0, and the output already holding the root pose: joint 2 receives
its parent's LOCAL pose concatenated with its own, position (2,0,0), which is
not `concatenateTransforms(out[1], localPoses[2])`, position (3,0,0). -/
theorem jointPosesToModelSpace_distinct_reads_local_parent :
    (∀ i, 0 < i → i < chain3.jointCount → (chain3.joints i).parentIndex < i)
    ∧ (jointPosesToModelSpace (fun _ => stepX) 10 0 chain3 (10 + 2)).position = ⟨2, 0, 0⟩
    ∧ (concatenateTransforms
          (jointPosesToModelSpace (fun _ => stepX) 10 0 chain3
            (10 + (chain3.joints 2).parentIndex))
          stepX).position = ⟨3, 0, 0⟩
    ∧ jointPosesToModelSpace (fun _ => stepX) 10 0 chain3 (10 + 2)
        ≠ concatenateTransforms
            (jointPosesToModelSpace (fun _ => stepX) 10 0 chain3
              (10 + (chain3.joints 2).parentIndex))
            stepX := by
  have h2 : (jointPosesToModelSpace (fun _ => stepX) 10 0 chain3 (10 + 2)).position
      = ⟨2, 0, 0⟩ := by
    simp [jointPosesToModelSpace, jointPosesToModelSpaceUpTo, chain3, stepX, List.range',
      Function.update, concatenateTransforms, quaternionToMatrix4x4, Quaternion.identity,
      vec3_add_def, vec3_mul_def, matrix_mulVec3_def, matrix_mulVec4_def, Vec4.xyz]
    norm_num
  have h3 : (concatenateTransforms
      (jointPosesToModelSpace (fun _ => stepX) 10 0 chain3
        (10 + (chain3.joints 2).parentIndex)) stepX).position = ⟨3, 0, 0⟩ := by
    simp [jointPosesToModelSpace, jointPosesToModelSpaceUpTo, chain3, stepX, List.range',
      Function.update, concatenateTransforms, quaternionToMatrix4x4, Quaternion.identity,
      vec3_add_def, vec3_mul_def, matrix_mulVec3_def, matrix_mulVec4_def, Vec4.xyz,
      quaternion_mul_def]
    norm_num
  refine ⟨?_, h2, h3, ?_⟩
  · intro i h0 _
    show i - 1 < i
    omega
  · intro h
    have hx := congrArg (fun t => t.position.x) h
    simp only [h2, h3] at hx
    norm_num at hx

/-- C2, evaluated on the one-joint skeleton `rootOnly` with the local pose
`stepX` at address 0 and an output array at address 10 that holds the identity
before the call: `out[0]` still holds the identity after the call, not
`localPoses[0]`. -/
theorem jointPosesToModelSpace_distinct_root_not_copied :
    jointPosesToModelSpace stepXAtZero 10 0 rootOnly (10 + 0) = Transform.identity
    ∧ stepXAtZero (0 + 0) = stepX
    ∧ jointPosesToModelSpace stepXAtZero 10 0 rootOnly (10 + 0) ≠ stepXAtZero (0 + 0) := by
  have h1 : jointPosesToModelSpace stepXAtZero 10 0 rootOnly (10 + 0) = Transform.identity := by
    rw [jointPosesToModelSpace_root_untouched]
    simp [stepXAtZero]
  have h2 : stepXAtZero (0 + 0) = stepX := by simp [stepXAtZero]
  refine ⟨h1, h2, ?_⟩
  rw [h1, h2]
  intro h
  have hx := congrArg (fun t => t.position.x) h
  simp [Transform.identity, stepX] at hx

/-- C3: run in place (output array = input array, at address `p`) on a skeleton
in which every joint after the root comes after its parent, the call leaves the
root as it was and every joint `1 ≤ i < jointCount` holding
`concatenateTransforms(F[parentIndex[i]], L[i])`, where `L` is the array before
the call and `F` the array after it. -/
theorem jointPosesToModelSpace_inPlace (mem : Nat → Transform α) (p : Nat)
    (skeleton : Skeleton α)
    (hparent : ∀ i, 0 < i → i < skeleton.jointCount → (skeleton.joints i).parentIndex < i) :
    jointPosesToModelSpace mem p p skeleton (p + 0) = mem (p + 0)
    ∧ ∀ i, 1 ≤ i → i < skeleton.jointCount →
        jointPosesToModelSpace mem p p skeleton (p + i)
          = concatenateTransforms
              (jointPosesToModelSpace mem p p skeleton (p + (skeleton.joints i).parentIndex))
              (mem (p + i)) := by
  refine ⟨jointPosesToModelSpace_root_untouched mem p p skeleton, ?_⟩
  intro i h1 h2
  unfold jointPosesToModelSpace
  exact jointPosesToModelSpaceUpTo_inPlace mem p skeleton (skeleton.jointCount - 1)
    (fun j hj hjm => hparent j hj (by omega)) i h1 (by omega)

/-- C3 on `chain3`, in place at address 0, every local pose `stepX`. -/
theorem jointPosesToModelSpace_inPlace_witness :
    (∀ i, 0 < i → i < chain3.jointCount → (chain3.joints i).parentIndex < i)
    ∧ jointPosesToModelSpace (fun _ => stepX) 0 0 chain3 (0 + 0) = stepX
    ∧ ∀ i, 1 ≤ i → i < chain3.jointCount →
        jointPosesToModelSpace (fun _ => stepX) 0 0 chain3 (0 + i)
          = concatenateTransforms
              (jointPosesToModelSpace (fun _ => stepX) 0 0 chain3
                (0 + (chain3.joints i).parentIndex))
              stepX :=
  have h : ∀ i, 0 < i → i < chain3.jointCount → (chain3.joints i).parentIndex < i := by
    intro i h0 _
    show i - 1 < i
    omega
  ⟨h, jointPosesToModelSpace_inPlace (fun _ => stepX) 0 chain3 h⟩

end Resolver

/-! ## Keyframe sampler: the search -/

section Search

variable {α : Type} [LinearOrderedField α]

/-- `numberOfTimes-1` does not wrap for a count in `1 .. UINT_MAX`. -/
theorem uint_pred (n : Nat) (h0 : 0 < n) (hn : n < UINT_SIZE) :
    (n + UINT_SIZE - 1) % UINT_SIZE = n - 1 := by
  unfold UINT_SIZE at *
  omega

/-- When no index from `i` on passes the test, the loop ends and the last
index is returned twice. -/
theorem findAnimationKeysLoop_none (time : α) (times : Nat → α) (n : Nat) :
    ∀ fuel i, (∀ j, i ≤ j → j < i + fuel → ¬ (times j > time ∧ j > 0)) →
      findAnimationKeysLoop time times n fuel i
        = ((n + UINT_SIZE - 1) % UINT_SIZE, (n + UINT_SIZE - 1) % UINT_SIZE)
  | 0, _, _ => rfl
  | fuel + 1, i, h => by
    rw [findAnimationKeysLoop, if_neg (h i le_rfl (by omega))]
    exact findAnimationKeysLoop_none time times n fuel (i + 1)
      (fun j hj hj2 => h j (by omega) (by omega))

/-- When `k` is the first index from `i` on that passes the test, the loop
returns `(k-1, k)`. -/
theorem findAnimationKeysLoop_found (time : α) (times : Nat → α) (n k : Nat)
    (hk0 : 0 < k) (hk : times k > time) :
    ∀ fuel i, i ≤ k → k < i + fuel → (∀ j, i ≤ j → j < k → ¬ (times j > time ∧ j > 0)) →
      findAnimationKeysLoop time times n fuel i = (k - 1, k)
  | 0, i, h1, h2, _ => by omega
  | fuel + 1, i, h1, h2, h => by
    rw [findAnimationKeysLoop]
    by_cases hik : i = k
    · subst hik
      rw [if_pos ⟨hk, hk0⟩]
    · rw [if_neg (h i le_rfl (by omega))]
      exact findAnimationKeysLoop_found time times n k hk0 hk fuel (i + 1) (by omega)
        (by omega) (fun j hj hj2 => h j (by omega) hj2)

theorem strictlyAscending_le {times : Nat → α} {n : Nat} (h : StrictlyAscending times n)
    {i j : Nat} (hij : i ≤ j) (hj : j < n) : times i ≤ times j := by
  rcases Nat.eq_or_lt_of_le hij with h1 | h1
  · rw [h1]
  · exact le_of_lt (h j hj i h1)

/-- At or after the last key both indices are the last index. -/
theorem findAnimationKeys_last (time : α) (times : Nat → α) (n : Nat)
    (h0 : 0 < n) (hn : n < UINT_SIZE) (hasc : StrictlyAscending times n)
    (ht : times (n - 1) ≤ time) :
    findAnimationKeys time times n = (n - 1, n - 1) := by
  unfold findAnimationKeys
  rw [findAnimationKeysLoop_none, uint_pred n h0 hn]
  intro j _ hj hc
  have : times j ≤ times (n - 1) := strictlyAscending_le hasc (by omega) (by omega)
  exact absurd hc.1 (not_lt.mpr (le_trans this ht))

/-- Between two adjacent keys the indices are those of the two keys. -/
theorem findAnimationKeys_bracket (time : α) (times : Nat → α) (n i : Nat)
    (hasc : StrictlyAscending times n) (hi : i + 1 < n)
    (h1 : times i ≤ time) (h2 : time < times (i + 1)) :
    findAnimationKeys time times n = (i, i + 1) := by
  unfold findAnimationKeys
  rw [findAnimationKeysLoop_found time times n (i + 1) (by omega) h2 n 0 (by omega) (by omega)]
  · rfl
  · intro j _ hj hc
    have : times j ≤ times i := strictlyAscending_le hasc (by omega) (by omega)
    exact absurd hc.1 (not_lt.mpr (le_trans this h1))

/-- A time strictly inside the channel lies between two adjacent keys. -/
theorem exists_bracket (time : α) (times : Nat → α) (n : Nat)
    (h0 : 0 < n) (h1 : times 0 ≤ time) (h2 : time < times (n - 1)) :
    ∃ i, i + 1 < n ∧ times i ≤ time ∧ time < times (i + 1) := by
  have hex : ∃ k, k < n ∧ time < times k := ⟨n - 1, by omega, h2⟩
  classical
  have hk := Nat.find_spec hex
  have hmin := fun m (hm : m < Nat.find hex) => Nat.find_min hex hm
  have hpos : 0 < Nat.find hex := by
    rcases Nat.eq_zero_or_pos (Nat.find hex) with h | h
    · rw [h] at hk
      exact absurd hk.2 (not_lt.mpr h1)
    · exact h
  refine ⟨Nat.find hex - 1, by omega, ?_, ?_⟩
  · have := hmin (Nat.find hex - 1) (by omega)
    by_contra hc
    exact this ⟨by omega, not_le.mp hc⟩
  · have e : Nat.find hex - 1 + 1 = Nat.find hex := by omega
    rw [e]
    exact hk.2

/-- In a channel of two or more keys, every time before the second key time,
and so every time at or before the first key time of an ascending channel,
gets the pair (0, 1): index 0 cannot pass the test `i>0`. -/
theorem findAnimationKeys_before_second (time : α) (times : Nat → α) (n : Nat)
    (hn : 2 ≤ n) (h : time < times 1) :
    findAnimationKeys time times n = (0, 1) := by
  unfold findAnimationKeys
  rw [findAnimationKeysLoop_found time times n 1 (by omega) h n 0 (by omega) (by omega)]
  intro j _ hj hc
  omega

/-- A channel of one key: both indices are 0, whatever the time. -/
theorem findAnimationKeys_one (time : α) (times : Nat → α) :
    findAnimationKeys time times 1 = (0, 0) := by
  simp [findAnimationKeys, findAnimationKeysLoop, UINT_SIZE]

/-- The search at the time of key `k` of a strictly ascending channel: the pair
`(k, k+1)` when `k` is not the last key, `(k, k)` when it is. -/
theorem findAnimationKeys_at_key (times : Nat → α) (n k : Nat)
    (hasc : StrictlyAscending times n) (hn : n < UINT_SIZE) :
    (k + 1 < n → findAnimationKeys (times k) times n = (k, k + 1))
    ∧ (k + 1 = n → findAnimationKeys (times k) times n = (k, k)) := by
  constructor
  · intro h
    exact findAnimationKeys_bracket _ times n k hasc h le_rfl (hasc (k + 1) h k (by omega))
  · intro h
    have e : n - 1 = k := by omega
    have := findAnimationKeys_last (times k) times n (by omega) hn hasc (by rw [e])
    rw [e] at this
    exact this

end Search

/-! ## Keyframe sampler: one joint -/

section Sampler

variable {α : Type} [LinearOrderedField α] [HasSqrtf α]

/-- The rotation that the loop body computes depends on the rotate channel
only. -/
theorem sampleJointTransform_rotation (time : α) (ja : SkeletonAnimation.JointAnimation α) :
    (sampleJointTransform time ja).rotation =
      if ja.rotateKeyCount > 0 then
        if (findAnimationKeys time ja.rotateKeyTimes ja.rotateKeyCount).1
            = (findAnimationKeys time ja.rotateKeyTimes ja.rotateKeyCount).2 then
          ja.rotateKeyValues (findAnimationKeys time ja.rotateKeyTimes ja.rotateKeyCount).1
        else
          Quaternion.lerp
            (ja.rotateKeyValues (findAnimationKeys time ja.rotateKeyTimes ja.rotateKeyCount).1)
            (ja.rotateKeyValues (findAnimationKeys time ja.rotateKeyTimes ja.rotateKeyCount).2)
            (inverseLerp
              (ja.rotateKeyTimes (findAnimationKeys time ja.rotateKeyTimes ja.rotateKeyCount).1)
              (ja.rotateKeyTimes (findAnimationKeys time ja.rotateKeyTimes ja.rotateKeyCount).2)
              time)
      else Quaternion.identity := by
  unfold sampleJointTransform
  simp only []
  split_ifs <;> rfl

/-- The position that the loop body computes depends on the translate channel
only. -/
theorem sampleJointTransform_position (time : α) (ja : SkeletonAnimation.JointAnimation α) :
    (sampleJointTransform time ja).position =
      if ja.translateKeyCount > 0 then
        if (findAnimationKeys time ja.translateKeyTimes ja.translateKeyCount).1
            = (findAnimationKeys time ja.translateKeyTimes ja.translateKeyCount).2 then
          ja.translateKeyValues
            (findAnimationKeys time ja.translateKeyTimes ja.translateKeyCount).1
        else
          Vec3.lerp
            (ja.translateKeyValues
              (findAnimationKeys time ja.translateKeyTimes ja.translateKeyCount).1)
            (ja.translateKeyValues
              (findAnimationKeys time ja.translateKeyTimes ja.translateKeyCount).2)
            (inverseLerp
              (ja.translateKeyTimes
                (findAnimationKeys time ja.translateKeyTimes ja.translateKeyCount).1)
              (ja.translateKeyTimes
                (findAnimationKeys time ja.translateKeyTimes ja.translateKeyCount).2)
              time)
      else ⟨0, 0, 0⟩ := by
  unfold sampleJointTransform
  simp only []
  split_ifs <;> rfl

/-- The scale that the loop body computes depends on the scale channel only. -/
theorem sampleJointTransform_scale (time : α) (ja : SkeletonAnimation.JointAnimation α) :
    (sampleJointTransform time ja).scale =
      if ja.scaleKeyCount > 0 then
        if (findAnimationKeys time ja.scaleKeyTimes ja.scaleKeyCount).1
            = (findAnimationKeys time ja.scaleKeyTimes ja.scaleKeyCount).2 then
          ja.scaleKeyValues (findAnimationKeys time ja.scaleKeyTimes ja.scaleKeyCount).1
        else
          Vec3.lerp
            (ja.scaleKeyValues (findAnimationKeys time ja.scaleKeyTimes ja.scaleKeyCount).1)
            (ja.scaleKeyValues (findAnimationKeys time ja.scaleKeyTimes ja.scaleKeyCount).2)
            (inverseLerp
              (ja.scaleKeyTimes (findAnimationKeys time ja.scaleKeyTimes ja.scaleKeyCount).1)
              (ja.scaleKeyTimes (findAnimationKeys time ja.scaleKeyTimes ja.scaleKeyCount).2)
              time)
      else ⟨1, 1, 1⟩ := by
  unfold sampleJointTransform
  simp only []
  split_ifs <;> rfl

/-! ### Quaternion interpolation at parameter 0 -/

theorem quaternion_lerp_zero (a b : Quaternion α) : Quaternion.lerp a b 0 = a.normalize := by
  have h : ∀ c : Quaternion α, a * ((1 : α) - 0) + c * (0 : α) = a := by
    intro c
    cases a
    simp [quaternion_add_def, quaternion_smul_def]
  unfold Quaternion.lerp
  simp only [h]

/-- With `sqrtf 1 = 1`, normalizing a quaternion of squared length 1 returns it. -/
theorem quaternion_normalize_unit (hs : sqrtf (1 : α) = 1) (q : Quaternion α)
    (hq : q.w*q.w + q.x*q.x + q.y*q.y + q.z*q.z = 1) : q.normalize = q := by
  cases q
  simp only [Quaternion.normalize, Quaternion.length] at *
  rw [hq, hs]
  simp

end Sampler

/-! ## Keyframe sampler: the claims -/

section SamplerClaims

variable {α : Type} [LinearOrderedField α] [HasSqrtf α]

/-- C5: for a joint `j < jointCount` and each of its channels that has `n ≥ 1`
keys with strictly ascending times, sampling at a time at or after the last key
time writes the last key value of that channel, unmodified, into the
corresponding component of `out[j]`. -/
theorem sampleSkeletonAnimation_clamp_after_last (out : Nat → Transform α) (time : α)
    (animation : SkeletonAnimation α) (j : Nat) (hj : j < animation.jointCount)
    (ja : SkeletonAnimation.JointAnimation α) (hja : animation.jointAnimations j = ja) :
    (0 < ja.scaleKeyCount → ja.scaleKeyCount < UINT_SIZE →
      StrictlyAscending ja.scaleKeyTimes ja.scaleKeyCount →
      ja.scaleKeyTimes (ja.scaleKeyCount - 1) ≤ time →
      (sampleSkeletonAnimation out time animation j).scale
        = ja.scaleKeyValues (ja.scaleKeyCount - 1))
    ∧ (0 < ja.rotateKeyCount → ja.rotateKeyCount < UINT_SIZE →
      StrictlyAscending ja.rotateKeyTimes ja.rotateKeyCount →
      ja.rotateKeyTimes (ja.rotateKeyCount - 1) ≤ time →
      (sampleSkeletonAnimation out time animation j).rotation
        = ja.rotateKeyValues (ja.rotateKeyCount - 1))
    ∧ (0 < ja.translateKeyCount → ja.translateKeyCount < UINT_SIZE →
      StrictlyAscending ja.translateKeyTimes ja.translateKeyCount →
      ja.translateKeyTimes (ja.translateKeyCount - 1) ≤ time →
      (sampleSkeletonAnimation out time animation j).position
        = ja.translateKeyValues (ja.translateKeyCount - 1)) := by
  subst hja
  rw [sampleSkeletonAnimation_apply, if_pos hj]
  refine ⟨?_, ?_, ?_⟩
  · intro h0 hn hasc ht
    rw [sampleJointTransform_scale, if_pos h0, findAnimationKeys_last _ _ _ h0 hn hasc ht]
    simp
  · intro h0 hn hasc ht
    rw [sampleJointTransform_rotation, if_pos h0, findAnimationKeys_last _ _ _ h0 hn hasc ht]
    simp
  · intro h0 hn hasc ht
    rw [sampleJointTransform_position, if_pos h0, findAnimationKeys_last _ _ _ h0 hn hasc ht]
    simp

/-- The key times of every channel of `demoJoint0` are strictly ascending. -/
theorem demoJoint0_ascending :
    StrictlyAscending demoJoint0.scaleKeyTimes demoJoint0.scaleKeyCount
    ∧ StrictlyAscending demoJoint0.rotateKeyTimes demoJoint0.rotateKeyCount
    ∧ StrictlyAscending demoJoint0.translateKeyTimes demoJoint0.translateKeyCount := by
  refine ⟨?_, ?_, ?_⟩ <;> intro j hj i hi
  · have hj2 : j < 2 := hj
    interval_cases j
    · omega
    · interval_cases i
      norm_num [demoJoint0]
  · have hj2 : j < 2 := hj
    interval_cases j
    · omega
    · interval_cases i
      norm_num [demoJoint0]
  · have hj2 : j < 3 := hj
    interval_cases j <;> interval_cases i <;> norm_num [demoJoint0]

/-- C5 on joint 0 of `demoClip` at time 7, after the last key of every
channel. -/
theorem sampleSkeletonAnimation_clamp_after_last_witness :
    (sampleSkeletonAnimation (fun _ => Transform.identity) 7 demoClip 0).scale = ⟨2, 2, 2⟩
    ∧ (sampleSkeletonAnimation (fun _ => Transform.identity) 7 demoClip 0).rotation
        = ⟨0, 1, 0, 0⟩
    ∧ (sampleSkeletonAnimation (fun _ => Transform.identity) 7 demoClip 0).position
        = ⟨3, 0, 0⟩ := by
  have h := sampleSkeletonAnimation_clamp_after_last (fun _ => Transform.identity) 7 demoClip 0
    (by decide) demoJoint0 rfl
  refine ⟨?_, ?_, ?_⟩
  · exact h.1 (by decide) (by decide) demoJoint0_ascending.1 (by norm_num [demoJoint0])
  · exact h.2.1 (by decide) (by decide) demoJoint0_ascending.2.1 (by norm_num [demoJoint0])
  · exact h.2.2 (by decide) (by decide) demoJoint0_ascending.2.2 (by norm_num [demoJoint0])

/-- C4, evaluated on joint 0 of `demoClip` (first key of every channel at time
1, strictly ascending times) at time -2, before the first key: the search
returns the keys (0, 1), the interpolation parameter is -3, and every component
is extrapolated: scale (-2,-2,-2) and not the first key (1,1,1), position
(-3,0,0) and not the first key (0,0,0). -/
theorem sampleSkeletonAnimation_before_first_extrapolates :
    findAnimationKeys (-2 : ℚ) demoJoint0.scaleKeyTimes demoJoint0.scaleKeyCount = (0, 1)
    ∧ inverseLerp (demoJoint0.scaleKeyTimes 0) (demoJoint0.scaleKeyTimes 1) (-2) = -3
    ∧ (sampleSkeletonAnimation (fun _ => Transform.identity) (-2) demoClip 0).scale
        = ⟨-2, -2, -2⟩
    ∧ demoJoint0.scaleKeyValues 0 = ⟨1, 1, 1⟩
    ∧ (sampleSkeletonAnimation (fun _ => Transform.identity) (-2) demoClip 0).position
        = ⟨-3, 0, 0⟩
    ∧ demoJoint0.translateKeyValues 0 = ⟨0, 0, 0⟩ := by
  have hs : findAnimationKeys (-2 : ℚ) demoJoint0.scaleKeyTimes demoJoint0.scaleKeyCount
      = (0, 1) := by
    norm_num [findAnimationKeys, findAnimationKeysLoop, demoJoint0]
  have ht : findAnimationKeys (-2 : ℚ) demoJoint0.translateKeyTimes
      demoJoint0.translateKeyCount = (0, 1) := by
    norm_num [findAnimationKeys, findAnimationKeysLoop, demoJoint0]
  refine ⟨hs, ?_, ?_, ?_, ?_, ?_⟩
  · norm_num [inverseLerp, demoJoint0]
  · rw [sampleSkeletonAnimation_apply, if_pos (by decide)]
    show (sampleJointTransform (-2) demoJoint0).scale = _
    rw [sampleJointTransform_scale, if_pos (by decide), hs]
    norm_num [inverseLerp, demoJoint0, Vec3.lerp, vec3_add_def, vec3_smul_def]
  · simp [demoJoint0]
  · rw [sampleSkeletonAnimation_apply, if_pos (by decide)]
    show (sampleJointTransform (-2) demoJoint0).position = _
    rw [sampleJointTransform_position, if_pos (by decide), ht]
    norm_num [inverseLerp, demoJoint0, Vec3.lerp, vec3_add_def, vec3_smul_def]
  · simp [demoJoint0]

/-- C6, evaluated on the two strictly ascending key times 1, 2 of the scale
channel of `demoJoint0`: at the first key time (time = 1) and before it
(time = 0) the search returns (0, 1), not (0, 0); at the last key time it
returns (1, 1). -/
theorem findAnimationKeys_at_start_returns_first_pair :
    StrictlyAscending demoJoint0.scaleKeyTimes 2
    ∧ demoJoint0.scaleKeyTimes 0 = 1
    ∧ findAnimationKeys (1 : ℚ) demoJoint0.scaleKeyTimes 2 = (0, 1)
    ∧ findAnimationKeys (0 : ℚ) demoJoint0.scaleKeyTimes 2 = (0, 1)
    ∧ findAnimationKeys (2 : ℚ) demoJoint0.scaleKeyTimes 2 = (1, 1) := by
  refine ⟨demoJoint0_ascending.1, ?_, ?_, ?_, ?_⟩
  · simp [demoJoint0]
  · norm_num [findAnimationKeys, findAnimationKeysLoop, demoJoint0]
  · norm_num [findAnimationKeys, findAnimationKeysLoop, demoJoint0]
  · norm_num [findAnimationKeys, findAnimationKeysLoop, demoJoint0, UINT_SIZE]

/-- C7: in a channel of `n ≥ 2` keys with strictly ascending times, a time with
`times[0] < time < times[n-1]` lies in exactly one interval
`times[i] ≤ time < times[i+1]`; for that `i` the search returns `(i, i+1)` and
the parameter `inverseLerp(times[i], times[i+1], time)` is in `[0, 1)`; and for
a joint `j < jointCount` each component of `out[j]` whose channel brackets the
time so is the `lerp` of the two key values at that parameter (`Vec3` lerp for
scale and translate, the quaternion lerp for rotate). -/
theorem sampleSkeletonAnimation_between_keys (out : Nat → Transform α) (time : α)
    (animation : SkeletonAnimation α) (j : Nat) (hj : j < animation.jointCount)
    (ja : SkeletonAnimation.JointAnimation α) (hja : animation.jointAnimations j = ja) :
    (∀ (times : Nat → α) (n : Nat), 2 ≤ n → StrictlyAscending times n →
      times 0 < time → time < times (n - 1) →
      (∃! i, i + 1 < n ∧ times i ≤ time ∧ time < times (i + 1))
      ∧ ∀ i, i + 1 < n → times i ≤ time → time < times (i + 1) →
          findAnimationKeys time times n = (i, i + 1)
          ∧ 0 ≤ inverseLerp (times i) (times (i + 1)) time
          ∧ inverseLerp (times i) (times (i + 1)) time < 1)
    ∧ (StrictlyAscending ja.scaleKeyTimes ja.scaleKeyCount →
      ∀ i, i + 1 < ja.scaleKeyCount → ja.scaleKeyTimes i ≤ time →
        time < ja.scaleKeyTimes (i + 1) →
        (sampleSkeletonAnimation out time animation j).scale
          = Vec3.lerp (ja.scaleKeyValues i) (ja.scaleKeyValues (i + 1))
              (inverseLerp (ja.scaleKeyTimes i) (ja.scaleKeyTimes (i + 1)) time))
    ∧ (StrictlyAscending ja.rotateKeyTimes ja.rotateKeyCount →
      ∀ i, i + 1 < ja.rotateKeyCount → ja.rotateKeyTimes i ≤ time →
        time < ja.rotateKeyTimes (i + 1) →
        (sampleSkeletonAnimation out time animation j).rotation
          = Quaternion.lerp (ja.rotateKeyValues i) (ja.rotateKeyValues (i + 1))
              (inverseLerp (ja.rotateKeyTimes i) (ja.rotateKeyTimes (i + 1)) time))
    ∧ (StrictlyAscending ja.translateKeyTimes ja.translateKeyCount →
      ∀ i, i + 1 < ja.translateKeyCount → ja.translateKeyTimes i ≤ time →
        time < ja.translateKeyTimes (i + 1) →
        (sampleSkeletonAnimation out time animation j).position
          = Vec3.lerp (ja.translateKeyValues i) (ja.translateKeyValues (i + 1))
              (inverseLerp (ja.translateKeyTimes i) (ja.translateKeyTimes (i + 1)) time)) := by
  subst hja
  rw [sampleSkeletonAnimation_apply, if_pos hj]
  refine ⟨?_, ?_, ?_, ?_⟩
  · intro times n hn hasc h1 h2
    constructor
    · obtain ⟨i, hi, hi1, hi2⟩ := exists_bracket time times n (by omega) (le_of_lt h1) h2
      refine ⟨i, ⟨hi, hi1, hi2⟩, ?_⟩
      rintro k ⟨hk, hk1, hk2⟩
      have e1 := findAnimationKeys_bracket time times n i hasc hi hi1 hi2
      have e2 := findAnimationKeys_bracket time times n k hasc hk hk1 hk2
      rw [e1] at e2
      exact (congrArg Prod.fst e2).symm
    · intro i hi hi1 hi2
      exact ⟨findAnimationKeys_bracket time times n i hasc hi hi1 hi2,
        inverseLerp_bounds _ _ _ hi1 hi2⟩
  · intro hasc i hi h1 h2
    rw [sampleJointTransform_scale, if_pos (by omega),
      findAnimationKeys_bracket _ _ _ i hasc hi h1 h2]
    simp
  · intro hasc i hi h1 h2
    rw [sampleJointTransform_rotation, if_pos (by omega),
      findAnimationKeys_bracket _ _ _ i hasc hi h1 h2]
    simp
  · intro hasc i hi h1 h2
    rw [sampleJointTransform_position, if_pos (by omega),
      findAnimationKeys_bracket _ _ _ i hasc hi h1 h2]
    simp

/-- C7 on joint 0 of `demoClip` at time 3/2, between the keys at 1 and 2 of
every channel: the search returns (0, 1), the parameter is 1/2, and scale and
position are the midpoints of the two key values. -/
theorem sampleSkeletonAnimation_between_keys_witness :
    findAnimationKeys (3 / 2 : ℚ) demoJoint0.translateKeyTimes 3 = (0, 0 + 1)
    ∧ (sampleSkeletonAnimation (fun _ => Transform.identity) (3 / 2) demoClip 0).scale
        = ⟨3 / 2, 3 / 2, 3 / 2⟩
    ∧ (sampleSkeletonAnimation (fun _ => Transform.identity) (3 / 2) demoClip 0).rotation
        = Quaternion.lerp ⟨1, 0, 0, 0⟩ ⟨0, 1, 0, 0⟩ (1 / 2)
    ∧ (sampleSkeletonAnimation (fun _ => Transform.identity) (3 / 2) demoClip 0).position
        = ⟨1 / 2, 0, 0⟩ := by
  have h := sampleSkeletonAnimation_between_keys (fun _ => Transform.identity) (3 / 2)
    demoClip 0 (by decide) demoJoint0 rfl
  refine ⟨?_, ?_, ?_, ?_⟩
  · exact ((h.1 demoJoint0.translateKeyTimes 3 (by decide) demoJoint0_ascending.2.2
      (by norm_num [demoJoint0]) (by norm_num [demoJoint0])).2 0 (by decide)
      (by norm_num [demoJoint0]) (by norm_num [demoJoint0])).1
  · rw [h.2.1 demoJoint0_ascending.1 0 (by decide) (by norm_num [demoJoint0])
      (by norm_num [demoJoint0])]
    norm_num [inverseLerp, demoJoint0, Vec3.lerp, vec3_add_def, vec3_smul_def]
  · rw [h.2.2.1 demoJoint0_ascending.2.1 0 (by decide) (by norm_num [demoJoint0])
      (by norm_num [demoJoint0])]
    norm_num [inverseLerp, demoJoint0]
  · rw [h.2.2.2 demoJoint0_ascending.2.2 0 (by decide) (by norm_num [demoJoint0])
      (by norm_num [demoJoint0])]
    norm_num [inverseLerp, demoJoint0, Vec3.lerp, vec3_add_def, vec3_smul_def]

/-- C8: for a joint `j < jointCount` and a key `k` of one of its channels, with
strictly ascending key times, sampling at the time of that key writes the value
of the key for scale and translate; for rotate it writes the value of the key
when `k` is the last key and `normalize` of it when `k` is not the last key,
which is the value of the key when that is of squared length 1 (given
`sqrtf 1 = 1`). -/
theorem sampleSkeletonAnimation_at_key (out : Nat → Transform α)
    (animation : SkeletonAnimation α) (j : Nat) (hj : j < animation.jointCount)
    (ja : SkeletonAnimation.JointAnimation α) (hja : animation.jointAnimations j = ja)
    (k : Nat) :
    (StrictlyAscending ja.scaleKeyTimes ja.scaleKeyCount → k < ja.scaleKeyCount →
      ja.scaleKeyCount < UINT_SIZE →
      (sampleSkeletonAnimation out (ja.scaleKeyTimes k) animation j).scale
        = ja.scaleKeyValues k)
    ∧ (StrictlyAscending ja.translateKeyTimes ja.translateKeyCount →
      k < ja.translateKeyCount → ja.translateKeyCount < UINT_SIZE →
      (sampleSkeletonAnimation out (ja.translateKeyTimes k) animation j).position
        = ja.translateKeyValues k)
    ∧ (StrictlyAscending ja.rotateKeyTimes ja.rotateKeyCount → k < ja.rotateKeyCount →
      ja.rotateKeyCount < UINT_SIZE →
      (k + 1 = ja.rotateKeyCount →
        (sampleSkeletonAnimation out (ja.rotateKeyTimes k) animation j).rotation
          = ja.rotateKeyValues k)
      ∧ (k + 1 < ja.rotateKeyCount →
        (sampleSkeletonAnimation out (ja.rotateKeyTimes k) animation j).rotation
          = (ja.rotateKeyValues k).normalize)
      ∧ (sqrtf (1 : α) = 1 →
        (ja.rotateKeyValues k).w * (ja.rotateKeyValues k).w
          + (ja.rotateKeyValues k).x * (ja.rotateKeyValues k).x
          + (ja.rotateKeyValues k).y * (ja.rotateKeyValues k).y
          + (ja.rotateKeyValues k).z * (ja.rotateKeyValues k).z = 1 →
        (sampleSkeletonAnimation out (ja.rotateKeyTimes k) animation j).rotation
          = ja.rotateKeyValues k)) := by
  subst hja
  simp only [sampleSkeletonAnimation_apply, if_pos hj]
  refine ⟨?_, ?_, ?_⟩
  · intro hasc hk hn
    rw [sampleJointTransform_scale, if_pos (by omega)]
    rcases Nat.lt_or_ge (k + 1) (animation.jointAnimations j).scaleKeyCount with h | h
    · rw [(findAnimationKeys_at_key _ _ k hasc hn).1 h]
      simp [inverseLerp_left, vec3_lerp_zero]
    · rw [(findAnimationKeys_at_key _ _ k hasc hn).2 (by omega)]
      simp
  · intro hasc hk hn
    rw [sampleJointTransform_position, if_pos (by omega)]
    rcases Nat.lt_or_ge (k + 1) (animation.jointAnimations j).translateKeyCount with h | h
    · rw [(findAnimationKeys_at_key _ _ k hasc hn).1 h]
      simp [inverseLerp_left, vec3_lerp_zero]
    · rw [(findAnimationKeys_at_key _ _ k hasc hn).2 (by omega)]
      simp
  · intro hasc hk hn
    have hlast : k + 1 = (animation.jointAnimations j).rotateKeyCount →
        (sampleJointTransform ((animation.jointAnimations j).rotateKeyTimes k)
          (animation.jointAnimations j)).rotation
          = (animation.jointAnimations j).rotateKeyValues k := by
      intro h
      rw [sampleJointTransform_rotation, if_pos (by omega),
        (findAnimationKeys_at_key _ _ k hasc hn).2 h]
      simp
    have hmid : k + 1 < (animation.jointAnimations j).rotateKeyCount →
        (sampleJointTransform ((animation.jointAnimations j).rotateKeyTimes k)
          (animation.jointAnimations j)).rotation
          = ((animation.jointAnimations j).rotateKeyValues k).normalize := by
      intro h
      rw [sampleJointTransform_rotation, if_pos (by omega),
        (findAnimationKeys_at_key _ _ k hasc hn).1 h]
      simp [inverseLerp_left, quaternion_lerp_zero]
    refine ⟨hlast, hmid, ?_⟩
    intro hs hunit
    rcases Nat.lt_or_ge (k + 1) (animation.jointAnimations j).rotateKeyCount with h | h
    · rw [hmid h, quaternion_normalize_unit hs _ hunit]
    · exact hlast (by omega)

/-- C8 on joint 0 of `demoClip`, at the time 1 of key 0 of every channel. -/
theorem sampleSkeletonAnimation_at_key_witness :
    (sampleSkeletonAnimation (fun _ => Transform.identity) 1 demoClip 0).scale = ⟨1, 1, 1⟩
    ∧ (sampleSkeletonAnimation (fun _ => Transform.identity) 1 demoClip 0).position
        = ⟨0, 0, 0⟩
    ∧ (sampleSkeletonAnimation (fun _ => Transform.identity) 1 demoClip 0).rotation
        = ⟨1, 0, 0, 0⟩ := by
  have h := sampleSkeletonAnimation_at_key (fun _ => Transform.identity) demoClip 0
    (by decide) demoJoint0 rfl 0
  have hsqrt : sqrtf (1 : ℚ) = 1 := by
    show Rat.sqrt 1 = 1
    simp
  refine ⟨?_, ?_, ?_⟩
  · exact h.1 demoJoint0_ascending.1 (by decide) (by decide)
  · exact h.2.1 demoJoint0_ascending.2.2 (by decide) (by decide)
  · exact (h.2.2 demoJoint0_ascending.2.1 (by decide) (by decide)).2.2 hsqrt
      (by norm_num [demoJoint0])

/-- C9: for a joint `j < jointCount`, the search on a channel of one key returns
(0, 0) at every time, and a component of `out[j]` whose channel has exactly one
key is the value of that key. -/
theorem sampleSkeletonAnimation_single_key (out : Nat → Transform α) (time : α)
    (animation : SkeletonAnimation α) (j : Nat) (hj : j < animation.jointCount)
    (ja : SkeletonAnimation.JointAnimation α) (hja : animation.jointAnimations j = ja) :
    (∀ times : Nat → α, findAnimationKeys time times 1 = (0, 0))
    ∧ (ja.scaleKeyCount = 1 →
      (sampleSkeletonAnimation out time animation j).scale = ja.scaleKeyValues 0)
    ∧ (ja.rotateKeyCount = 1 →
      (sampleSkeletonAnimation out time animation j).rotation = ja.rotateKeyValues 0)
    ∧ (ja.translateKeyCount = 1 →
      (sampleSkeletonAnimation out time animation j).position = ja.translateKeyValues 0) := by
  subst hja
  rw [sampleSkeletonAnimation_apply, if_pos hj]
  refine ⟨findAnimationKeys_one time, ?_, ?_, ?_⟩
  · intro h
    rw [sampleJointTransform_scale, h, findAnimationKeys_one]
    simp
  · intro h
    rw [sampleJointTransform_rotation, h, findAnimationKeys_one]
    simp
  · intro h
    rw [sampleJointTransform_position, h, findAnimationKeys_one]
    simp

/-- C9 on joint 1 of `demoClip` (one key per channel, at time 1), sampled
before the key, at time 0. -/
theorem sampleSkeletonAnimation_single_key_witness :
    (sampleSkeletonAnimation (fun _ => Transform.identity) 0 demoClip 1).scale = ⟨2, 3, 4⟩
    ∧ (sampleSkeletonAnimation (fun _ => Transform.identity) 0 demoClip 1).rotation
        = ⟨0, 2, 0, 0⟩
    ∧ (sampleSkeletonAnimation (fun _ => Transform.identity) 0 demoClip 1).position
        = ⟨5, 6, 7⟩ :=
  have h := sampleSkeletonAnimation_single_key (fun _ => Transform.identity) 0 demoClip 1
    (by decide) demoJoint1 rfl
  ⟨h.2.1 rfl, h.2.2.1 rfl, h.2.2.2 rfl⟩

/-- C10: for a joint `j < jointCount`, a component of `out[j]` whose channel has
no key is that component of `Transform::identity`, that is scale (1,1,1),
rotation (1,0,0,0), position (0,0,0), whatever the other channels hold; and
every call of `findAnimationKeys` made for the joint has a positive
`numberOfTimes`. -/
theorem sampleSkeletonAnimation_empty_channel (out : Nat → Transform α) (time : α)
    (animation : SkeletonAnimation α) (j : Nat) (hj : j < animation.jointCount)
    (ja : SkeletonAnimation.JointAnimation α) (hja : animation.jointAnimations j = ja) :
    (ja.scaleKeyCount = 0 →
      (sampleSkeletonAnimation out time animation j).scale
        = (Transform.identity : Transform α).scale)
    ∧ (ja.rotateKeyCount = 0 →
      (sampleSkeletonAnimation out time animation j).rotation
        = (Transform.identity : Transform α).rotation)
    ∧ (ja.translateKeyCount = 0 →
      (sampleSkeletonAnimation out time animation j).position
        = (Transform.identity : Transform α).position)
    ∧ (Transform.identity : Transform α) = ⟨⟨0, 0, 0⟩, ⟨1, 0, 0, 0⟩, ⟨1, 1, 1⟩⟩
    ∧ ∀ n ∈ sampleJointFindCalls ja, 0 < n := by
  subst hja
  rw [sampleSkeletonAnimation_apply, if_pos hj]
  refine ⟨?_, ?_, ?_, rfl, ?_⟩
  · intro h
    rw [sampleJointTransform_scale, h]
    rfl
  · intro h
    rw [sampleJointTransform_rotation, h]
    rfl
  · intro h
    rw [sampleJointTransform_position, h]
    rfl
  · intro n hn
    unfold sampleJointFindCalls at hn
    simp only [List.mem_append] at hn
    rcases hn with (hn | hn) | hn <;> split_ifs at hn <;> simp at hn <;> omega

/-- C10 on joint 2 of `demoClip`, which has no scale key and no rotate key and
one translate key. -/
theorem sampleSkeletonAnimation_empty_channel_witness :
    (sampleSkeletonAnimation (fun _ => Transform.identity) 5 demoClip 2).scale = ⟨1, 1, 1⟩
    ∧ (sampleSkeletonAnimation (fun _ => Transform.identity) 5 demoClip 2).rotation
        = ⟨1, 0, 0, 0⟩
    ∧ sampleJointFindCalls demoJoint2 = [1] :=
  have h := sampleSkeletonAnimation_empty_channel (fun _ => Transform.identity) 5 demoClip 2
    (by decide) demoJoint2 rfl
  ⟨h.1 rfl, h.2.1 rfl, rfl⟩

end SamplerClaims

/-! ## Matrices and quaternions -/

section MatrixAlgebra

variable {α : Type} [LinearOrderedField α]

theorem matrix_mul_def (a b : Matrix4x4 α) :
    a * b =
  ⟨a.c00*b.c00 + a.c01*b.c10 + a.c02*b.c20 + a.c03*b.c30,
   a.c00*b.c01 + a.c01*b.c11 + a.c02*b.c21 + a.c03*b.c31,
   a.c00*b.c02 + a.c01*b.c12 + a.c02*b.c22 + a.c03*b.c32,
   a.c00*b.c03 + a.c01*b.c13 + a.c02*b.c23 + a.c03*b.c33,
   a.c10*b.c00 + a.c11*b.c10 + a.c12*b.c20 + a.c13*b.c30,
   a.c10*b.c01 + a.c11*b.c11 + a.c12*b.c21 + a.c13*b.c31,
   a.c10*b.c02 + a.c11*b.c12 + a.c12*b.c22 + a.c13*b.c32,
   a.c10*b.c03 + a.c11*b.c13 + a.c12*b.c23 + a.c13*b.c33,
   a.c20*b.c00 + a.c21*b.c10 + a.c22*b.c20 + a.c23*b.c30,
   a.c20*b.c01 + a.c21*b.c11 + a.c22*b.c21 + a.c23*b.c31,
   a.c20*b.c02 + a.c21*b.c12 + a.c22*b.c22 + a.c23*b.c32,
   a.c20*b.c03 + a.c21*b.c13 + a.c22*b.c23 + a.c23*b.c33,
   a.c30*b.c00 + a.c31*b.c10 + a.c32*b.c20 + a.c33*b.c30,
   a.c30*b.c01 + a.c31*b.c11 + a.c32*b.c21 + a.c33*b.c31,
   a.c30*b.c02 + a.c31*b.c12 + a.c32*b.c22 + a.c33*b.c32,
   a.c30*b.c03 + a.c31*b.c13 + a.c32*b.c23 + a.c33*b.c33⟩ := rfl

theorem matrix_mul_assoc (a b c : Matrix4x4 α) : a * b * c = a * (b * c) := by
  simp only [matrix_mul_def, Matrix4x4.mk.injEq]
  refine ⟨?_, ?_, ?_, ?_, ?_, ?_, ?_, ?_, ?_, ?_, ?_, ?_, ?_, ?_, ?_, ?_⟩ <;> ring

theorem matrix_mul_identity (a : Matrix4x4 α) : a * Matrix4x4.identity = a := by
  cases a
  simp [matrix_mul_def, Matrix4x4.identity]

theorem matrix_identity_mul (a : Matrix4x4 α) : Matrix4x4.identity * a = a := by
  cases a
  simp [matrix_mul_def, Matrix4x4.identity]

/-- For a quaternion of squared length 1 the matrix of the conjugate undoes the
matrix of the quaternion. -/
theorem quaternionToMatrix4x4_mul_inverse (q : Quaternion α)
    (hq : q.w*q.w + q.x*q.x + q.y*q.y + q.z*q.z = 1) :
    quaternionToMatrix4x4 q * quaternionToMatrix4x4 q.inverse = Matrix4x4.identity := by
  cases q with
  | mk w x y z =>
  simp only [quaternionToMatrix4x4, Quaternion.inverse, matrix_mul_def, Matrix4x4.identity,
    Matrix4x4.mk.injEq] at *
  refine ⟨?_, ?_, ?_, ?_, ?_, ?_, ?_, ?_, ?_, ?_, ?_, ?_, ?_, ?_, ?_, ?_⟩
  · linear_combination (4 * (y*y + z*z)) * hq
  · linear_combination (-4 * x * y) * hq
  · linear_combination (-4 * x * z) * hq
  · ring
  · linear_combination (-4 * x * y) * hq
  · linear_combination (4 * (x*x + z*z)) * hq
  · linear_combination (-4 * y * z) * hq
  · ring
  · linear_combination (-4 * x * z) * hq
  · linear_combination (-4 * y * z) * hq
  · linear_combination (4 * (x*x + y*y)) * hq
  · ring
  · ring
  · ring
  · ring
  · ring

theorem matrix_mul_cancel (a b x : Matrix4x4 α) (h : a * b = Matrix4x4.identity) :
    a * (b * x) = x := by
  rw [← matrix_mul_assoc, h, matrix_identity_mul]

/-- The matrix of a transform times the matrix that `transformToMatrix4x4Inverse`
builds for it is the identity, for a rotation of squared length 1 and a scale
without a zero component. -/
theorem transformToMatrix4x4_mul_inverse (t : Transform α)
    (hq : t.rotation.w*t.rotation.w + t.rotation.x*t.rotation.x + t.rotation.y*t.rotation.y
      + t.rotation.z*t.rotation.z = 1)
    (hx : t.scale.x ≠ 0) (hy : t.scale.y ≠ 0) (hz : t.scale.z ≠ 0) :
    transformToMatrix4x4 t * transformToMatrix4x4Inverse t = Matrix4x4.identity := by
  have hS : (⟨t.scale.x, 0, 0, 0, 0, t.scale.y, 0, 0, 0, 0, t.scale.z, 0, 0, 0, 0, 1⟩ :
      Matrix4x4 α)
      * ⟨1 / t.scale.x, 0, 0, 0, 0, 1 / t.scale.y, 0, 0, 0, 0, 1 / t.scale.z, 0, 0, 0, 0, 1⟩
      = Matrix4x4.identity := by
    simp [matrix_mul_def, Matrix4x4.identity, hx, hy, hz]
  have hP : (⟨1, 0, 0, t.position.x, 0, 1, 0, t.position.y, 0, 0, 1, t.position.z, 0, 0, 0, 1⟩ :
      Matrix4x4 α)
      * ⟨1, 0, 0, -t.position.x, 0, 1, 0, -t.position.y, 0, 0, 1, -t.position.z, 0, 0, 0, 1⟩
      = Matrix4x4.identity := by
    simp [matrix_mul_def, Matrix4x4.identity]
  have hR := quaternionToMatrix4x4_mul_inverse t.rotation hq
  unfold transformToMatrix4x4 transformToMatrix4x4Inverse
  simp only []
  simp only [matrix_mul_assoc]
  rw [matrix_mul_cancel _ _ _ hS, matrix_mul_cancel _ _ _ hR, hP]

theorem quaternionToMatrix4x4_mul (q1 q2 : Quaternion α)
    (h1 : q1.w*q1.w + q1.x*q1.x + q1.y*q1.y + q1.z*q1.z = 1)
    (h2 : q2.w*q2.w + q2.x*q2.x + q2.y*q2.y + q2.z*q2.z = 1) :
    quaternionToMatrix4x4 (q2 * q1) = quaternionToMatrix4x4 q2 * quaternionToMatrix4x4 q1 := by
  cases q1 with
  | mk w1 x1 y1 z1 =>
  cases q2 with
  | mk w2 x2 y2 z2 =>
  simp only [quaternionToMatrix4x4, quaternion_mul_def, matrix_mul_def, Matrix4x4.mk.injEq] at *
  refine ⟨?_, ?_, ?_, ?_, ?_, ?_, ?_, ?_, ?_, ?_, ?_, ?_, ?_, ?_, ?_, ?_⟩
  · linear_combination (-(2*y2*y2 + 2*z2*z2)) * h1 + (-(2*y1*y1 + 2*z1*z1)) * h2
  · linear_combination (2*x2*y2 - 2*z2*w2) * h1 + (2*x1*y1 - 2*z1*w1) * h2
  · linear_combination (2*x2*z2 + 2*y2*w2) * h1 + (2*x1*z1 + 2*y1*w1) * h2
  · ring
  · linear_combination (2*x2*y2 + 2*z2*w2) * h1 + (2*x1*y1 + 2*z1*w1) * h2
  · linear_combination (-(2*x2*x2 + 2*z2*z2)) * h1 + (-(2*x1*x1 + 2*z1*z1)) * h2
  · linear_combination (2*y2*z2 - 2*x2*w2) * h1 + (2*y1*z1 - 2*x1*w1) * h2
  · ring
  · linear_combination (2*x2*z2 - 2*y2*w2) * h1 + (2*x1*z1 - 2*y1*w1) * h2
  · linear_combination (2*y2*z2 + 2*x2*w2) * h1 + (2*y1*z1 + 2*x1*w1) * h2
  · linear_combination (-(2*x2*x2 + 2*y2*y2)) * h1 + (-(2*x1*x1 + 2*y1*y1)) * h2
  · ring
  · ring
  · ring
  · ring
  · ring

/-- The quaternion-vector product, written with the cells of the matrix. -/
theorem quaternion_mulVec3_eq (q : Quaternion α) (v : Vec3 α) :
    q * v =
      ⟨(quaternionToMatrix4x4 q).c00 * v.x + (quaternionToMatrix4x4 q).c01 * v.y
          + (quaternionToMatrix4x4 q).c02 * v.z,
       (quaternionToMatrix4x4 q).c10 * v.x + (quaternionToMatrix4x4 q).c11 * v.y
          + (quaternionToMatrix4x4 q).c12 * v.z,
       (quaternionToMatrix4x4 q).c20 * v.x + (quaternionToMatrix4x4 q).c21 * v.y
          + (quaternionToMatrix4x4 q).c22 * v.z⟩ := by
  simp [quaternion_mulVec3_def, matrix_mulVec3_def, matrix_mulVec4_def, Vec4.xyz,
    quaternionToMatrix4x4]

theorem quaternion_mul_mulVec3 (q1 q2 : Quaternion α) (v : Vec3 α)
    (h1 : q1.w*q1.w + q1.x*q1.x + q1.y*q1.y + q1.z*q1.z = 1)
    (h2 : q2.w*q2.w + q2.x*q2.x + q2.y*q2.y + q2.z*q2.z = 1) :
    (q2 * q1) * v = q2 * (q1 * v) := by
  rw [quaternion_mulVec3_eq, quaternionToMatrix4x4_mul q1 q2 h1 h2, quaternion_mulVec3_eq q2,
    quaternion_mulVec3_eq q1]
  simp only [matrix_mul_def, quaternionToMatrix4x4, Vec3.mk.injEq]
  refine ⟨?_, ?_, ?_⟩ <;> ring

end MatrixAlgebra

/-! ## Pose blender: the loops -/

/-- An input pointer reads the same element from two states of the output array
that agree at that index. -/
theorem posePtr_read_congr {α : Type} (p : PosePtr α) (o1 o2 : Nat → Transform α) (i : Nat)
    (h : o1 i = o2 i) : p.read o1 i = p.read o2 i := by
  cases p with
  | sameAsOutput => exact h
  | other poses => rfl

section BlenderLoops

variable {α : Type} [LinearOrderedField α]

/-- A loop `for (i = 0; i < n; i++) out[i] = F(out, i)` whose value for index
`i` reads the output array at index `i` only: below `n` every cell holds the
value computed from the array as it was before the loop. -/
theorem foldl_update_range_local {β : Type} (F : (Nat → β) → Nat → β)
    (hF : ∀ (o1 o2 : Nat → β) (i : Nat), o1 i = o2 i → F o1 i = F o2 i)
    (out : Nat → β) (n i : Nat) :
    (List.range n).foldl (fun out i => Function.update out i (F out i)) out i
      = if i < n then F out i else out i := by
  induction n generalizing i with
  | zero => simp
  | succ n ih =>
    rw [List.range_succ, List.foldl_append]
    simp only [List.foldl_cons, List.foldl_nil]
    by_cases h : i = n
    · subst h
      rw [Function.update_same, if_pos (Nat.lt_succ_self i)]
      apply hF
      rw [ih, if_neg (Nat.lt_irrefl i)]
    · rw [Function.update_noteq h, ih]
      by_cases h2 : i < n
      · simp [h2, Nat.lt_succ_of_lt h2]
      · have : ¬ i < n + 1 := by omega
        simp [h2, this]

theorem buildDifferenceSkeletonPose_apply (out : Nat → Transform α)
    (reference target : PosePtr α) (jointCount i : Nat) :
    buildDifferenceSkeletonPose out reference target jointCount i
      = if i < jointCount then
          { position := (target.read out i).position - (reference.read out i).position
            rotation := (target.read out i).rotation * (reference.read out i).rotation.inverse
            scale := (target.read out i).scale - (reference.read out i).scale }
        else out i := by
  unfold buildDifferenceSkeletonPose
  exact foldl_update_range_local
    (fun out i =>
      { position := (target.read out i).position - (reference.read out i).position
        rotation := (target.read out i).rotation * (reference.read out i).rotation.inverse
        scale := (target.read out i).scale - (reference.read out i).scale })
    (fun o1 o2 i h => by
      simp only [posePtr_read_congr target o1 o2 i h, posePtr_read_congr reference o1 o2 i h])
    out jointCount i


end BlenderLoops

section BlenderLoopsSqrt

variable {α : Type} [LinearOrderedField α] [HasSqrtf α]

theorem additiveBlendSkeletonPoses_apply (out : Nat → Transform α)
    (base added : PosePtr α) (jointCount : Nat) (addWeight : α) (i : Nat) :
    additiveBlendSkeletonPoses out base added jointCount addWeight i
      = if i < jointCount then
          { position := (base.read out i).position + (added.read out i).position * addWeight
            rotation :=
              Quaternion.lerp Quaternion.identity (added.read out i).rotation addWeight
                * (base.read out i).rotation
            scale := (base.read out i).scale + (added.read out i).scale * addWeight }
        else out i := by
  unfold additiveBlendSkeletonPoses
  exact foldl_update_range_local
    (fun out i =>
      { position := (base.read out i).position + (added.read out i).position * addWeight
        rotation :=
          Quaternion.lerp Quaternion.identity (added.read out i).rotation addWeight
            * (base.read out i).rotation
        scale := (base.read out i).scale + (added.read out i).scale * addWeight })
    (fun o1 o2 i h => by
      simp only [posePtr_read_congr base o1 o2 i h, posePtr_read_congr added o1 o2 i h])
    out jointCount i

theorem lerpBlendSkeletonPoses_apply (out : Nat → Transform α)
    (A B : PosePtr α) (jointCount : Nat) (t : α) (i : Nat) :
    lerpBlendSkeletonPoses out A B jointCount t i
      = if i < jointCount then Transform.lerp (A.read out i) (B.read out i) t else out i := by
  unfold lerpBlendSkeletonPoses
  exact foldl_update_range_local
    (fun out i => Transform.lerp (A.read out i) (B.read out i) t)
    (fun o1 o2 i h => by
      simp only [posePtr_read_congr A o1 o2 i h, posePtr_read_congr B o1 o2 i h])
    out jointCount i

end BlenderLoopsSqrt

/-! ## Interpolation: further facts -/

theorem sqrtf_one_rat : sqrtf (1 : ℚ) = 1 := by
  show Rat.sqrt 1 = 1
  simp

theorem sqrtf_zero_rat : sqrtf (0 : ℚ) = 0 := by
  show Rat.sqrt 0 = 0
  simp

section Interpolation

variable {α : Type} [LinearOrderedField α]

theorem quaternion_identity_mul (q : Quaternion α) : Quaternion.identity * q = q := by
  cases q
  simp [quaternion_mul_def, Quaternion.identity]

theorem vec3_add_smul_zero (a b : Vec3 α) : a + b * (0 : α) = a := by
  cases a
  simp [vec3_add_def, vec3_smul_def]

theorem vec3_lerp_self (a : Vec3 α) (t : α) : Vec3.lerp a a t = a := by
  cases a
  simp only [Vec3.lerp, vec3_add_def, vec3_smul_def, Vec3.mk.injEq]
  refine ⟨?_, ?_, ?_⟩ <;> ring

theorem vec3_lerp_one (a b : Vec3 α) : Vec3.lerp a b 1 = b := by
  cases b
  simp [Vec3.lerp, vec3_add_def, vec3_smul_def]

/-- The shortest-arc operand has a non-negative `dot` with `a`. -/
theorem shortestArc_dot_nonneg (a b : Quaternion α) :
    0 ≤ a.dot (if a.dot b < 0 then b * (-1 : α) else b) := by
  by_cases h : a.dot b < 0
  · rw [if_pos h]
    have e : a.dot (b * (-1 : α)) = -(a.dot b) := by
      simp only [Quaternion.dot, quaternion_smul_def]
      ring
    rw [e]
    linarith
  · rw [if_neg h]
    exact not_lt.mp h

end Interpolation

section InterpolationSqrt

variable {α : Type} [LinearOrderedField α] [HasSqrtf α]

theorem quaternion_lerp_identity_zero (hs : sqrtf (1 : α) = 1) (b : Quaternion α) :
    Quaternion.lerp Quaternion.identity b 0 = Quaternion.identity := by
  rw [quaternion_lerp_zero]
  exact quaternion_normalize_unit hs _ (by simp [Quaternion.identity])

theorem quaternion_lerp_self (hs : sqrtf (1 : α) = 1) (a : Quaternion α) (t : α)
    (ha : a.w*a.w + a.x*a.x + a.y*a.y + a.z*a.z = 1) : Quaternion.lerp a a t = a := by
  have hd : ¬ a.dot a < 0 := by
    have : a.dot a = 1 := ha
    rw [this]
    norm_num
  have e : a * (1 - t) + a * t = a := by
    cases a
    simp only [quaternion_add_def, quaternion_smul_def, Quaternion.mk.injEq]
    refine ⟨?_, ?_, ?_, ?_⟩ <;> ring
  unfold Quaternion.lerp
  simp only [if_neg hd, e]
  exact quaternion_normalize_unit hs a ha

theorem quaternion_lerp_one (hs : sqrtf (1 : α) = 1) (a b : Quaternion α)
    (hb : b.w*b.w + b.x*b.x + b.y*b.y + b.z*b.z = 1) :
    Quaternion.lerp a b 1 = if a.dot b < 0 then b * (-1 : α) else b := by
  have e : ∀ c : Quaternion α, a * ((1 : α) - 1) + c * (1 : α) = c := by
    intro c
    cases c
    simp [quaternion_add_def, quaternion_smul_def]
  unfold Quaternion.lerp
  simp only [e]
  apply quaternion_normalize_unit hs
  split_ifs
  · simp only [quaternion_smul_def]
    linear_combination hb
  · exact hb

/-- When the `dot` is not negative, `lerp` blends the two operands as they
are. -/
theorem quaternion_lerp_of_dot_nonneg (a b : Quaternion α) (t : α) (h : 0 ≤ a.dot b) :
    Quaternion.lerp a b t = (a * (1 - t) + b * t).normalize := by
  unfold Quaternion.lerp
  simp only [if_neg (not_lt.mpr h)]

/-- What `slerp` computes, in terms of the operand after the shortest-arc
negation and of the number `slerpHalfAngleSine` that it divides by. -/
theorem quaternion_slerp_eq (acos sin : α → α) (a b : Quaternion α) (t : α) :
    Quaternion.slerp acos sin a b t
      = if |slerpHalfAngleSine a b| > 999 / 1000 then
          (a * (1 - t) + (if a.dot b < 0 then b * (-1 : α) else b) * t).normalize
        else
          a * (sin ((1 - t) * acos (a.dot (if a.dot b < 0 then b * (-1 : α) else b)))
                / slerpHalfAngleSine a b)
            + (if a.dot b < 0 then b * (-1 : α) else b)
              * (sin (t * acos (a.dot (if a.dot b < 0 then b * (-1 : α) else b)))
                  / slerpHalfAngleSine a b) := by
  have h0 := shortestArc_dot_nonneg a b
  unfold Quaternion.slerp slerpHalfAngleSine
  simp only []
  generalize (if a.dot b < 0 then b * (-1 : α) else b) = c at h0 ⊢
  rw [quaternion_lerp_of_dot_nonneg a c t h0]

/-- With weight 0 the additive blend of a joint is its base pose. -/
theorem additiveBlendSkeletonPoses_zero_apply (hs : sqrtf (1 : α) = 1)
    (out : Nat → Transform α) (base added : PosePtr α) (jointCount : Nat) (i : Nat)
    (hi : i < jointCount) :
    additiveBlendSkeletonPoses out base added jointCount 0 i = base.read out i := by
  rw [additiveBlendSkeletonPoses_apply, if_pos hi, quaternion_lerp_identity_zero hs,
    quaternion_identity_mul, vec3_add_smul_zero, vec3_add_smul_zero]

end InterpolationSqrt

/-! ## Matrices and quaternions: the claims -/

section AlgebraClaims

variable {α : Type} [LinearOrderedField α]

/-- C11: when every joint `i < jointCount` of the skeleton stores
`transformToMatrix4x4Inverse(B[i])` as its inverse bind matrix, and every
`B[i]` has a rotation of squared length 1 and no zero scale component,
`buildSkinningMatrix` applied to the poses `B` writes `Matrix4x4::identity` for
every joint; and for every such transform `t`,
`transformToMatrix4x4(t) * transformToMatrix4x4Inverse(t)` is the identity. -/
theorem buildSkinningMatrix_bind_pose (out : Nat → Matrix4x4 α) (B : Nat → Transform α)
    (skeleton : Skeleton α)
    (hinv : ∀ i, i < skeleton.jointCount →
      (skeleton.joints i).modelSpaceBindPoseInverse = transformToMatrix4x4Inverse (B i))
    (hunit : ∀ i, i < skeleton.jointCount →
      (B i).rotation.w * (B i).rotation.w + (B i).rotation.x * (B i).rotation.x
        + (B i).rotation.y * (B i).rotation.y + (B i).rotation.z * (B i).rotation.z = 1)
    (hscale : ∀ i, i < skeleton.jointCount →
      (B i).scale.x ≠ 0 ∧ (B i).scale.y ≠ 0 ∧ (B i).scale.z ≠ 0) :
    (∀ i, i < skeleton.jointCount →
      buildSkinningMatrix out B skeleton i = Matrix4x4.identity)
    ∧ ∀ t : Transform α,
        t.rotation.w * t.rotation.w + t.rotation.x * t.rotation.x
          + t.rotation.y * t.rotation.y + t.rotation.z * t.rotation.z = 1 →
        t.scale.x ≠ 0 → t.scale.y ≠ 0 → t.scale.z ≠ 0 →
        transformToMatrix4x4 t * transformToMatrix4x4Inverse t = Matrix4x4.identity := by
  refine ⟨?_, fun t ht hx hy hz => transformToMatrix4x4_mul_inverse t ht hx hy hz⟩
  intro i hi
  unfold buildSkinningMatrix
  rw [foldl_update_range
    (fun i => transformToMatrix4x4 (B i) * (skeleton.joints i).modelSpaceBindPoseInverse)
    out _ i, if_pos hi, hinv i hi]
  exact transformToMatrix4x4_mul_inverse (B i) (hunit i hi) (hscale i hi).1
    (hscale i hi).2.1 (hscale i hi).2.2

/-- C11 on `bindSkeleton` with the poses `bindPose`: the skinning matrices of
the joints 0 and 2 are the identity. -/
theorem buildSkinningMatrix_bind_pose_witness :
    buildSkinningMatrix (fun _ => ⟨0, 0, 0, 0, 0, 0, 0, 0, 0, 0, 0, 0, 0, 0, 0, 0⟩) bindPose
        bindSkeleton 0 = Matrix4x4.identity
    ∧ buildSkinningMatrix (fun _ => ⟨0, 0, 0, 0, 0, 0, 0, 0, 0, 0, 0, 0, 0, 0, 0, 0⟩) bindPose
        bindSkeleton 2 = Matrix4x4.identity :=
  have h := (buildSkinningMatrix_bind_pose
    (fun _ => ⟨0, 0, 0, 0, 0, 0, 0, 0, 0, 0, 0, 0, 0, 0, 0, 0⟩) bindPose bindSkeleton
    (fun _ _ => rfl) (fun _ _ => by norm_num [bindPose])
    (fun _ _ => by norm_num [bindPose])).1
  ⟨h 0 (by decide), h 2 (by decide)⟩

/-- C17: for quaternions `q1`, `q2` of squared length 1 and every vector `v`,
`(q2*q1)*v = q2*(q1*v)`, and
`quaternionToMatrix4x4(q2*q1) = quaternionToMatrix4x4(q2) * quaternionToMatrix4x4(q1)`. -/
theorem quaternion_composition_order (q1 q2 : Quaternion α)
    (h1 : q1.w*q1.w + q1.x*q1.x + q1.y*q1.y + q1.z*q1.z = 1)
    (h2 : q2.w*q2.w + q2.x*q2.x + q2.y*q2.y + q2.z*q2.z = 1) :
    (∀ v : Vec3 α, (q2 * q1) * v = q2 * (q1 * v))
    ∧ quaternionToMatrix4x4 (q2 * q1)
        = quaternionToMatrix4x4 q2 * quaternionToMatrix4x4 q1 :=
  ⟨fun v => quaternion_mul_mulVec3 q1 q2 v h1 h2, quaternionToMatrix4x4_mul q1 q2 h1 h2⟩

/-- C17 on the quaternions (3/5, 4/5, 0, 0) and (0, 0, 1, 0). -/
theorem quaternion_composition_order_witness :
    ((⟨0, 0, 1, 0⟩ : Quaternion ℚ) * ⟨3 / 5, 4 / 5, 0, 0⟩) * (⟨1, 2, 3⟩ : Vec3 ℚ)
        = (⟨0, 0, 1, 0⟩ : Quaternion ℚ)
            * ((⟨3 / 5, 4 / 5, 0, 0⟩ : Quaternion ℚ) * (⟨1, 2, 3⟩ : Vec3 ℚ))
    ∧ quaternionToMatrix4x4 ((⟨0, 0, 1, 0⟩ : Quaternion ℚ) * ⟨3 / 5, 4 / 5, 0, 0⟩)
        = quaternionToMatrix4x4 ⟨0, 0, 1, 0⟩ * quaternionToMatrix4x4 ⟨3 / 5, 4 / 5, 0, 0⟩ :=
  have h := quaternion_composition_order (⟨3 / 5, 4 / 5, 0, 0⟩ : Quaternion ℚ) ⟨0, 0, 1, 0⟩
    (by norm_num) (by norm_num)
  ⟨h.1 ⟨1, 2, 3⟩, h.2⟩

/-- C18: `inverse(q)` is the conjugate `(w, -x, -y, -z)` for every `q`; both
products of `q` and `inverse(q)` are `(w^2+x^2+y^2+z^2, 0, 0, 0)`; and for a `q`
of squared length 1 both are `Quaternion::identity`. -/
theorem quaternion_inverse_conjugate (q : Quaternion α) :
    q.inverse = ⟨q.w, -q.x, -q.y, -q.z⟩
    ∧ q * q.inverse = ⟨q.w*q.w + q.x*q.x + q.y*q.y + q.z*q.z, 0, 0, 0⟩
    ∧ q.inverse * q = ⟨q.w*q.w + q.x*q.x + q.y*q.y + q.z*q.z, 0, 0, 0⟩
    ∧ (q.w*q.w + q.x*q.x + q.y*q.y + q.z*q.z = 1 →
        q * q.inverse = Quaternion.identity ∧ q.inverse * q = Quaternion.identity) := by
  have e1 : q * q.inverse = ⟨q.w*q.w + q.x*q.x + q.y*q.y + q.z*q.z, 0, 0, 0⟩ := by
    simp only [quaternion_mul_def, Quaternion.inverse, Quaternion.mk.injEq]
    refine ⟨?_, ?_, ?_, ?_⟩ <;> ring
  have e2 : q.inverse * q = ⟨q.w*q.w + q.x*q.x + q.y*q.y + q.z*q.z, 0, 0, 0⟩ := by
    simp only [quaternion_mul_def, Quaternion.inverse, Quaternion.mk.injEq]
    refine ⟨?_, ?_, ?_, ?_⟩ <;> ring
  refine ⟨rfl, e1, e2, ?_⟩
  intro h
  rw [e1, e2, h]
  exact ⟨rfl, rfl⟩

/-- C18 on the quaternion (3/5, 4/5, 0, 0), of squared length 1. -/
theorem quaternion_inverse_conjugate_witness :
    (⟨3 / 5, 4 / 5, 0, 0⟩ : Quaternion ℚ) * (⟨3 / 5, 4 / 5, 0, 0⟩ : Quaternion ℚ).inverse
        = Quaternion.identity
    ∧ (⟨3 / 5, 4 / 5, 0, 0⟩ : Quaternion ℚ).inverse * ⟨3 / 5, 4 / 5, 0, 0⟩
        = Quaternion.identity :=
  (quaternion_inverse_conjugate (⟨3 / 5, 4 / 5, 0, 0⟩ : Quaternion ℚ)).2.2.2 (by norm_num)

end AlgebraClaims

section InterpolationClaims

variable {α : Type} [LinearOrderedField α] [HasSqrtf α]

/-- C19: for all quaternions `a` and `b`, the operand
`b' = (dot(a,b) < 0 ? b*-1 : b)` has `dot(a, b') ≥ 0`; and `b'` is the second
operand that `lerp` blends, that `slerp` blends, and whose `dot` with `a`
`slerp` takes as the cosine of the half angle. -/
theorem shortest_arc_correction (acos sin : α → α) (a b : Quaternion α) (t : α) :
    0 ≤ a.dot (if a.dot b < 0 then b * (-1 : α) else b)
    ∧ Quaternion.lerp a b t
        = (a * (1 - t) + (if a.dot b < 0 then b * (-1 : α) else b) * t).normalize
    ∧ Quaternion.slerp acos sin a b t
        = if |slerpHalfAngleSine a b| > 999 / 1000 then
            (a * (1 - t) + (if a.dot b < 0 then b * (-1 : α) else b) * t).normalize
          else
            a * (sin ((1 - t) * acos (a.dot (if a.dot b < 0 then b * (-1 : α) else b)))
                  / slerpHalfAngleSine a b)
              + (if a.dot b < 0 then b * (-1 : α) else b)
                * (sin (t * acos (a.dot (if a.dot b < 0 then b * (-1 : α) else b)))
                    / slerpHalfAngleSine a b) :=
  ⟨shortestArc_dot_nonneg a b, rfl, quaternion_slerp_eq acos sin a b t⟩

end InterpolationClaims

/-- C20, evaluated on `slerp(identity, identity, t)`, two equal quaternions of
squared length 1: `halfAngleSine` is `sqrt(1 - 1) = 0`, which is not above
0.999, so `slerp` does not fall back to `lerp` and divides by
`halfAngleSine = 0` in both ratios. -/
theorem slerp_same_quaternion_divides_by_zero :
    (Quaternion.identity : Quaternion ℚ).w * (Quaternion.identity : Quaternion ℚ).w
        + (Quaternion.identity : Quaternion ℚ).x * (Quaternion.identity : Quaternion ℚ).x
        + (Quaternion.identity : Quaternion ℚ).y * (Quaternion.identity : Quaternion ℚ).y
        + (Quaternion.identity : Quaternion ℚ).z * (Quaternion.identity : Quaternion ℚ).z = 1
    ∧ slerpHalfAngleSine (Quaternion.identity : Quaternion ℚ) Quaternion.identity = 0
    ∧ ¬ (|slerpHalfAngleSine (Quaternion.identity : Quaternion ℚ) Quaternion.identity|
          > 999 / 1000)
    ∧ ∀ (acos sin : ℚ → ℚ) (t : ℚ),
        Quaternion.slerp acos sin Quaternion.identity Quaternion.identity t
          = (Quaternion.identity : Quaternion ℚ) * (sin ((1 - t) * acos 1) / (0 : ℚ))
            + (Quaternion.identity : Quaternion ℚ) * (sin (t * acos 1) / (0 : ℚ)) := by
  have hs : slerpHalfAngleSine (Quaternion.identity : Quaternion ℚ) Quaternion.identity = 0 := by
    norm_num [slerpHalfAngleSine, Quaternion.dot, Quaternion.identity, square, sqrtf_zero_rat]
  refine ⟨by simp [Quaternion.identity], hs, ?_, ?_⟩
  · rw [hs]
    norm_num
  · intro acos sin t
    have hd : (Quaternion.identity : Quaternion ℚ).dot Quaternion.identity = 1 := by
      simp [Quaternion.dot, Quaternion.identity]
    rw [quaternion_slerp_eq, hs, hd]
    norm_num

/-! ## Pose blender: the claims -/

section BlenderClaims

variable {α : Type} [LinearOrderedField α] [HasSqrtf α]

/-- C12: for every joint `i < jointCount` and every weight, with `base[i]` and
`added[i]` the elements that the two input pointers hold before the call
(either may be the output array), `additiveBlendSkeletonPoses` writes position
`base[i].position + added[i].position * w`, rotation
`lerp(Quaternion::identity, added[i].rotation, w) * base[i].rotation` and scale
`base[i].scale + added[i].scale * w`; and an identity base with an added pose of
position (1,0,0) and identity rotation, at weight 1/2, gives position
(1/2,0,0). -/
theorem additiveBlendSkeletonPoses_formula (out : Nat → Transform α)
    (base added : PosePtr α) (jointCount : Nat) (addWeight : α) (i : Nat)
    (hi : i < jointCount) :
    (additiveBlendSkeletonPoses out base added jointCount addWeight i).position
        = (base.read out i).position + (added.read out i).position * addWeight
    ∧ (additiveBlendSkeletonPoses out base added jointCount addWeight i).rotation
        = Quaternion.lerp Quaternion.identity (added.read out i).rotation addWeight
            * (base.read out i).rotation
    ∧ (additiveBlendSkeletonPoses out base added jointCount addWeight i).scale
        = (base.read out i).scale + (added.read out i).scale * addWeight
    ∧ ∀ s : Vec3 α,
        (additiveBlendSkeletonPoses out (.other fun _ => Transform.identity)
          (.other fun _ => ⟨⟨1, 0, 0⟩, Quaternion.identity, s⟩) jointCount (1 / 2) i).position
          = ⟨1 / 2, 0, 0⟩ := by
  refine ⟨?_, ?_, ?_, ?_⟩
  · rw [additiveBlendSkeletonPoses_apply, if_pos hi]
  · rw [additiveBlendSkeletonPoses_apply, if_pos hi]
  · rw [additiveBlendSkeletonPoses_apply, if_pos hi]
  · intro s
    rw [additiveBlendSkeletonPoses_apply, if_pos hi]
    simp [PosePtr.read, Transform.identity, vec3_add_def, vec3_smul_def]

/-- C12 on two joints: identity base, added position (1,0,0), weight 1/2. -/
theorem additiveBlendSkeletonPoses_formula_witness :
    (additiveBlendSkeletonPoses (fun _ => (Transform.identity : Transform ℚ))
        (.other fun _ => Transform.identity)
        (.other fun _ => ⟨⟨1, 0, 0⟩, Quaternion.identity, ⟨1, 1, 1⟩⟩) 2 (1 / 2) 1).position
      = ⟨1 / 2, 0, 0⟩ :=
  (additiveBlendSkeletonPoses_formula (fun _ => (Transform.identity : Transform ℚ))
    (.other fun _ => Transform.identity)
    (.other fun _ => ⟨⟨1, 0, 0⟩, Quaternion.identity, ⟨1, 1, 1⟩⟩) 2 (1 / 2) 1
    (by decide)).2.2.2 ⟨1, 1, 1⟩

/-- C13: with weight 0 and `sqrtf 1 = 1`, `additiveBlendSkeletonPoses` writes
`out[i] = base[i]` for every `i < jointCount`, whatever the added array holds
(any rotation, of any length) and whether or not an input is the output
array. -/
theorem additiveBlendSkeletonPoses_weight_zero (hs : sqrtf (1 : α) = 1)
    (out : Nat → Transform α) (base added : PosePtr α) (jointCount : Nat) (i : Nat)
    (hi : i < jointCount) :
    additiveBlendSkeletonPoses out base added jointCount 0 i = base.read out i := by
  rw [additiveBlendSkeletonPoses_apply, if_pos hi]
  have hrot : Quaternion.lerp Quaternion.identity (added.read out i).rotation 0
      * (base.read out i).rotation = (base.read out i).rotation := by
    rw [quaternion_lerp_identity_zero hs, quaternion_identity_mul]
  rw [hrot, vec3_add_smul_zero, vec3_add_smul_zero]

/-- C13 on two joints, in place on an array of `stepX`, with an added pose whose
rotation is the zero quaternion. -/
theorem additiveBlendSkeletonPoses_weight_zero_witness :
    additiveBlendSkeletonPoses (fun _ => stepX) .sameAsOutput
      (.other fun _ => ⟨⟨5, 5, 5⟩, ⟨0, 0, 0, 0⟩, ⟨7, 7, 7⟩⟩) 2 0 1 = stepX :=
  additiveBlendSkeletonPoses_weight_zero sqrtf_one_rat (fun _ => stepX) .sameAsOutput
    (.other fun _ => ⟨⟨5, 5, 5⟩, ⟨0, 0, 0, 0⟩, ⟨7, 7, 7⟩⟩) 2 1 (by decide)

/-- C14: with `sqrtf 1 = 1`, blending an array with itself writes
`out[i] = A[i]` for every `i < jointCount` at which the rotation of `A[i]` has
squared length 1, for every `t`. -/
theorem lerpBlendSkeletonPoses_same_pose (hs : sqrtf (1 : α) = 1)
    (out : Nat → Transform α) (A : PosePtr α) (jointCount : Nat) (t : α) (i : Nat)
    (hi : i < jointCount)
    (hunit : (A.read out i).rotation.w * (A.read out i).rotation.w
      + (A.read out i).rotation.x * (A.read out i).rotation.x
      + (A.read out i).rotation.y * (A.read out i).rotation.y
      + (A.read out i).rotation.z * (A.read out i).rotation.z = 1) :
    lerpBlendSkeletonPoses out A A jointCount t i = A.read out i := by
  rw [lerpBlendSkeletonPoses_apply, if_pos hi]
  unfold Transform.lerp
  rw [vec3_lerp_self, vec3_lerp_self, quaternion_lerp_self hs _ t hunit]

/-- C14 on the array `bindPose`, at `t = 1/3`. -/
theorem lerpBlendSkeletonPoses_same_pose_witness :
    lerpBlendSkeletonPoses (fun _ => Transform.identity) (.other bindPose) (.other bindPose)
      2 (1 / 3) 1 = bindPose 1 :=
  lerpBlendSkeletonPoses_same_pose sqrtf_one_rat (fun _ => Transform.identity)
    (.other bindPose) 2 (1 / 3) 1 (by decide) (by norm_num [PosePtr.read, bindPose])

/-- C15 as stated fails: blending `plusPose` (rotation (1,0,0,0)) and
`minusPose` (rotation (-1,0,0,0)), both of squared length 1, at `t = 1` writes
the rotation (1,0,0,0), which is not the rotation of `minusPose` component for
component. -/
theorem lerpBlendSkeletonPoses_one_not_poseB :
    (lerpBlendSkeletonPoses (fun _ => Transform.identity) (.other fun _ => plusPose)
        (.other fun _ => minusPose) 1 1 0).rotation = ⟨1, 0, 0, 0⟩
    ∧ minusPose.rotation = ⟨-1, 0, 0, 0⟩
    ∧ lerpBlendSkeletonPoses (fun _ => Transform.identity) (.other fun _ => plusPose)
        (.other fun _ => minusPose) 1 1 0 ≠ minusPose := by
  have h : (lerpBlendSkeletonPoses (fun _ => Transform.identity) (.other fun _ => plusPose)
      (.other fun _ => minusPose) 1 1 0).rotation = ⟨1, 0, 0, 0⟩ := by
    rw [lerpBlendSkeletonPoses_apply, if_pos (by decide)]
    unfold Transform.lerp
    simp only [PosePtr.read]
    rw [quaternion_lerp_one sqrtf_one_rat _ _ (by norm_num [minusPose])]
    norm_num [plusPose, minusPose, Quaternion.dot, quaternion_smul_def]
  refine ⟨h, rfl, ?_⟩
  intro e
  rw [e] at h
  have hw := congrArg Quaternion.w h
  norm_num [minusPose] at hw

/-- C15, amended: with `sqrtf 1 = 1`, for every `i < jointCount` at which the
rotation of `B[i]` has squared length 1, blending at `t = 1` writes the
position and the scale of `B[i]`, and as rotation that of `B[i]` when
`dot(A[i].rotation, B[i].rotation) ≥ 0` and its negation `B[i].rotation * -1`
otherwise. -/
theorem lerpBlendSkeletonPoses_one (hs : sqrtf (1 : α) = 1)
    (out : Nat → Transform α) (A B : PosePtr α) (jointCount : Nat) (i : Nat)
    (hi : i < jointCount)
    (hunit : (B.read out i).rotation.w * (B.read out i).rotation.w
      + (B.read out i).rotation.x * (B.read out i).rotation.x
      + (B.read out i).rotation.y * (B.read out i).rotation.y
      + (B.read out i).rotation.z * (B.read out i).rotation.z = 1) :
    (lerpBlendSkeletonPoses out A B jointCount 1 i).position = (B.read out i).position
    ∧ (lerpBlendSkeletonPoses out A B jointCount 1 i).scale = (B.read out i).scale
    ∧ (lerpBlendSkeletonPoses out A B jointCount 1 i).rotation
        = if (A.read out i).rotation.dot (B.read out i).rotation < 0 then
            (B.read out i).rotation * (-1 : α)
          else (B.read out i).rotation := by
  rw [lerpBlendSkeletonPoses_apply, if_pos hi]
  unfold Transform.lerp
  refine ⟨vec3_lerp_one _ _, vec3_lerp_one _ _, ?_⟩
  exact quaternion_lerp_one hs _ _ hunit

/-- C15, amended, on `bindPose` blended towards `minusPose`. -/
theorem lerpBlendSkeletonPoses_one_witness :
    (lerpBlendSkeletonPoses (fun _ => Transform.identity) (.other bindPose)
        (.other fun _ => minusPose) 2 1 1).position = minusPose.position
    ∧ (lerpBlendSkeletonPoses (fun _ => Transform.identity) (.other bindPose)
        (.other fun _ => minusPose) 2 1 1).scale = minusPose.scale :=
  have h := lerpBlendSkeletonPoses_one sqrtf_one_rat (fun _ => Transform.identity)
    (.other bindPose) (.other fun _ => minusPose) 2 1 (by decide)
    (by norm_num [PosePtr.read, minusPose])
  ⟨h.1, h.2.1⟩

/-- C16: `blendSkeletonAnimation`, which works in place on the accumulator and
on its local vector, returns the accumulator of the stated composition
`blendSkeletonAnimationStated`; the entries at indices `≥ jointCount` of the
clip are unchanged; and with weight 0 (and `sqrtf 1 = 1`) the whole accumulator
is unchanged. -/
theorem blendSkeletonAnimation_composition (acc : Nat → Transform α)
    (animation : SkeletonAnimation α) (animationTime weight : α)
    (referencePose : Option (SkeletonAnimation α)) (referencePoseTime : α) :
    blendSkeletonAnimation acc animation animationTime weight referencePose referencePoseTime
        = blendSkeletonAnimationStated acc animation animationTime weight referencePose
            referencePoseTime
    ∧ (∀ i, animation.jointCount ≤ i →
        blendSkeletonAnimation acc animation animationTime weight referencePose
          referencePoseTime i = acc i)
    ∧ (sqrtf (1 : α) = 1 →
        blendSkeletonAnimation acc animation animationTime 0 referencePose referencePoseTime
          = acc) := by
  refine ⟨?_, ?_, ?_⟩
  · funext i
    unfold blendSkeletonAnimation blendSkeletonAnimationStated
    simp only [additiveBlendSkeletonPoses_apply]
    by_cases hi : i < animation.jointCount
    · simp only [if_pos hi, PosePtr.read]
      cases referencePose with
      | none => rfl
      | some r =>
        simp only [buildDifferenceSkeletonPose_apply, if_pos hi, PosePtr.read]
    · simp only [if_neg hi, PosePtr.read]
  · intro i hi
    unfold blendSkeletonAnimation
    simp only [additiveBlendSkeletonPoses_apply, if_neg (not_lt.mpr hi)]
  · intro hs
    funext i
    unfold blendSkeletonAnimation
    by_cases hi : i < animation.jointCount
    · simp only []
      rw [additiveBlendSkeletonPoses_zero_apply hs _ _ _ _ i hi]
      rfl
    · simp only [additiveBlendSkeletonPoses_apply, if_neg hi]

/-- C16 on `demoClip`, with itself as the reference clip, at weight 0 on an
accumulator of `stepX`. -/
theorem blendSkeletonAnimation_composition_witness :
    blendSkeletonAnimation (fun _ => stepX) demoClip 3 0 (some demoClip) 1 = fun _ => stepX :=
  (blendSkeletonAnimation_composition (fun _ => stepX) demoClip 3 0 (some demoClip) 1).2.2
    sqrtf_one_rat

end BlenderClaims

/-! ## Quaternions and transforms: further facts -/

section QuaternionFacts

variable {α : Type} [LinearOrderedField α]

theorem quaternion_mul_identity (q : Quaternion α) : q * Quaternion.identity = q := by
  cases q
  simp [quaternion_mul_def, Quaternion.identity]

/-- The squared length of a product is the product of the squared lengths. -/
theorem quaternion_normSq_mul (p q : Quaternion α) :
    (p * q).w * (p * q).w + (p * q).x * (p * q).x + (p * q).y * (p * q).y
        + (p * q).z * (p * q).z
      = (p.w*p.w + p.x*p.x + p.y*p.y + p.z*p.z) * (q.w*q.w + q.x*q.x + q.y*q.y + q.z*q.z) := by
  simp only [quaternion_mul_def]
  ring

/-- Undoing the reference rotation: `(t * inverse(r)) * r = t` for `r` of squared
length 1. -/
theorem quaternion_mul_inverse_mul (t r : Quaternion α)
    (hr : r.w*r.w + r.x*r.x + r.y*r.y + r.z*r.z = 1) :
    (t * r.inverse) * r = t := by
  cases t with
  | mk tw tx ty tz =>
  cases r with
  | mk rw rx ry rz =>
  simp only [quaternion_mul_def, Quaternion.inverse, Quaternion.mk.injEq] at *
  refine ⟨?_, ?_, ?_, ?_⟩
  · linear_combination tw * hr
  · linear_combination tx * hr
  · linear_combination ty * hr
  · linear_combination tz * hr

theorem quaternion_neg_mul (d r : Quaternion α) : (d * (-1 : α)) * r = (d * r) * (-1 : α) := by
  simp only [quaternion_mul_def, quaternion_smul_def, Quaternion.mk.injEq]
  refine ⟨?_, ?_, ?_, ?_⟩ <;> ring

theorem quaternion_ne_neg (t : Quaternion α)
    (ht : t.w*t.w + t.x*t.x + t.y*t.y + t.z*t.z = 1) : t * (-1 : α) ≠ t := by
  intro h
  cases t with
  | mk tw tx ty tz =>
  simp only [quaternion_smul_def, Quaternion.mk.injEq] at h ht
  obtain ⟨h1, h2, h3, h4⟩ := h
  have e1 : tw = 0 := by linarith
  have e2 : tx = 0 := by linarith
  have e3 : ty = 0 := by linarith
  have e4 : tz = 0 := by linarith
  rw [e1, e2, e3, e4] at ht
  norm_num at ht

theorem vec3_add_sub_cancel (p t : Vec3 α) : p + (t - p) * (1 : α) = t := by
  cases p
  cases t
  simp [vec3_add_def, vec3_sub_def, vec3_smul_def]


/-- The blend `a*(1-t) + c*t` of two quaternions of squared length 1 with
`dot(a,c) ≥ 0` has a positive squared length, for every `t`. -/
theorem quaternion_blend_normSq_pos (a c : Quaternion α) (t : α)
    (ha : a.w*a.w + a.x*a.x + a.y*a.y + a.z*a.z = 1)
    (hc : c.w*c.w + c.x*c.x + c.y*c.y + c.z*c.z = 1)
    (hd : 0 ≤ a.dot c) :
    0 < (a * (1 - t) + c * t).w * (a * (1 - t) + c * t).w
        + (a * (1 - t) + c * t).x * (a * (1 - t) + c * t).x
        + (a * (1 - t) + c * t).y * (a * (1 - t) + c * t).y
        + (a * (1 - t) + c * t).z * (a * (1 - t) + c * t).z := by
  cases a with
  | mk aw ax ay az =>
  cases c with
  | mk cw cx cy cz =>
  simp only [quaternion_add_def, quaternion_smul_def, Quaternion.dot] at *
  have hd1 : aw*cw + ax*cx + ay*cy + az*cz ≤ 1 := by
    nlinarith [sq_nonneg (aw - cw), sq_nonneg (ax - cx), sq_nonneg (ay - cy),
      sq_nonneg (az - cz)]
  have hn : (aw * (1 - t) + cw * t) * (aw * (1 - t) + cw * t)
      + (ax * (1 - t) + cx * t) * (ax * (1 - t) + cx * t)
      + (ay * (1 - t) + cy * t) * (ay * (1 - t) + cy * t)
      + (az * (1 - t) + cz * t) * (az * (1 - t) + cz * t)
      = (1 - t) ^ 2 + t ^ 2 + 2 * (t * (1 - t)) * (aw*cw + ax*cx + ay*cy + az*cz) := by
    linear_combination ((1 - t) ^ 2) * ha + (t ^ 2) * hc
  rw [hn]
  generalize aw*cw + ax*cx + ay*cy + az*cz = d at hd hd1
  clear hn ha hc
  rcases le_or_lt 0 (t * (1 - t)) with h | h
  · have h2 : 0 ≤ 2 * (t * (1 - t)) * d := by positivity
    have e : (1 - t) ^ 2 + t ^ 2 = (1 - t - t) ^ 2 / 2 + 1 / 2 := by ring
    rw [e]
    have h3 := sq_nonneg (1 - t - t)
    linarith
  · have h3 : t * (1 - t) * 1 ≤ t * (1 - t) * d :=
      mul_le_mul_of_nonpos_left hd1 (le_of_lt h)
    have e : (1 - t) ^ 2 + t ^ 2 + 2 * (t * (1 - t)) * d
        = 1 + 2 * (t * (1 - t) * d - t * (1 - t) * 1) := by ring
    rw [e]
    linarith

end QuaternionFacts

/-! ## Transform algebra: the claims -/

section TransformClaims

variable {α : Type} [LinearOrderedField α]

/-- C30: `Transform::identity` is a two-sided identity of
`concatenateTransforms`, for every transform `c`, whatever its rotation and
scale. -/
theorem concatenateTransforms_identity (c : Transform α) :
    concatenateTransforms Transform.identity c = c
    ∧ concatenateTransforms c Transform.identity = c := by
  obtain ⟨⟨px, py, pz⟩, ⟨qw, qx, qy, qz⟩, ⟨sx, sy, sz⟩⟩ := c
  constructor
  · simp [concatenateTransforms, Transform.identity, Quaternion.identity, quaternionToMatrix4x4,
      vec3_add_def, vec3_mul_def, matrix_mulVec3_def, matrix_mulVec4_def, Vec4.xyz,
      quaternion_mul_def]
  · simp [concatenateTransforms, Transform.identity, Quaternion.identity, quaternionToMatrix4x4,
      vec3_add_def, vec3_mul_def, matrix_mulVec3_def, matrix_mulVec4_def, Vec4.xyz,
      quaternion_mul_def]

end TransformClaims

/-- C28: over the real numbers, with `sqrtf` the square root, for all quaternions
`a`, `b` of squared length 1 and every real `t` (inside or outside [0,1]), the
blend `q = a*(1-t) + b'*t` that `lerp` normalizes (`b'` the operand after the
shortest-arc negation) is not the zero quaternion and has a positive squared
length; its length is not 0, so `normalize` does not take its zero-length
branch and `lerp(a, b, t)` is `q` divided by its length; and `lerp(a, b, t)`
has length 1. -/
theorem quaternion_lerp_unit_length (a b q : Quaternion ℝ) (t : ℝ)
    (ha : a.w*a.w + a.x*a.x + a.y*a.y + a.z*a.z = 1)
    (hb : b.w*b.w + b.x*b.x + b.y*b.y + b.z*b.z = 1)
    (hq : q = a * (1 - t) + (if a.dot b < 0 then b * (-1 : ℝ) else b) * t) :
    q ≠ ⟨0, 0, 0, 0⟩
    ∧ 0 < q.w*q.w + q.x*q.x + q.y*q.y + q.z*q.z
    ∧ q.length ≠ 0
    ∧ Quaternion.lerp a b t
        = ⟨q.w / q.length, q.x / q.length, q.y / q.length, q.z / q.length⟩
    ∧ (Quaternion.lerp a b t).length = 1 := by
  have hd := shortestArc_dot_nonneg a b
  have hc : (if a.dot b < 0 then b * (-1 : ℝ) else b).w * (if a.dot b < 0 then b * (-1 : ℝ) else b).w
      + (if a.dot b < 0 then b * (-1 : ℝ) else b).x * (if a.dot b < 0 then b * (-1 : ℝ) else b).x
      + (if a.dot b < 0 then b * (-1 : ℝ) else b).y * (if a.dot b < 0 then b * (-1 : ℝ) else b).y
      + (if a.dot b < 0 then b * (-1 : ℝ) else b).z * (if a.dot b < 0 then b * (-1 : ℝ) else b).z
      = 1 := by
    split_ifs
    · simp only [quaternion_smul_def]
      linear_combination hb
    · exact hb
  have hlerp : Quaternion.lerp a b t = q.normalize := by
    rw [hq]
    rfl
  generalize (if a.dot b < 0 then b * (-1 : ℝ) else b) = c at hd hc hq
  have hpos := quaternion_blend_normSq_pos a c t ha hc hd
  rw [← hq] at hpos
  have hl : q.length * q.length = q.w*q.w + q.x*q.x + q.y*q.y + q.z*q.z :=
    Real.mul_self_sqrt (le_of_lt hpos)
  have hl0 : q.length ≠ 0 := by
    intro h0
    rw [h0] at hl
    rw [← hl] at hpos
    norm_num at hpos
  have hn : q.normalize
      = ⟨q.w / q.length, q.x / q.length, q.y / q.length, q.z / q.length⟩ := by
    unfold Quaternion.normalize
    simp only [if_neg hl0]
  refine ⟨?_, hpos, hl0, hlerp.trans hn, ?_⟩
  · intro h0
    rw [h0] at hpos
    norm_num at hpos
  · rw [hlerp, hn]
    have e : q.w / q.length * (q.w / q.length) + q.x / q.length * (q.x / q.length)
        + q.y / q.length * (q.y / q.length) + q.z / q.length * (q.z / q.length) = 1 := by
      field_simp
      linear_combination -hl
    show Real.sqrt _ = 1
    rw [e, Real.sqrt_one]

/-! ## Matrices of transforms -/

section TransformMatrices

variable {α : Type} [LinearOrderedField α]

theorem transformToMatrix4x4_eq (t : Transform α) :
    transformToMatrix4x4 t
      = positionMatrix t.position * quaternionToMatrix4x4 t.rotation * scaleMatrix t.scale :=
  rfl

theorem matrix_mul_swap_assoc (a b c a2 x : Matrix4x4 α) (h : a * b = c * a2) :
    a * (b * x) = c * (a2 * x) := by
  rw [← matrix_mul_assoc, h, matrix_mul_assoc]

theorem scaleMatrix_mul (a b : Vec3 α) : scaleMatrix (a * b) = scaleMatrix b * scaleMatrix a := by
  simp only [scaleMatrix, vec3_mul_def, matrix_mul_def, Matrix4x4.mk.injEq]
  refine ⟨?_, ?_, ?_, ?_, ?_, ?_, ?_, ?_, ?_, ?_, ?_, ?_, ?_, ?_, ?_, ?_⟩ <;> ring

theorem positionMatrix_add (v p : Vec3 α) :
    positionMatrix (v + p) = positionMatrix p * positionMatrix v := by
  simp only [positionMatrix, vec3_add_def, matrix_mul_def, Matrix4x4.mk.injEq]
  refine ⟨?_, ?_, ?_, ?_, ?_, ?_, ?_, ?_, ?_, ?_, ?_, ?_, ?_, ?_, ?_, ?_⟩ <;> ring

theorem scaleMatrix_mul_positionMatrix (s u : Vec3 α) :
    scaleMatrix s * positionMatrix u = positionMatrix (u * s) * scaleMatrix s := by
  simp only [positionMatrix, scaleMatrix, vec3_mul_def, matrix_mul_def, Matrix4x4.mk.injEq]
  refine ⟨?_, ?_, ?_, ?_, ?_, ?_, ?_, ?_, ?_, ?_, ?_, ?_, ?_, ?_, ?_, ?_⟩ <;> ring

theorem rotation_mul_positionMatrix (q : Quaternion α) (u : Vec3 α) :
    quaternionToMatrix4x4 q * positionMatrix u
      = positionMatrix (quaternionToMatrix4x4 q * u : Vec4 α).xyz * quaternionToMatrix4x4 q := by
  simp only [positionMatrix, quaternionToMatrix4x4, matrix_mulVec3_def, matrix_mulVec4_def,
    Vec4.xyz, matrix_mul_def, Matrix4x4.mk.injEq]
  refine ⟨?_, ?_, ?_, ?_, ?_, ?_, ?_, ?_, ?_, ?_, ?_, ?_, ?_, ?_, ?_, ?_⟩ <;> ring

theorem uniformScale_mul_rotation (s : α) (q : Quaternion α) :
    scaleMatrix ⟨s, s, s⟩ * quaternionToMatrix4x4 q
      = quaternionToMatrix4x4 q * scaleMatrix ⟨s, s, s⟩ := by
  simp only [scaleMatrix, quaternionToMatrix4x4, matrix_mul_def, Matrix4x4.mk.injEq]
  refine ⟨?_, ?_, ?_, ?_, ?_, ?_, ?_, ?_, ?_, ?_, ?_, ?_, ?_, ?_, ?_, ?_⟩ <;> first | ring1 | trivial

/-- C27: for transforms `p` and `c` with rotations of squared length 1, where
the three components of `p.scale` are equal,
`transformToMatrix4x4(concatenateTransforms(p, c))
  = transformToMatrix4x4(p) * transformToMatrix4x4(c)`. -/
theorem concatenateTransforms_matrix (p c : Transform α)
    (hp : p.rotation.w*p.rotation.w + p.rotation.x*p.rotation.x + p.rotation.y*p.rotation.y
      + p.rotation.z*p.rotation.z = 1)
    (hc : c.rotation.w*c.rotation.w + c.rotation.x*c.rotation.x + c.rotation.y*c.rotation.y
      + c.rotation.z*c.rotation.z = 1)
    (hxy : p.scale.x = p.scale.y) (hyz : p.scale.y = p.scale.z) :
    transformToMatrix4x4 (concatenateTransforms p c)
      = transformToMatrix4x4 p * transformToMatrix4x4 c := by
  have hs : p.scale = ⟨p.scale.x, p.scale.x, p.scale.x⟩ := by
    cases hps : p.scale with
    | mk sx sy sz =>
      rw [hps] at hxy hyz
      simp only at hxy hyz
      rw [← hyz, ← hxy]
  rw [transformToMatrix4x4_eq, transformToMatrix4x4_eq, transformToMatrix4x4_eq]
  simp only [concatenateTransforms]
  rw [positionMatrix_add, scaleMatrix_mul, quaternionToMatrix4x4_mul c.rotation p.rotation hc hp]
  simp only [matrix_mul_assoc]
  congr 1
  rw [matrix_mul_swap_assoc _ _ _ _ _ (scaleMatrix_mul_positionMatrix p.scale c.position),
    matrix_mul_swap_assoc _ _ _ _ _
      (rotation_mul_positionMatrix p.rotation (c.position * p.scale))]
  congr 2
  rw [hs]
  rw [matrix_mul_swap_assoc _ _ _ _ _ (uniformScale_mul_rotation p.scale.x c.rotation)]

/-- C27 on `bindPose` scaled uniformly by 2 as the parent and `bindPose` as the
child. -/
theorem concatenateTransforms_matrix_witness :
    transformToMatrix4x4
        (concatenateTransforms ⟨⟨1, 2, 3⟩, ⟨3 / 5, 4 / 5, 0, 0⟩, ⟨2, 2, 2⟩⟩ (bindPose 0))
      = transformToMatrix4x4 ⟨⟨1, 2, 3⟩, ⟨3 / 5, 4 / 5, 0, 0⟩, ⟨2, 2, 2⟩⟩
          * transformToMatrix4x4 (bindPose 0) :=
  concatenateTransforms_matrix ⟨⟨1, 2, 3⟩, ⟨3 / 5, 4 / 5, 0, 0⟩, ⟨2, 2, 2⟩⟩ (bindPose 0)
    (by norm_num) (by norm_num [bindPose]) rfl rfl

end TransformMatrices

/-! ## Pose blender: difference and full samples -/

section BlenderClaims2

variable {α : Type} [LinearOrderedField α] [HasSqrtf α]

/-- C25: with `sqrtf 1 = 1`, for every joint `i < jointCount` at which the
reference rotation and the target rotation have squared length 1, the additive
blend, at weight 1, of the reference array and of the difference pose of
reference and target has the position and the scale of the target, and as
rotation the target rotation or its negation; it is the target rotation exactly
when the `w` of `target.rotation * inverse(reference.rotation)` is not
negative. -/
theorem difference_then_additive_blend (hs : sqrtf (1 : α) = 1)
    (out1 out2 reference target : Nat → Transform α) (jointCount i : Nat)
    (hi : i < jointCount)
    (href : (reference i).rotation.w * (reference i).rotation.w
      + (reference i).rotation.x * (reference i).rotation.x
      + (reference i).rotation.y * (reference i).rotation.y
      + (reference i).rotation.z * (reference i).rotation.z = 1)
    (htar : (target i).rotation.w * (target i).rotation.w
      + (target i).rotation.x * (target i).rotation.x
      + (target i).rotation.y * (target i).rotation.y
      + (target i).rotation.z * (target i).rotation.z = 1)
    (blended : Nat → Transform α)
    (hblended : blended = additiveBlendSkeletonPoses out2 (.other reference)
      (.other (buildDifferenceSkeletonPose out1 (.other reference) (.other target) jointCount))
      jointCount 1) :
    (blended i).position = (target i).position
    ∧ (blended i).scale = (target i).scale
    ∧ ((blended i).rotation = (target i).rotation
        ∨ (blended i).rotation = (target i).rotation * (-1 : α))
    ∧ ((blended i).rotation = (target i).rotation
        ↔ 0 ≤ ((target i).rotation * (reference i).rotation.inverse).w) := by
  subst hblended
  have hd : ((target i).rotation * (reference i).rotation.inverse).w
        * ((target i).rotation * (reference i).rotation.inverse).w
      + ((target i).rotation * (reference i).rotation.inverse).x
        * ((target i).rotation * (reference i).rotation.inverse).x
      + ((target i).rotation * (reference i).rotation.inverse).y
        * ((target i).rotation * (reference i).rotation.inverse).y
      + ((target i).rotation * (reference i).rotation.inverse).z
        * ((target i).rotation * (reference i).rotation.inverse).z = 1 := by
    rw [quaternion_normSq_mul, htar]
    simp only [Quaternion.inverse]
    linear_combination href
  have hdot : (Quaternion.identity : Quaternion α).dot
      ((target i).rotation * (reference i).rotation.inverse)
      = ((target i).rotation * (reference i).rotation.inverse).w := by
    simp [Quaternion.dot, Quaternion.identity]
  have hrot : (additiveBlendSkeletonPoses out2 (.other reference)
      (.other (buildDifferenceSkeletonPose out1 (.other reference) (.other target) jointCount))
      jointCount 1 i).rotation
      = if ((target i).rotation * (reference i).rotation.inverse).w < 0 then
          (target i).rotation * (-1 : α)
        else (target i).rotation := by
    rw [additiveBlendSkeletonPoses_apply, if_pos hi]
    simp only [PosePtr.read, buildDifferenceSkeletonPose_apply, if_pos hi]
    rw [quaternion_lerp_one hs _ _ hd, hdot]
    split_ifs
    · rw [quaternion_neg_mul, quaternion_mul_inverse_mul _ _ href]
    · rw [quaternion_mul_inverse_mul _ _ href]
  refine ⟨?_, ?_, ?_, ?_⟩
  · rw [additiveBlendSkeletonPoses_apply, if_pos hi]
    simp only [PosePtr.read, buildDifferenceSkeletonPose_apply, if_pos hi]
    exact vec3_add_sub_cancel _ _
  · rw [additiveBlendSkeletonPoses_apply, if_pos hi]
    simp only [PosePtr.read, buildDifferenceSkeletonPose_apply, if_pos hi]
    exact vec3_add_sub_cancel _ _
  · rw [hrot]
    split_ifs
    · exact Or.inr rfl
    · exact Or.inl rfl
  · rw [hrot]
    constructor
    · intro h
      by_contra hneg
      rw [if_pos (not_le.mp hneg)] at h
      exact quaternion_ne_neg _ htar h
    · intro h
      rw [if_neg (not_lt.mpr h)]

/-- C29: without a reference clip, for every joint `i < jointCount` of the clip
`blendSkeletonAnimation` leaves as scale the accumulator scale plus the sampled
scale times the weight, and as position the accumulator position plus the
sampled position times the weight; so a joint without scale keys, blended at
weight 1 onto an accumulator that holds `Transform::identity`, gets the scale
(2,2,2). -/
theorem blendSkeletonAnimation_full_sample (acc : Nat → Transform α)
    (animation : SkeletonAnimation α) (animationTime weight : α) (referencePoseTime : α)
    (i : Nat) (hi : i < animation.jointCount) :
    (blendSkeletonAnimation acc animation animationTime weight none referencePoseTime i).scale
        = (acc i).scale
          + (sampleSkeletonAnimation (fun _ => zeroTransform) animationTime animation i).scale
            * weight
    ∧ (blendSkeletonAnimation acc animation animationTime weight none
          referencePoseTime i).position
        = (acc i).position
          + (sampleSkeletonAnimation (fun _ => zeroTransform) animationTime animation i).position
            * weight
    ∧ ((animation.jointAnimations i).scaleKeyCount = 0 → acc i = Transform.identity →
        (blendSkeletonAnimation acc animation animationTime 1 none referencePoseTime i).scale
          = ⟨2, 2, 2⟩) := by
  have key : ∀ w : α, blendSkeletonAnimation acc animation animationTime w none
      referencePoseTime i
      = { position := (acc i).position
            + (sampleSkeletonAnimation (fun _ => zeroTransform) animationTime animation i).position
              * w
          rotation := Quaternion.lerp Quaternion.identity
              (sampleSkeletonAnimation (fun _ => zeroTransform) animationTime
                animation i).rotation w
            * (acc i).rotation
          scale := (acc i).scale
            + (sampleSkeletonAnimation (fun _ => zeroTransform) animationTime animation i).scale
              * w } := by
    intro w
    unfold blendSkeletonAnimation
    simp only [additiveBlendSkeletonPoses_apply, if_pos hi, PosePtr.read]
  refine ⟨?_, ?_, ?_⟩
  · rw [key]
  · rw [key]
  · intro h0 hacc
    rw [key, hacc, sampleSkeletonAnimation_apply, if_pos hi, sampleJointTransform_scale, h0]
    norm_num [Transform.identity, vec3_add_def, vec3_smul_def]

end BlenderClaims2

/-- C25 with `bindPose` as the reference and `minusPose` as the target. -/
theorem difference_then_additive_blend_witness :
    (additiveBlendSkeletonPoses (fun _ => Transform.identity) (.other bindPose)
      (.other (buildDifferenceSkeletonPose (fun _ => Transform.identity) (.other bindPose)
        (.other fun _ => minusPose) 2)) 2 1 1).position = minusPose.position :=
  (difference_then_additive_blend sqrtf_one_rat (fun _ => Transform.identity)
    (fun _ => Transform.identity) bindPose (fun _ => minusPose) 2 1 (by decide)
    (by norm_num [bindPose]) (by norm_num [minusPose]) _ rfl).1

/-- C28 on the real quaternions (1,0,0,0) and (0,1,0,0) at `t = 5/4`, outside
[0,1]: the blend is (-1/4, 5/4, 0, 0), of squared length 13/8, and the lerp has
length 1. -/
theorem quaternion_lerp_unit_length_witness :
    (Quaternion.lerp (⟨1, 0, 0, 0⟩ : Quaternion ℝ) ⟨0, 1, 0, 0⟩ (5 / 4)).length = 1 :=
  (quaternion_lerp_unit_length (⟨1, 0, 0, 0⟩ : Quaternion ℝ) ⟨0, 1, 0, 0⟩
    ⟨-1 / 4, 5 / 4, 0, 0⟩ (5 / 4) (by norm_num) (by norm_num)
    (by norm_num [Quaternion.dot, quaternion_add_def, quaternion_smul_def])).2.2.2.2

/-- C29 on joint 2 of `demoClip`, which has no scale key. -/
theorem blendSkeletonAnimation_full_sample_witness :
    (blendSkeletonAnimation (fun _ => Transform.identity) demoClip 3 1 none 0 2).scale
      = ⟨2, 2, 2⟩ :=
  (blendSkeletonAnimation_full_sample (fun _ => Transform.identity) demoClip 3 1 0 2
    (by decide)).2.2 rfl rfl


/-! ## The matrix inverse -/

section MatrixInverse

variable {α : Type} [LinearOrderedField α]

/-- For a matrix whose `determinant` is 1, where the missing division of the
cells off the diagonal makes no difference, `inverse` is a two-sided inverse. -/
theorem matrix_inverse_mul_of_determinant_one (m : Matrix4x4 α) (h : m.determinant = 1) :
    m.inverse * m = Matrix4x4.identity ∧ m * m.inverse = Matrix4x4.identity := by
  cases m with
  | mk c00 c01 c02 c03 c10 c11 c12 c13 c20 c21 c22 c23 c30 c31 c32 c33 =>
  unfold Matrix4x4.inverse
  simp only [h]
  simp only [Matrix4x4.determinant] at h
  simp only [matrix_mul_def, Matrix4x4.identity, Matrix4x4.mk.injEq, div_one, mul_one]
  constructor
  · refine ⟨?_, ?_, ?_, ?_, ?_, ?_, ?_, ?_, ?_, ?_, ?_, ?_, ?_, ?_, ?_, ?_⟩
    · linear_combination h
    · ring1
    · ring1
    · ring1
    · ring1
    · linear_combination h
    · ring1
    · ring1
    · ring1
    · ring1
    · linear_combination h
    · ring1
    · ring1
    · ring1
    · ring1
    · linear_combination h
  · refine ⟨?_, ?_, ?_, ?_, ?_, ?_, ?_, ?_, ?_, ?_, ?_, ?_, ?_, ?_, ?_, ?_⟩
    · linear_combination h
    · ring1
    · ring1
    · ring1
    · ring1
    · linear_combination h
    · ring1
    · ring1
    · ring1
    · ring1
    · linear_combination h
    · ring1
    · ring1
    · ring1
    · ring1
    · linear_combination h

end MatrixInverse

/-- C21, evaluated on `scaleTranslate` (scale by 2, translate by (1,0,0),
determinant 8): `inverse` divides the diagonal by the determinant and leaves the
cell `[0][3]` at -4 instead of -1/2, so neither product with the matrix is
`Matrix4x4::identity`. -/
theorem inverse_scaleTranslate_not_inverse :
    scaleTranslate.determinant = 8
    ∧ Matrix4x4.inverse scaleTranslate
        = ⟨1 / 2, 0, 0, -4,
           0, 1 / 2, 0, 0,
           0, 0, 1 / 2, 0,
           0, 0, 0, 1⟩
    ∧ (Matrix4x4.inverse scaleTranslate * scaleTranslate).c03 = -7 / 2
    ∧ Matrix4x4.inverse scaleTranslate * scaleTranslate ≠ Matrix4x4.identity
    ∧ scaleTranslate * Matrix4x4.inverse scaleTranslate ≠ Matrix4x4.identity := by
  have hd : scaleTranslate.determinant = 8 := by
    norm_num [Matrix4x4.determinant, scaleTranslate]
  have hi : Matrix4x4.inverse scaleTranslate
        = ⟨1 / 2, 0, 0, -4,
           0, 1 / 2, 0, 0,
           0, 0, 1 / 2, 0,
           0, 0, 0, 1⟩ := by
    unfold Matrix4x4.inverse
    rw [hd]
    norm_num [scaleTranslate]
  refine ⟨hd, hi, ?_, ?_, ?_⟩
  · rw [hi]
    norm_num [matrix_mul_def, scaleTranslate]
  · rw [hi]
    intro h
    have := congrArg Matrix4x4.c03 h
    norm_num [matrix_mul_def, scaleTranslate, Matrix4x4.identity] at this
  · rw [hi]
    intro h
    have := congrArg Matrix4x4.c03 h
    norm_num [matrix_mul_def, scaleTranslate, Matrix4x4.identity] at this

/-! ## Binary assets: the reader and the skeleton loader -/

theorem binaryReader_fits_iff (b : BinaryReader) (n : Nat)
    (h : b.readPosition + n < SIZE_SIZE) :
    b.fits n = true ↔ b.readPosition + n ≤ b.byteCount := by
  unfold BinaryReader.fits
  rw [Nat.mod_eq_of_lt h]
  simp

theorem binaryReader_advance_readPosition (b : BinaryReader) (n : Nat)
    (h : b.readPosition + n < SIZE_SIZE) :
    (b.advance n).readPosition = b.readPosition + n := by
  unfold BinaryReader.advance
  simp only
  exact Nat.mod_eq_of_lt h

theorem binaryReader_advance_bytes (b : BinaryReader) (n : Nat) :
    (b.advance n).bytes = b.bytes ∧ (b.advance n).byteCount = b.byteCount := ⟨rfl, rfl⟩

/-- The reader after a read that fits. -/
theorem binaryReader_advance_of_fits (b : BinaryReader) (n : Nat)
    (h : b.readPosition + n ≤ b.byteCount) (hs : b.byteCount < SIZE_SIZE) :
    b.fits n = true
    ∧ b.advance n = { b with readPosition := b.readPosition + n } := by
  have hlt : b.readPosition + n < SIZE_SIZE := lt_of_le_of_lt h hs
  have hf := (binaryReader_fits_iff b n hlt).mpr h
  refine ⟨hf, ?_⟩
  unfold BinaryReader.advance
  rw [hf, Nat.mod_eq_of_lt hlt]
  simp

/-- After a call of `readInto`, a reader that never skipped a copy is inside
the buffer. -/
theorem binaryReader_sound_advance (b : BinaryReader) (n : Nat) :
    (b.advance n).skippedReads = 0 → (b.advance n).readPosition ≤ (b.advance n).byteCount := by
  unfold BinaryReader.advance
  simp only
  by_cases hf : b.fits n = true
  · rw [if_pos hf]
    intro _
    unfold BinaryReader.fits at hf
    simpa using hf
  · rw [if_neg hf]
    intro h0
    omega

theorem binaryReader_skipped_advance (b : BinaryReader) (n : Nat) :
    b.skippedReads ≤ (b.advance n).skippedReads := by
  unfold BinaryReader.advance
  simp only
  split_ifs <;> omega


/-! skeleton loop -/

theorem createSkeletonFromGOBSKELLoop_some (junk : Nat → Skeleton.Joint Word) (jointCount : Nat) :
    ∀ (fuel i : Nat) (b : BinaryReader) (joints out : Nat → Skeleton.Joint Word),
      createSkeletonFromGOBSKELLoop junk jointCount fuel i b joints = some out →
      (∀ k, i ≤ k → k < i + fuel → (out k).parentIndex < jointCount)
      ∧ ∀ k, k < i → out k = joints k
  | 0, i, b, joints, out, h => by
    simp only [createSkeletonFromGOBSKELLoop, Option.some.injEq] at h
    subst h
    exact ⟨fun k h1 h2 => by omega, fun _ _ => rfl⟩
  | fuel + 1, i, b, joints, out, h => by
    rw [createSkeletonFromGOBSKELLoop] at h
    simp only [] at h
    split_ifs at h with hp
    have ih := createSkeletonFromGOBSKELLoop_some junk jointCount fuel (i + 1) _ _ out h
    constructor
    · intro k h1 h2
      rcases Nat.eq_or_lt_of_le h1 with e | e
      · subst e
        rw [ih.2 i (by omega), Function.update_same]
        exact hp
      · exact ih.1 k (by omega) (by omega)
    · intro k hk
      rw [ih.2 k (by omega), Function.update_noteq (by omega)]

/-- The reader after the two reads of one joint record. -/
theorem binaryReader_after_joint (b : BinaryReader) (d1 : Nat) (d2 : Matrix4x4 Word)
    (h : b.readPosition + 68 < SIZE_SIZE) :
    (((b.readUInt d1).2.readMatrix4x4 d2).2).readPosition = b.readPosition + 68
    ∧ (((b.readUInt d1).2.readMatrix4x4 d2).2).bytes = b.bytes
    ∧ (((b.readUInt d1).2.readMatrix4x4 d2).2).byteCount = b.byteCount := by
  refine ⟨?_, rfl, rfl⟩
  show ((b.advance 4).advance 64).readPosition = _
  have h1 : (b.advance 4).readPosition = b.readPosition + 4 :=
    binaryReader_advance_readPosition b 4 (by omega)
  have h2 : ((b.advance 4).advance 64).readPosition = (b.advance 4).readPosition + 64 :=
    binaryReader_advance_readPosition _ 64 (by rw [h1]; omega)
  rw [h2, h1]

/-- On a buffer that holds all the records, the parent index of joint `i + k` is
the first word of its record. -/
theorem createSkeletonFromGOBSKELLoop_complete (junk : Nat → Skeleton.Joint Word)
    (jointCount : Nat) :
    ∀ (fuel i : Nat) (b : BinaryReader) (joints out : Nat → Skeleton.Joint Word),
      createSkeletonFromGOBSKELLoop junk jointCount fuel i b joints = some out →
      b.readPosition + 68 * fuel ≤ b.byteCount → b.byteCount < SIZE_SIZE →
      ∀ k, k < fuel →
        (out (i + k)).parentIndex = b.bytes ((b.readPosition + 68 * k) / 4) % UINT_SIZE
  | 0, i, b, joints, out, h, hc, hs, k, hk => by omega
  | fuel + 1, i, b, joints, out, h, hc, hs, k, hk => by
    rw [createSkeletonFromGOBSKELLoop] at h
    simp only [] at h
    split_ifs at h with hp
    have hpos := binaryReader_after_joint b (junk i).parentIndex
      (junk i).modelSpaceBindPoseInverse (by omega)
    rcases Nat.eq_zero_or_pos k with e | e
    · subst e
      have h2 := (createSkeletonFromGOBSKELLoop_some junk jointCount fuel (i + 1) _ _ out h).2 i
        (by omega)
      rw [Nat.add_zero, h2, Function.update_same]
      show (b.readUInt _).1 = _
      unfold BinaryReader.readUInt
      simp only [(binaryReader_advance_of_fits b 4 (by omega) hs).1, if_true]
      rfl
    · have ih := createSkeletonFromGOBSKELLoop_complete junk jointCount fuel (i + 1) _ _ out h
        (by rw [hpos.1, hpos.2.2]; omega) (by rw [hpos.2.2]; exact hs) (k - 1) (by omega)
      have e2 : i + 1 + (k - 1) = i + k := by omega
      have e3 : b.readPosition + 68 + 68 * (k - 1) = b.readPosition + 68 * k := by omega
      rw [e2, hpos.1, hpos.2.1, e3] at ih
      exact ih

/-- The two reads of the header, on a buffer of at least 8 bytes. -/
theorem createSkeletonFromGOBSKEL_header (out_skeleton : Skeleton Word)
    (bytes : Nat → Word) (byteCount : Nat)
    (h8 : 8 ≤ byteCount) :
    ((BinaryReader.create bytes byteCount).readUInt out_skeleton.jointCount).1
        = bytes 0 % UINT_SIZE
    ∧ ∀ d, ((((BinaryReader.create bytes byteCount).readUInt out_skeleton.jointCount).2.readUInt
          d).2).readPosition = 8
      ∧ ((((BinaryReader.create bytes byteCount).readUInt out_skeleton.jointCount).2.readUInt
          d).2).bytes = bytes
      ∧ ((((BinaryReader.create bytes byteCount).readUInt out_skeleton.jointCount).2.readUInt
          d).2).byteCount = byteCount := by
  have hf : (BinaryReader.create bytes byteCount).fits 4 = true := by
    unfold BinaryReader.fits BinaryReader.create SIZE_SIZE
    simp only [decide_eq_true_eq]
    omega
  constructor
  · unfold BinaryReader.readUInt
    simp only [hf, if_true]
    simp [BinaryReader.word, BinaryReader.create]
  · intro d
    refine ⟨?_, rfl, rfl⟩
    show (((BinaryReader.create bytes byteCount).advance 4).advance 4).readPosition = 8
    unfold BinaryReader.advance BinaryReader.create SIZE_SIZE
    simp

/-- C22 as stated fails: `unorderedSkeletonFile`, a complete buffer of 144 bytes
for two joints whose parent indices are both 1, passes the assertion: the
skeleton is built with `parentIndex[0] = 1` and `parentIndex[1] = 1`. -/
theorem createSkeletonFromGOBSKEL_accepts_unordered :
    (createSkeletonFromGOBSKEL ⟨zeroJoints, 0, 0⟩ zeroJoints unorderedSkeletonFile 144).map
        (fun sk => (sk.jointCount, (sk.joints 0).parentIndex, (sk.joints 1).parentIndex))
      = some (2, 1, 1) := by
  decide

/-- C22, amended: every skeleton that `createSkeletonFromGOBSKEL` builds without
tripping its assertion has `parentIndex[i] < jointCount` for every
`i < jointCount`; and a complete buffer (at least `8 + 68 * jointCount` bytes)
in which the parent index of some joint `k < jointCount` is not less than
`jointCount` is rejected by the assertion. -/
theorem createSkeletonFromGOBSKEL_assertion (out_skeleton : Skeleton Word)
    (junk : Nat → Skeleton.Joint Word) (bytes : Nat → Word) (byteCount : Nat) :
    (∀ skeleton, createSkeletonFromGOBSKEL out_skeleton junk bytes byteCount = some skeleton →
      ∀ i, i < skeleton.jointCount →
        (skeleton.joints i).parentIndex < skeleton.jointCount)
    ∧ (8 + 68 * (bytes 0 % UINT_SIZE) ≤ byteCount → byteCount < SIZE_SIZE →
        (∃ k : Nat, k < bytes 0 % UINT_SIZE ∧ bytes 0 % UINT_SIZE ≤ bytes (2 + 17 * k) % UINT_SIZE) →
        createSkeletonFromGOBSKEL out_skeleton junk bytes byteCount = none) := by
  constructor
  · intro skeleton h
    unfold createSkeletonFromGOBSKEL at h
    simp only [] at h
    split at h
    · exact absurd h (by simp)
    · rename_i joints hloop
      simp only [Option.some.injEq] at h
      subst h
      intro i hi
      exact (createSkeletonFromGOBSKELLoop_some junk _ _ 0 _ _ joints hloop).1 i (by omega)
        (by simpa using hi)
  · intro hc hs ⟨k, hk, hbad⟩
    have hh := createSkeletonFromGOBSKEL_header out_skeleton bytes byteCount
      (le_trans (Nat.le_add_right 8 _) hc)
    unfold createSkeletonFromGOBSKEL
    simp only []
    split
    · rfl
    · rename_i joints hloop
      exfalso
      rw [hh.1] at hloop
      have hr := hh.2 out_skeleton.rootJointIndex
      have hA := (createSkeletonFromGOBSKELLoop_some junk _ _ 0 _ _ joints hloop).1 k
        (Nat.zero_le k) (by rw [Nat.zero_add]; exact hk)
      have hB := createSkeletonFromGOBSKELLoop_complete junk _ _ 0 _ _ joints hloop
        (by rw [hr.1, hr.2.2]; exact hc) (by rw [hr.2.2]; exact hs) k hk
      rw [hr.1, hr.2.1] at hB
      have e : (8 + 68 * k) / 4 = 2 + 17 * k := by omega
      rw [Nat.zero_add, e] at hB
      rw [hB] at hA
      exact absurd hA (not_lt.mpr hbad)

theorem binaryReader_advance_byteCount (b : BinaryReader) (n : Nat) :
    (b.advance n).byteCount = b.byteCount := rfl

theorem binaryReader_readUInt_snd (b : BinaryReader) (d : Nat) :
    (b.readUInt d).2 = b.advance 4 := rfl

theorem binaryReader_readFloat_snd (b : BinaryReader) (d : Word) :
    (b.readFloat d).2 = b.advance 4 := rfl

theorem binaryReader_readFloats_snd (b : BinaryReader) (d : Nat → Word) (count : Nat) :
    (b.readFloats d count).2 = b.advance (count * 4) := rfl

theorem binaryReader_readVec3s_snd (b : BinaryReader) (d : Nat → Vec3 Word) (count : Nat) :
    (b.readVec3s d count).2 = b.advance (count * 12) := rfl

theorem binaryReader_readQuaternions_snd (b : BinaryReader) (d : Nat → Quaternion Word)
    (count : Nat) : (b.readQuaternions d count).2 = b.advance (count * 16) := rfl

/-- One joint of a clip leaves the byte count alone and keeps the reader sound. -/
theorem readJointAnimation_reader (junk : SkeletonAnimation.JointAnimation Word)
    (b : BinaryReader) :
    (readJointAnimation junk b).2.byteCount = b.byteCount
    ∧ ((readJointAnimation junk b).2.skippedReads = 0 →
        (readJointAnimation junk b).2.readPosition ≤ b.byteCount) := by
  unfold readJointAnimation
  simp only [binaryReader_readUInt_snd, binaryReader_readFloats_snd, binaryReader_readVec3s_snd,
    binaryReader_readQuaternions_snd]
  constructor
  · simp only [binaryReader_advance_byteCount]
  · intro h
    have := binaryReader_sound_advance _ _ h
    simpa only [binaryReader_advance_byteCount] using this

/-- The loop of the clip loader leaves the byte count alone, and a reader that
never skipped a copy ends inside the buffer. -/
theorem createSkeletonAnimationFromGOBSKELANIMLoop_reader
    (junk : Nat → SkeletonAnimation.JointAnimation Word) :
    ∀ (fuel i : Nat) (b : BinaryReader)
      (jointAnimations : Nat → SkeletonAnimation.JointAnimation Word),
      (createSkeletonAnimationFromGOBSKELANIMLoop junk fuel i b jointAnimations).2.byteCount
          = b.byteCount
      ∧ ((b.skippedReads = 0 → b.readPosition ≤ b.byteCount) →
          (createSkeletonAnimationFromGOBSKELANIMLoop junk fuel i b jointAnimations).2.skippedReads
              = 0 →
          (createSkeletonAnimationFromGOBSKELANIMLoop junk fuel i b jointAnimations).2.readPosition
            ≤ b.byteCount)
  | 0, i, b, ja => ⟨rfl, fun h => h⟩
  | fuel + 1, i, b, ja => by
    rw [createSkeletonAnimationFromGOBSKELANIMLoop]
    have ih := createSkeletonAnimationFromGOBSKELANIMLoop_reader junk fuel (i + 1)
      (readJointAnimation (junk i) b).2 (Function.update ja i (readJointAnimation (junk i) b).1)
    have hb := readJointAnimation_reader (junk i) b
    rw [hb.1] at ih
    exact ⟨ih.1, fun _ => ih.2 hb.2⟩

/-- C22 on a complete buffer of 76 bytes for one joint whose parent index is 7:
the assertion rejects it. -/
theorem createSkeletonFromGOBSKEL_assertion_witness :
    8 + 68 * (badParentFile 0 % UINT_SIZE) ≤ 76
    ∧ badParentFile 0 % UINT_SIZE ≤ badParentFile (2 + 17 * 0) % UINT_SIZE
    ∧ createSkeletonFromGOBSKEL ⟨zeroJoints, 0, 0⟩ zeroJoints badParentFile 76 = none :=
  ⟨by decide, by decide,
    (createSkeletonFromGOBSKEL_assertion ⟨zeroJoints, 0, 0⟩ zeroJoints badParentFile 76).2
      (by decide) (by decide) ⟨0, by decide, by decide⟩⟩

theorem atWords_advance (b : BinaryReader) (p : Nat) (L1 L2 : List Word) (n : Nat)
    (h : b.AtWords p (L1 ++ L2)) (hn : n = 4 * L1.length) :
    b.fits n = true
    ∧ (b.advance n).AtWords (p + L1.length) L2
    ∧ (b.advance n).skippedReads = b.skippedReads
    ∧ ∀ k, k < L1.length → b.word k = L1.getD k 0 := by
  obtain ⟨h1, h2, h3, h4⟩ := h
  rw [List.length_append] at h2 h3
  have hlt : b.readPosition + n < SIZE_SIZE := by omega
  have hf : b.fits n = true := (binaryReader_fits_iff b n hlt).mpr (by omega)
  refine ⟨hf, ⟨?_, ?_, ?_, ?_⟩, ?_, ?_⟩
  · rw [binaryReader_advance_readPosition b n hlt]
    omega
  · intro k hk
    rw [(binaryReader_advance_bytes b n).1]
    have := h2 (L1.length + k) (by omega)
    rw [List.getD_append_right _ _ _ _ (by omega)] at this
    rw [Nat.add_assoc, this]
    congr 1
    omega
  · rw [binaryReader_advance_byteCount]
    omega
  · rw [binaryReader_advance_byteCount]
    exact h4
  · unfold BinaryReader.advance
    simp only [hf, if_true]
  · intro k hk
    unfold BinaryReader.word
    have := h2 k (by omega)
    rw [List.getD_append _ _ _ _ hk] at this
    rw [← this, h1]
    congr 1
    omega

theorem vec3_words_length (vs : List (Vec3 Word)) :
    (vs.flatMap fun v => [v.x, v.y, v.z]).length = 3 * vs.length := by
  induction vs with
  | nil => rfl
  | cons v vs ih =>
    simp only [List.flatMap_cons, List.length_append, List.length_cons, List.length_nil, ih]
    omega

theorem quaternion_words_length (qs : List (Quaternion Word)) :
    (qs.flatMap fun q => [q.w, q.x, q.y, q.z]).length = 4 * qs.length := by
  induction qs with
  | nil => rfl
  | cons q qs ih =>
    simp only [List.flatMap_cons, List.length_append, List.length_cons, List.length_nil, ih]
    omega

theorem vec3_words_getD (vs : List (Vec3 Word)) :
    ∀ k, k < vs.length →
      vs[k]? = some ⟨(vs.flatMap fun v => [v.x, v.y, v.z]).getD (3 * k) 0,
        (vs.flatMap fun v => [v.x, v.y, v.z]).getD (3 * k + 1) 0,
        (vs.flatMap fun v => [v.x, v.y, v.z]).getD (3 * k + 2) 0⟩ := by
  induction vs with
  | nil => intro k hk; simp at hk
  | cons v vs ih =>
    intro k hk
    cases k with
    | zero => simp [List.flatMap_cons]
    | succ k =>
      have := ih k (by simpa using hk)
      rw [List.getElem?_cons_succ, this]
      have e : 3 * (k + 1) = 3 * k + 3 := by ring
      simp only [List.flatMap_cons, e, List.cons_append, List.nil_append, List.getD_cons_succ]

theorem quaternion_words_getD (qs : List (Quaternion Word)) :
    ∀ k, k < qs.length →
      qs[k]? = some ⟨(qs.flatMap fun q => [q.w, q.x, q.y, q.z]).getD (4 * k) 0,
        (qs.flatMap fun q => [q.w, q.x, q.y, q.z]).getD (4 * k + 1) 0,
        (qs.flatMap fun q => [q.w, q.x, q.y, q.z]).getD (4 * k + 2) 0,
        (qs.flatMap fun q => [q.w, q.x, q.y, q.z]).getD (4 * k + 3) 0⟩ := by
  induction qs with
  | nil => intro k hk; simp at hk
  | cons q qs ih =>
    intro k hk
    cases k with
    | zero => simp [List.flatMap_cons]
    | succ k =>
      have := ih k (by simpa using hk)
      rw [List.getElem?_cons_succ, this]
      have e : 4 * (k + 1) = 4 * k + 4 := by ring
      simp only [List.flatMap_cons, e, List.cons_append, List.nil_append, List.getD_cons_succ]

theorem readUInt_atWords (b : BinaryReader) (p : Nat) (c : Nat) (L : List Word) (d : Nat)
    (h : b.AtWords p (c :: L)) (hc : c < UINT_SIZE) :
    (b.readUInt d).1 = c
    ∧ (b.readUInt d).2.AtWords (p + 1) L
    ∧ (b.readUInt d).2.skippedReads = b.skippedReads := by
  have := atWords_advance b p [c] L 4 h rfl
  refine ⟨?_, this.2.1, this.2.2.1⟩
  unfold BinaryReader.readUInt
  simp only [this.1, if_true]
  rw [this.2.2.2 0 (by simp)]
  exact Nat.mod_eq_of_lt hc

theorem readFloat_atWords (b : BinaryReader) (p : Nat) (c : Word) (L : List Word) (d : Word)
    (h : b.AtWords p (c :: L)) :
    (b.readFloat d).1 = c
    ∧ (b.readFloat d).2.AtWords (p + 1) L
    ∧ (b.readFloat d).2.skippedReads = b.skippedReads := by
  have := atWords_advance b p [c] L 4 h rfl
  refine ⟨?_, this.2.1, this.2.2.1⟩
  unfold BinaryReader.readFloat
  simp only [this.1, if_true]
  exact this.2.2.2 0 (by simp)

theorem readFloats_atWords (b : BinaryReader) (p : Nat) (ts L : List Word) (d : Nat → Word)
    (count : Nat) (h : b.AtWords p (ts ++ L)) (hc : count = ts.length) :
    (∀ k, k < ts.length → ts[k]? = some ((b.readFloats d count).1 k))
    ∧ (b.readFloats d count).2.AtWords (p + ts.length) L
    ∧ (b.readFloats d count).2.skippedReads = b.skippedReads := by
  have := atWords_advance b p ts L (count * 4) h (by omega)
  refine ⟨?_, this.2.1, this.2.2.1⟩
  intro k hk
  unfold BinaryReader.readFloats
  have hk2 : k < count := by omega
  simp only [this.1, if_true, hk2]
  rw [this.2.2.2 k hk, List.getD_eq_getElem?_getD, List.getElem?_eq_getElem hk]
  rfl

theorem readVec3s_atWords (b : BinaryReader) (p : Nat) (vs : List (Vec3 Word)) (L : List Word)
    (d : Nat → Vec3 Word) (count : Nat)
    (h : b.AtWords p ((vs.flatMap fun v => [v.x, v.y, v.z]) ++ L)) (hc : count = vs.length) :
    (∀ k, k < vs.length → vs[k]? = some ((b.readVec3s d count).1 k))
    ∧ (b.readVec3s d count).2.AtWords (p + 3 * vs.length) L
    ∧ (b.readVec3s d count).2.skippedReads = b.skippedReads := by
  have hl := vec3_words_length vs
  have := atWords_advance b p _ L (count * 12) h (by omega)
  rw [hl] at this
  refine ⟨?_, this.2.1, this.2.2.1⟩
  intro k hk
  unfold BinaryReader.readVec3s
  have hk2 : k < count := by omega
  simp only [this.1, if_true, hk2]
  rw [this.2.2.2 (3 * k) (by omega), this.2.2.2 (3 * k + 1) (by omega),
    this.2.2.2 (3 * k + 2) (by omega)]
  exact vec3_words_getD vs k hk

theorem readQuaternions_atWords (b : BinaryReader) (p : Nat) (qs : List (Quaternion Word))
    (L : List Word) (d : Nat → Quaternion Word) (count : Nat)
    (h : b.AtWords p ((qs.flatMap fun q => [q.w, q.x, q.y, q.z]) ++ L))
    (hc : count = qs.length) :
    (∀ k, k < qs.length → qs[k]? = some ((b.readQuaternions d count).1 k))
    ∧ (b.readQuaternions d count).2.AtWords (p + 4 * qs.length) L
    ∧ (b.readQuaternions d count).2.skippedReads = b.skippedReads := by
  have hl := quaternion_words_length qs
  have := atWords_advance b p _ L (count * 16) h (by omega)
  rw [hl] at this
  refine ⟨?_, this.2.1, this.2.2.1⟩
  intro k hk
  unfold BinaryReader.readQuaternions
  have hk2 : k < count := by omega
  simp only [this.1, if_true, hk2]
  rw [this.2.2.2 (4 * k) (by omega), this.2.2.2 (4 * k + 1) (by omega),
    this.2.2.2 (4 * k + 2) (by omega), this.2.2.2 (4 * k + 3) (by omega)]
  exact quaternion_words_getD qs k hk

theorem writeVec3s_channel (ts : List Word) (vs : List (Vec3 Word))
    (hl : ts.length = vs.length) (hc : vs.length < UINT_SIZE) :
    (if vs.length % UINT_SIZE > 0 then
        gobmesh.writeFloats ts (vs.length % UINT_SIZE)
          ++ gobmesh.writeVec3s vs (vs.length % UINT_SIZE)
      else [])
      = ts ++ vs.flatMap fun v => [v.x, v.y, v.z] := by
  rw [Nat.mod_eq_of_lt hc]
  unfold gobmesh.writeFloats gobmesh.writeVec3s
  rw [← hl, List.take_length, hl, List.take_length]
  split_ifs with h
  · rfl
  · have hv : vs = [] := List.length_eq_zero.mp (by omega)
    have ht : ts = [] := List.length_eq_zero.mp (by omega)
    rw [hv, ht]
    rfl

theorem writeQuaternions_channel (ts : List Word) (qs : List (Quaternion Word))
    (hl : ts.length = qs.length) (hc : qs.length < UINT_SIZE) :
    (if qs.length % UINT_SIZE > 0 then
        gobmesh.writeFloats ts (qs.length % UINT_SIZE)
          ++ gobmesh.writeQuaternions qs (qs.length % UINT_SIZE)
      else [])
      = ts ++ qs.flatMap fun q => [q.w, q.x, q.y, q.z] := by
  rw [Nat.mod_eq_of_lt hc]
  unfold gobmesh.writeFloats gobmesh.writeQuaternions
  rw [← hl, List.take_length, hl, List.take_length]
  split_ifs with h
  · rfl
  · have hv : qs = [] := List.length_eq_zero.mp (by omega)
    have ht : ts = [] := List.length_eq_zero.mp (by omega)
    rw [hv, ht]
    rfl

/-- The words written for a joint whose channels are well formed. -/
theorem outputJoint_eq (joint : gobmesh.JointAnimation) (h : joint.WellFormed) (L : List Word) :
    gobmesh.outputJoint joint ++ L
      = joint.scaleKeys.length :: (joint.scaleKeyTimes
        ++ ((joint.scaleKeys.flatMap fun v => [v.x, v.y, v.z])
        ++ (joint.rotationKeys.length :: (joint.roateKeyTimes
        ++ ((joint.rotationKeys.flatMap fun q => [q.w, q.x, q.y, q.z])
        ++ (joint.translationKeys.length :: (joint.translateKeyTimes
        ++ ((joint.translationKeys.flatMap fun v => [v.x, v.y, v.z]) ++ L)))))))) := by
  obtain ⟨h1, h2, h3, h4, h5, h6⟩ := h
  unfold gobmesh.outputJoint
  simp only []
  rw [writeVec3s_channel _ _ h1 h4, writeQuaternions_channel _ _ h2 h5,
    writeVec3s_channel _ _ h3 h6, Nat.mod_eq_of_lt h4, Nat.mod_eq_of_lt h5,
    Nat.mod_eq_of_lt h6]
  simp only [List.append_assoc, List.cons_append, List.nil_append]

theorem outputJoint_length (joint : gobmesh.JointAnimation) (h : joint.WellFormed) :
    (gobmesh.outputJoint joint).length
      = 3 + 4 * joint.scaleKeys.length + 5 * joint.rotationKeys.length
        + 4 * joint.translationKeys.length := by
  have e := congrArg List.length (outputJoint_eq joint h [])
  rw [List.append_nil] at e
  rw [e]
  obtain ⟨h1, h2, h3, -, -, -⟩ := h
  simp only [List.length_cons, List.length_append, vec3_words_length, quaternion_words_length,
    List.length_nil, h1, h2, h3]
  omega

/-- One joint of a clip, read from the words written for it. -/
theorem readJointAnimation_atWords (junk : SkeletonAnimation.JointAnimation Word)
    (b : BinaryReader) (p : Nat) (joint : gobmesh.JointAnimation) (L : List Word)
    (hw : joint.WellFormed) (h : b.AtWords p (gobmesh.outputJoint joint ++ L)) :
    joint.LoadedAs (readJointAnimation junk b).1
    ∧ (readJointAnimation junk b).2.AtWords (p + (gobmesh.outputJoint joint).length) L
    ∧ (readJointAnimation junk b).2.skippedReads = b.skippedReads := by
  rw [outputJoint_eq joint hw L] at h
  rw [outputJoint_length joint hw]
  obtain ⟨h1, h2, h3, h4, h5, h6⟩ := hw
  have c1 := readUInt_atWords b p _ _ junk.scaleKeyCount h h4
  have t1 := readFloats_atWords _ _ _ _ junk.scaleKeyTimes
    (b.readUInt junk.scaleKeyCount).1 c1.2.1 (by rw [c1.1, h1])
  have v1 := readVec3s_atWords _ _ _ _ junk.scaleKeyValues
    (b.readUInt junk.scaleKeyCount).1 t1.2.1 (by rw [c1.1])
  have c2 := readUInt_atWords _ _ _ _ junk.rotateKeyCount v1.2.1 h5
  have t2 := readFloats_atWords _ _ _ _ junk.rotateKeyTimes _ c2.2.1 (c2.1.trans h2.symm)
  have v2 := readQuaternions_atWords _ _ _ _ junk.rotateKeyValues _ t2.2.1 c2.1
  have c3 := readUInt_atWords _ _ _ _ junk.translateKeyCount v2.2.1 h6
  have t3 := readFloats_atWords _ _ _ _ junk.translateKeyTimes _ c3.2.1 (c3.1.trans h3.symm)
  have v3 := readVec3s_atWords _ _ _ _ junk.translateKeyValues _ t3.2.1 c3.1
  unfold gobmesh.JointAnimation.LoadedAs readJointAnimation
  simp only []
  refine ⟨⟨c1.1, fun k hk => ⟨t1.1 k (by omega), v1.1 k hk⟩,
      c2.1, fun k hk => ⟨t2.1 k (by omega), v2.1 k hk⟩,
      c3.1, fun k hk => ⟨t3.1 k (by omega), v3.1 k hk⟩⟩, ?_, ?_⟩
  · have e : p + (3 + 4 * joint.scaleKeys.length + 5 * joint.rotationKeys.length
          + 4 * joint.translationKeys.length)
        = p + 1 + joint.scaleKeyTimes.length + 3 * joint.scaleKeys.length + 1
          + joint.roateKeyTimes.length + 4 * joint.rotationKeys.length + 1
          + joint.translateKeyTimes.length + 3 * joint.translationKeys.length := by
      omega
    rw [e]
    exact v3.2.1
  · exact v3.2.2.trans (t3.2.2.trans (c3.2.2.trans (v2.2.2.trans (t2.2.2.trans
      (c2.2.2.trans (v1.2.2.trans (t1.2.2.trans c1.2.2)))))))

/-- The loop of the clip loader, on the words written for a list of joints. -/
theorem createSkeletonAnimationFromGOBSKELANIMLoop_atWords
    (junk : Nat → SkeletonAnimation.JointAnimation Word) :
    ∀ (joints : List gobmesh.JointAnimation) (i : Nat) (b : BinaryReader) (p : Nat)
      (jointAnimations : Nat → SkeletonAnimation.JointAnimation Word) (L : List Word),
      (∀ joint ∈ joints, joint.WellFormed) →
      b.AtWords p (joints.flatMap gobmesh.outputJoint ++ L) →
      (∀ (m : Nat) (joint : gobmesh.JointAnimation), joints[m]? = some joint →
        joint.LoadedAs ((createSkeletonAnimationFromGOBSKELANIMLoop junk joints.length i b
          jointAnimations).1 (i + m)))
      ∧ (createSkeletonAnimationFromGOBSKELANIMLoop junk joints.length i b jointAnimations).2.AtWords
          (p + (joints.flatMap gobmesh.outputJoint).length) L
      ∧ (createSkeletonAnimationFromGOBSKELANIMLoop junk joints.length i b
          jointAnimations).2.skippedReads = b.skippedReads
      ∧ ∀ m, m < i →
          (createSkeletonAnimationFromGOBSKELANIMLoop junk joints.length i b jointAnimations).1 m
            = jointAnimations m
  | [], i, b, p, ja, L, _, h => by
    refine ⟨fun m joint hm => by simp at hm, ?_, rfl, fun _ _ => rfl⟩
    simpa using h
  | joint :: joints, i, b, p, ja, L, hw, h => by
    rw [List.flatMap_cons, List.append_assoc] at h
    have hj := readJointAnimation_atWords (junk i) b p joint _
      (hw joint (List.mem_cons_self _ _)) h
    have ih := createSkeletonAnimationFromGOBSKELANIMLoop_atWords junk joints (i + 1)
      (readJointAnimation (junk i) b).2 _
      (Function.update ja i (readJointAnimation (junk i) b).1) L
      (fun j hjm => hw j (List.mem_cons_of_mem _ hjm)) hj.2.1
    rw [List.length_cons, createSkeletonAnimationFromGOBSKELANIMLoop]
    refine ⟨?_, ?_, ih.2.2.1.trans hj.2.2, ?_⟩
    · intro m j hm
      cases m with
      | zero =>
        simp only [List.getElem?_cons_zero, Option.some.injEq] at hm
        subst hm
        have e := ih.2.2.2 i (by omega)
        rw [Function.update_same] at e
        simp only [Nat.add_zero]
        rw [e]
        exact hj.1
      | succ m =>
        rw [List.getElem?_cons_succ] at hm
        have := ih.1 m j hm
        have e : i + (m + 1) = i + 1 + m := by omega
        rw [e]
        exact this
    · rw [List.flatMap_cons, List.length_append, ← Nat.add_assoc]
      exact ih.2.1
    · intro m hm
      rw [ih.2.2.2 m (by omega), Function.update_noteq (by omega)]

/-- C24: for every clip in which the time list and the value list of each channel
have the same length (with every key count and the joint count in the range of
`unsigned int`, and the length of the file in the range of `size_t`), the words
written by `outputGOBSKELANIM`, as a buffer of 4 bytes per word, are read by
`createSkeletonAnimationFromGOBSKELANIM` into a clip with the same duration, the
same joint count and, for every joint and each of its channels, the same key
count, key times and key values in the same order; no copy is skipped (every
read is in bounds) and the reader ends exactly at the end of the buffer. -/
theorem gobskelanim_round_trip (animation : gobmesh.SkeletonAnimation)
    (out_animation : SkeletonAnimation Word)
    (junk : Nat → SkeletonAnimation.JointAnimation Word)
    (hchannels : ∀ joint ∈ animation.joints,
      joint.scaleKeyTimes.length = joint.scaleKeys.length
      ∧ joint.roateKeyTimes.length = joint.rotationKeys.length
      ∧ joint.translateKeyTimes.length = joint.translationKeys.length)
    (hcounts : ∀ joint ∈ animation.joints,
      joint.scaleKeys.length < UINT_SIZE
      ∧ joint.rotationKeys.length < UINT_SIZE
      ∧ joint.translationKeys.length < UINT_SIZE)
    (hjoints : animation.joints.length < UINT_SIZE)
    (hsize : 4 * (gobmesh.outputGOBSKELANIM animation).length < SIZE_SIZE) :
    (createSkeletonAnimationFromGOBSKELANIM out_animation junk
        (fun k => (gobmesh.outputGOBSKELANIM animation).getD k 0)
        (4 * (gobmesh.outputGOBSKELANIM animation).length)).1.duration = animation.duration
    ∧ (createSkeletonAnimationFromGOBSKELANIM out_animation junk
        (fun k => (gobmesh.outputGOBSKELANIM animation).getD k 0)
        (4 * (gobmesh.outputGOBSKELANIM animation).length)).1.jointCount = animation.joints.length
    ∧ (∀ (i : Nat) (joint : gobmesh.JointAnimation), animation.joints[i]? = some joint →
        ((createSkeletonAnimationFromGOBSKELANIM out_animation junk
        (fun k => (gobmesh.outputGOBSKELANIM animation).getD k 0)
        (4 * (gobmesh.outputGOBSKELANIM animation).length)).1.jointAnimations i).scaleKeyCount = joint.scaleKeys.length
        ∧ (∀ k, k < joint.scaleKeys.length →
            joint.scaleKeyTimes[k]? = some (((createSkeletonAnimationFromGOBSKELANIM out_animation junk
        (fun k => (gobmesh.outputGOBSKELANIM animation).getD k 0)
        (4 * (gobmesh.outputGOBSKELANIM animation).length)).1.jointAnimations i).scaleKeyTimes k)
            ∧ joint.scaleKeys[k]? = some (((createSkeletonAnimationFromGOBSKELANIM out_animation junk
        (fun k => (gobmesh.outputGOBSKELANIM animation).getD k 0)
        (4 * (gobmesh.outputGOBSKELANIM animation).length)).1.jointAnimations i).scaleKeyValues k))
        ∧ ((createSkeletonAnimationFromGOBSKELANIM out_animation junk
        (fun k => (gobmesh.outputGOBSKELANIM animation).getD k 0)
        (4 * (gobmesh.outputGOBSKELANIM animation).length)).1.jointAnimations i).rotateKeyCount = joint.rotationKeys.length
        ∧ (∀ k, k < joint.rotationKeys.length →
            joint.roateKeyTimes[k]? = some (((createSkeletonAnimationFromGOBSKELANIM out_animation junk
        (fun k => (gobmesh.outputGOBSKELANIM animation).getD k 0)
        (4 * (gobmesh.outputGOBSKELANIM animation).length)).1.jointAnimations i).rotateKeyTimes k)
            ∧ joint.rotationKeys[k]? = some (((createSkeletonAnimationFromGOBSKELANIM out_animation junk
        (fun k => (gobmesh.outputGOBSKELANIM animation).getD k 0)
        (4 * (gobmesh.outputGOBSKELANIM animation).length)).1.jointAnimations i).rotateKeyValues k))
        ∧ ((createSkeletonAnimationFromGOBSKELANIM out_animation junk
        (fun k => (gobmesh.outputGOBSKELANIM animation).getD k 0)
        (4 * (gobmesh.outputGOBSKELANIM animation).length)).1.jointAnimations i).translateKeyCount = joint.translationKeys.length
        ∧ (∀ k, k < joint.translationKeys.length →
            joint.translateKeyTimes[k]? = some (((createSkeletonAnimationFromGOBSKELANIM out_animation junk
        (fun k => (gobmesh.outputGOBSKELANIM animation).getD k 0)
        (4 * (gobmesh.outputGOBSKELANIM animation).length)).1.jointAnimations i).translateKeyTimes k)
            ∧ joint.translationKeys[k]?
                = some (((createSkeletonAnimationFromGOBSKELANIM out_animation junk
        (fun k => (gobmesh.outputGOBSKELANIM animation).getD k 0)
        (4 * (gobmesh.outputGOBSKELANIM animation).length)).1.jointAnimations i).translateKeyValues k)))
    ∧ (createSkeletonAnimationFromGOBSKELANIM out_animation junk
        (fun k => (gobmesh.outputGOBSKELANIM animation).getD k 0)
        (4 * (gobmesh.outputGOBSKELANIM animation).length)).2.skippedReads = 0
    ∧ (createSkeletonAnimationFromGOBSKELANIM out_animation junk
        (fun k => (gobmesh.outputGOBSKELANIM animation).getD k 0)
        (4 * (gobmesh.outputGOBSKELANIM animation).length)).2.atEnd = true := by
  have hw : ∀ joint ∈ animation.joints, joint.WellFormed := fun joint hj =>
    ⟨(hchannels joint hj).1, (hchannels joint hj).2.1, (hchannels joint hj).2.2,
      (hcounts joint hj).1, (hcounts joint hj).2.1, (hcounts joint hj).2.2⟩
  have hfile : gobmesh.outputGOBSKELANIM animation
      = animation.duration :: animation.joints.length
          :: (animation.joints.flatMap gobmesh.outputJoint ++ []) := by
    unfold gobmesh.outputGOBSKELANIM
    rw [Nat.mod_eq_of_lt hjoints, List.append_nil]
    rfl
  have hlen : (gobmesh.outputGOBSKELANIM animation).length
      = 2 + (animation.joints.flatMap gobmesh.outputJoint).length := by
    rw [hfile]
    simp only [List.length_cons, List.append_nil]
    omega
  obtain ⟨b0, hb0⟩ : ∃ b0, b0 = BinaryReader.create
      (fun k => (gobmesh.outputGOBSKELANIM animation).getD k 0)
      (4 * (gobmesh.outputGOBSKELANIM animation).length) := ⟨_, rfl⟩
  have h0 : b0.AtWords 0 (gobmesh.outputGOBSKELANIM animation) := by
    rw [hb0]
    exact ⟨rfl, fun k _ => by rw [Nat.zero_add]; rfl, by
      show 4 * (0 + _) ≤ 4 * _
      omega, hsize⟩
  have hbc : b0.byteCount = 4 * (gobmesh.outputGOBSKELANIM animation).length := by
    rw [hb0]
    rfl
  have hsk : b0.skippedReads = 0 := by
    rw [hb0]
    rfl
  unfold createSkeletonAnimationFromGOBSKELANIM
  simp only []
  rw [← hb0]
  clear hb0
  rw [hfile] at h0
  have r1 := readFloat_atWords b0 0 _ _ out_animation.duration h0
  have r2 := readUInt_atWords _ _ _ _ out_animation.jointCount r1.2.1 hjoints
  rw [r2.1]
  have hl := createSkeletonAnimationFromGOBSKELANIMLoop_atWords junk animation.joints 0
    ((b0.readFloat out_animation.duration).2.readUInt out_animation.jointCount).2 _ junk []
    hw r2.2.1
  have hb := (createSkeletonAnimationFromGOBSKELANIMLoop_reader junk animation.joints.length 0
    ((b0.readFloat out_animation.duration).2.readUInt out_animation.jointCount).2 junk).1
  refine ⟨r1.1, rfl, ?_, ?_, ?_⟩
  · intro i joint hi
    have := hl.1 i joint hi
    rw [Nat.zero_add] at this
    exact this
  · exact hl.2.2.1.trans (r2.2.2.trans (r1.2.2.trans hsk))
  · unfold BinaryReader.atEnd
    rw [decide_eq_true_eq, hb, hl.2.1.1]
    show _ = b0.byteCount
    rw [hbc, hlen]

/-- C24 on `roundTripClip`: the clip read back has the duration word 7 and one
joint, its second translation key is that of `roundTripJoint`, no copy was
skipped and the reader is at the end. -/
theorem gobskelanim_round_trip_witness :
    (createSkeletonAnimationFromGOBSKELANIM ⟨0, 0, 0, zeroJointAnimations⟩ zeroJointAnimations
        (fun k => (gobmesh.outputGOBSKELANIM roundTripClip).getD k 0)
        (4 * (gobmesh.outputGOBSKELANIM roundTripClip).length)).1.duration = 7
    ∧ (createSkeletonAnimationFromGOBSKELANIM ⟨0, 0, 0, zeroJointAnimations⟩ zeroJointAnimations
        (fun k => (gobmesh.outputGOBSKELANIM roundTripClip).getD k 0)
        (4 * (gobmesh.outputGOBSKELANIM roundTripClip).length)).1.jointCount = 1
    ∧ (createSkeletonAnimationFromGOBSKELANIM ⟨0, 0, 0, zeroJointAnimations⟩ zeroJointAnimations
        (fun k => (gobmesh.outputGOBSKELANIM roundTripClip).getD k 0)
        (4 * (gobmesh.outputGOBSKELANIM roundTripClip).length)).2.atEnd = true
    ∧ (createSkeletonAnimationFromGOBSKELANIM ⟨0, 0, 0, zeroJointAnimations⟩ zeroJointAnimations
        (fun k => (gobmesh.outputGOBSKELANIM roundTripClip).getD k 0)
        (4 * (gobmesh.outputGOBSKELANIM roundTripClip).length)).2.skippedReads = 0
    ∧ roundTripJoint.translationKeys[1]?
        = some (((createSkeletonAnimationFromGOBSKELANIM ⟨0, 0, 0, zeroJointAnimations⟩ zeroJointAnimations
        (fun k => (gobmesh.outputGOBSKELANIM roundTripClip).getD k 0)
        (4 * (gobmesh.outputGOBSKELANIM roundTripClip).length)).1.jointAnimations 0).translateKeyValues 1) := by
  have hchannels : ∀ joint ∈ roundTripClip.joints,
      joint.scaleKeyTimes.length = joint.scaleKeys.length
      ∧ joint.roateKeyTimes.length = joint.rotationKeys.length
      ∧ joint.translateKeyTimes.length = joint.translationKeys.length := by
    intro joint hj
    have e : joint = roundTripJoint := by simpa [roundTripClip] using hj
    rw [e]
    decide
  have hcounts : ∀ joint ∈ roundTripClip.joints,
      joint.scaleKeys.length < UINT_SIZE
      ∧ joint.rotationKeys.length < UINT_SIZE
      ∧ joint.translationKeys.length < UINT_SIZE := by
    intro joint hj
    have e : joint = roundTripJoint := by simpa [roundTripClip] using hj
    rw [e]
    decide
  have h := gobskelanim_round_trip roundTripClip ⟨0, 0, 0, zeroJointAnimations⟩
    zeroJointAnimations hchannels hcounts (by decide) (by decide)
  exact ⟨h.1, h.2.1, h.2.2.2.2, h.2.2.2.1,
    ((h.2.2.1 0 roundTripJoint rfl).2.2.2.2.2 1 (by decide)).2⟩

/-! ## The converter: joints in pre-order -/

/-- The pre-order of a list of trees, tree by tree. -/
theorem aiNode_preorderList_cons {α : Type} (c : aiNode α) (rest : List (aiNode α)) :
    aiNode.preorderList (c :: rest) = c.preorder ++ aiNode.preorderList rest := by
  rw [aiNode.preorderList]

/-- A tree's pre-order starts with its root. -/
theorem aiNode_preorder_head {α : Type} (node : aiNode α) : node.preorder[0]? = some node := by
  cases node
  rw [aiNode.preorder]
  simp

/-- A tree has at least one node. -/
theorem aiNode_preorder_length_pos {α : Type} (node : aiNode α) : 0 < node.preorder.length := by
  cases node
  rw [aiNode.preorder]
  simp

mutual

/-- Every position of a tree's pre-order but the first is the position of a child
of the node at an earlier position: child `j` of the node at position `q` is at
position `q + 1` plus the number of nodes in the subtrees of the children before
it. -/
theorem aiNode_preorder_cover {α : Type} : ∀ (node : aiNode α) (i : Nat),
    0 < i → i < node.preorder.length →
    ∃ (q : Nat) (nd : aiNode α) (j : Nat) (child : aiNode α),
      node.preorder[q]? = some nd ∧ nd.mChildren[j]? = some child
      ∧ i = q + 1 + (aiNode.preorderList (nd.mChildren.take j)).length
  | .mk n t cs, i, hi, hlt => by
    rw [aiNode.preorder, List.length_cons] at hlt
    obtain ⟨i, rfl⟩ : ∃ k, i = k + 1 := ⟨i - 1, by omega⟩
    rcases aiNode_preorderList_cover cs i (by omega) with ⟨j, child, hj, e⟩ | ⟨q, nd, j, child, hq, hj, e⟩
    · refine ⟨0, .mk n t cs, j, child, aiNode_preorder_head _, hj, ?_⟩
      show i + 1 = 0 + 1 + (aiNode.preorderList (List.take j cs)).length
      omega
    · refine ⟨q + 1, nd, j, child, ?_, hj, by omega⟩
      rw [aiNode.preorder, List.getElem?_cons_succ]
      exact hq

/-- Every position of the pre-order of a list of trees is the position of the
root of one of the trees or of a child of the node at an earlier position. -/
theorem aiNode_preorderList_cover {α : Type} : ∀ (cs : List (aiNode α)) (i : Nat),
    i < (aiNode.preorderList cs).length →
    (∃ (j : Nat) (child : aiNode α),
      cs[j]? = some child ∧ i = (aiNode.preorderList (cs.take j)).length)
    ∨ ∃ (q : Nat) (nd : aiNode α) (j : Nat) (child : aiNode α),
      (aiNode.preorderList cs)[q]? = some nd ∧ nd.mChildren[j]? = some child
      ∧ i = q + 1 + (aiNode.preorderList (nd.mChildren.take j)).length
  | [], i, hlt => by
    rw [aiNode.preorderList] at hlt
    simp at hlt
  | c :: rest, i, hlt => by
    rw [aiNode_preorderList_cons, List.length_append] at hlt
    rcases Nat.lt_or_ge i c.preorder.length with hi | hi
    · rcases Nat.eq_zero_or_pos i with e | e
      · left
        refine ⟨0, c, by simp, ?_⟩
        rw [e, List.take_zero, aiNode.preorderList, List.length_nil]
      · right
        obtain ⟨q, nd, j, child, hq, hj, e2⟩ := aiNode_preorder_cover c i e hi
        refine ⟨q, nd, j, child, ?_, hj, e2⟩
        have hql : q < c.preorder.length := by omega
        rw [aiNode_preorderList_cons, List.getElem?_append_left hql]
        exact hq
    · rcases aiNode_preorderList_cover rest (i - c.preorder.length) (by omega) with
        ⟨j, child, hj, e⟩ | ⟨q, nd, j, child, hq, hj, e⟩
      · left
        refine ⟨j + 1, child, by rw [List.getElem?_cons_succ]; exact hj, ?_⟩
        rw [List.take_succ_cons, aiNode_preorderList_cons, List.length_append]
        omega
      · right
        refine ⟨c.preorder.length + q, nd, j, child, ?_, hj, by omega⟩
        rw [aiNode_preorderList_cons, List.getElem?_append_right (by omega),
          Nat.add_sub_cancel_left]
        exact hq

end

section ConverterClaims

variable {α : Type} [LinearOrderedField α]

mutual

/-- What `readJoint` appends for a tree `node`, when the joint indices stay in
the range of `unsigned int`: one joint per node in pre-order; the first has the
parent index passed in, every other one a parent index that is the index of an
earlier joint of the tree; and the joint of each child of a node has the index
of that node's joint as its parent index. -/
theorem readJoint_preorder : ∀ (node : aiNode α) (out : gobmesh.Skeleton α) (p : Nat)
    (T : Matrix4x4 α), out.joints.length + node.preorder.length ≤ UINT_SIZE →
    ∃ J : List (gobmesh.Joint α),
      readJoint out node p T = ⟨out.joints ++ J, out.rootJointIndex⟩
      ∧ J.map (fun joint => joint.name) = node.preorder.map (fun n => n.mName)
      ∧ J[0]?.map (fun joint => joint.parentIndex) = some p
      ∧ (∀ (i : Nat) (joint : gobmesh.Joint α), 0 < i → J[i]? = some joint →
          out.joints.length ≤ joint.parentIndex ∧ joint.parentIndex < out.joints.length + i)
      ∧ (∀ (q : Nat) (nd : aiNode α) (j : Nat) (child : aiNode α),
          node.preorder[q]? = some nd → nd.mChildren[j]? = some child →
          node.preorder[q + 1 + (aiNode.preorderList (nd.mChildren.take j)).length]? = some child
          ∧ J[q + 1 + (aiNode.preorderList (nd.mChildren.take j)).length]?.map
              (fun joint => joint.parentIndex) = some (out.joints.length + q))
  | .mk n t cs, out, p, T, h => by
    rw [aiNode.preorder, List.length_cons] at h
    have hlen : out.joints.length < UINT_SIZE := by omega
    obtain ⟨JL, hJL, ha, hc, hd1, hd2⟩ := readJointChildren_preorder cs
      ⟨out.joints ++ [⟨n, p, Matrix4x4.inverse (T * getMatrix4x4 t)⟩], out.rootJointIndex⟩
      out.joints.length (T * getMatrix4x4 t) (by
        simp only [List.length_append, List.length_cons, List.length_nil]
        omega)
    simp only [List.length_append, List.length_cons, List.length_nil, Nat.zero_add] at hc hd2
    refine ⟨⟨n, p, Matrix4x4.inverse (T * getMatrix4x4 t)⟩ :: JL, ?_, ?_, by simp, ?_, ?_⟩
    · rw [readJoint, Nat.mod_eq_of_lt hlen, hJL]
      simp only [List.append_assoc, List.singleton_append]
    · rw [aiNode.preorder, List.map_cons, List.map_cons, ha]
      rfl
    · intro i joint hi hj
      obtain ⟨i, rfl⟩ : ∃ k, i = k + 1 := ⟨i - 1, by omega⟩
      rw [List.getElem?_cons_succ] at hj
      rcases hc i joint hj with e | e
      · omega
      · omega
    · intro q nd j child hq hj
      rw [aiNode.preorder] at hq ⊢
      cases q with
      | zero =>
        simp only [List.getElem?_cons_zero, Option.some.injEq] at hq
        subst hq
        have := hd1 j child hj
        have e : 0 + 1 + (aiNode.preorderList
            (List.take j (aiNode.mk n t cs).mChildren)).length
            = (aiNode.preorderList (List.take j cs)).length + 1 := by
          show 0 + 1 + (aiNode.preorderList (List.take j cs)).length = _
          omega
        rw [e, List.getElem?_cons_succ, List.getElem?_cons_succ]
        exact this
      | succ q =>
        rw [List.getElem?_cons_succ] at hq
        have := hd2 q nd j child hq hj
        have e : q + 1 + 1 + (aiNode.preorderList (List.take j nd.mChildren)).length
            = q + 1 + (aiNode.preorderList (List.take j nd.mChildren)).length + 1 := by
          omega
        rw [e, List.getElem?_cons_succ, List.getElem?_cons_succ]
        have e2 : out.joints.length + (q + 1) = out.joints.length + 1 + q := by omega
        rw [e2]
        exact this

/-- What the loop of `readJoint` appends for the trees `cs`: the root of each
tree gets the parent index `idx`. -/
theorem readJointChildren_preorder : ∀ (cs : List (aiNode α)) (out : gobmesh.Skeleton α)
    (idx : Nat) (T : Matrix4x4 α),
    out.joints.length + (aiNode.preorderList cs).length ≤ UINT_SIZE →
    ∃ J : List (gobmesh.Joint α),
      readJointChildren out cs idx T = ⟨out.joints ++ J, out.rootJointIndex⟩
      ∧ J.map (fun joint => joint.name) = (aiNode.preorderList cs).map (fun n => n.mName)
      ∧ (∀ (i : Nat) (joint : gobmesh.Joint α), J[i]? = some joint →
          joint.parentIndex = idx
          ∨ (out.joints.length ≤ joint.parentIndex ∧ joint.parentIndex < out.joints.length + i))
      ∧ (∀ (j : Nat) (child : aiNode α), cs[j]? = some child →
          (aiNode.preorderList cs)[(aiNode.preorderList (cs.take j)).length]? = some child
          ∧ J[(aiNode.preorderList (cs.take j)).length]?.map
              (fun joint => joint.parentIndex) = some idx)
      ∧ (∀ (q : Nat) (nd : aiNode α) (j : Nat) (child : aiNode α),
          (aiNode.preorderList cs)[q]? = some nd → nd.mChildren[j]? = some child →
          (aiNode.preorderList cs)[q + 1
              + (aiNode.preorderList (nd.mChildren.take j)).length]? = some child
          ∧ J[q + 1 + (aiNode.preorderList (nd.mChildren.take j)).length]?.map
              (fun joint => joint.parentIndex) = some (out.joints.length + q))
  | [], out, idx, T, _ => by
    refine ⟨[], ?_, rfl, ?_, ?_, ?_⟩
    · rw [readJointChildren, List.append_nil]
    · intro i joint hj
      simp at hj
    · intro j child hj
      simp at hj
    · intro q nd j child hq
      rw [aiNode.preorderList] at hq
      simp at hq
  | c :: rest, out, idx, T, h => by
    rw [aiNode_preorderList_cons, List.length_append] at h
    obtain ⟨Jc, hJc, hac, hbc, hcc, hdc⟩ := readJoint_preorder c out idx T (by omega)
    have hm : Jc.length = c.preorder.length := by
      have := congrArg List.length hac
      simpa using this
    obtain ⟨JR, hJR, haR, hcR, hd1R, hd2R⟩ := readJointChildren_preorder rest
      ⟨out.joints ++ Jc, out.rootJointIndex⟩ idx T (by
        simp only [List.length_append]
        omega)
    simp only [List.length_append] at hcR hd2R
    have hpos := aiNode_preorder_length_pos c
    refine ⟨Jc ++ JR, ?_, ?_, ?_, ?_, ?_⟩
    · rw [readJointChildren, hJc, hJR]
      simp only [List.append_assoc]
    · rw [aiNode_preorderList_cons, List.map_append, List.map_append, hac, haR]
    · intro i joint hj
      rcases Nat.lt_or_ge i Jc.length with hi | hi
      · rw [List.getElem?_append_left hi] at hj
        rcases Nat.eq_zero_or_pos i with e | e
        · subst e
          left
          rw [hj] at hbc
          simpa using hbc
        · right
          exact hcc i joint e hj
      · rw [List.getElem?_append_right hi] at hj
        rcases hcR _ joint hj with e | e
        · left
          exact e
        · right
          omega
    · intro j child hj
      cases j with
      | zero =>
        simp only [List.getElem?_cons_zero, Option.some.injEq] at hj
        subst hj
        have e0 : (aiNode.preorderList (List.take 0 (c :: rest))).length = 0 := by
          rw [List.take_zero, aiNode.preorderList, List.length_nil]
        rw [e0, aiNode_preorderList_cons, List.getElem?_append_left hpos,
          List.getElem?_append_left (by omega)]
        exact ⟨aiNode_preorder_head c, hbc⟩
      | succ j =>
        rw [List.getElem?_cons_succ] at hj
        have := hd1R j child hj
        have e1 : (aiNode.preorderList (List.take (j + 1) (c :: rest))).length
            = c.preorder.length + (aiNode.preorderList (List.take j rest)).length := by
          rw [List.take_succ_cons, aiNode_preorderList_cons, List.length_append]
        rw [e1, aiNode_preorderList_cons, List.getElem?_append_right (by omega),
          List.getElem?_append_right (by omega), hm, Nat.add_sub_cancel_left]
        exact this
    · intro q nd j child hq hj
      rw [aiNode_preorderList_cons] at hq ⊢
      rcases Nat.lt_or_ge q c.preorder.length with hi | hi
      · rw [List.getElem?_append_left hi] at hq
        have := hdc q nd j child hq hj
        have hlt : q + 1 + (aiNode.preorderList (List.take j nd.mChildren)).length
            < c.preorder.length := by
          by_contra hn
          rw [List.getElem?_eq_none (by omega)] at this
          exact absurd this.1 (by simp)
        rw [List.getElem?_append_left hlt, List.getElem?_append_left (by omega)]
        exact this
      · rw [List.getElem?_append_right hi] at hq
        have := hd2R _ nd j child hq hj
        have e : q + 1 + (aiNode.preorderList (List.take j nd.mChildren)).length
              - c.preorder.length
            = q - c.preorder.length + 1
              + (aiNode.preorderList (List.take j nd.mChildren)).length := by
          omega
        rw [List.getElem?_append_right (by omega), List.getElem?_append_right (by omega),
          hm, e]
        have e2 : out.joints.length + q
            = out.joints.length + Jc.length + (q - c.preorder.length) := by
          omega
        rw [e2]
        exact this

end

/-- C26: for every node tree whose node count is in the range of `unsigned
int`, `convertAssimpSkeleton` applied to an empty skeleton produces one joint
per node in pre-order (the names of the joints are the names of the nodes in
pre-order), with `rootJointIndex = 0` and `joints[0].parentIndex = 0`; for every
`i > 0`, `parentIndex[i] < i` and the node at position `i` is a child of the
node at position `parentIndex[i]`, at the position pre-order gives that child;
and the joint of child `j` of the node at position `q` has the parent index
`q`. -/
theorem convertAssimpSkeleton_preorder (out_skeleton : gobmesh.Skeleton α)
    (assimpSkeleton : aiNode α) (hempty : out_skeleton.joints = [])
    (hcount : assimpSkeleton.preorder.length ≤ UINT_SIZE) :
    (convertAssimpSkeleton out_skeleton assimpSkeleton).joints.map (fun joint => joint.name)
        = assimpSkeleton.preorder.map (fun node => node.mName)
    ∧ (convertAssimpSkeleton out_skeleton assimpSkeleton).rootJointIndex = 0
    ∧ (convertAssimpSkeleton out_skeleton assimpSkeleton).joints[0]?.map
        (fun joint => joint.parentIndex) = some 0
    ∧ (∀ (i : Nat) (joint : gobmesh.Joint α), 0 < i →
        (convertAssimpSkeleton out_skeleton assimpSkeleton).joints[i]? = some joint →
        joint.parentIndex < i
        ∧ ∃ (node : aiNode α) (j : Nat) (child : aiNode α),
            assimpSkeleton.preorder[joint.parentIndex]? = some node
            ∧ node.mChildren[j]? = some child
            ∧ assimpSkeleton.preorder[i]? = some child
            ∧ i = joint.parentIndex + 1 + (aiNode.preorderList (node.mChildren.take j)).length)
    ∧ (∀ (q : Nat) (node : aiNode α) (j : Nat) (child : aiNode α),
        assimpSkeleton.preorder[q]? = some node → node.mChildren[j]? = some child →
        assimpSkeleton.preorder[q + 1
            + (aiNode.preorderList (node.mChildren.take j)).length]? = some child
        ∧ (convertAssimpSkeleton out_skeleton assimpSkeleton).joints[q + 1
            + (aiNode.preorderList (node.mChildren.take j)).length]?.map
              (fun joint => joint.parentIndex) = some q) := by
  obtain ⟨J, hJ, ha, hb, hc, hd⟩ := readJoint_preorder assimpSkeleton
    { out_skeleton with rootJointIndex := 0 } 0 Matrix4x4.identity (by
      show out_skeleton.joints.length + _ ≤ _
      rw [hempty, List.length_nil, Nat.zero_add]
      exact hcount)
  have hjoints : (convertAssimpSkeleton out_skeleton assimpSkeleton).joints = J := by
    unfold convertAssimpSkeleton
    rw [hJ]
    show out_skeleton.joints ++ J = J
    rw [hempty, List.nil_append]
  have hroot : (convertAssimpSkeleton out_skeleton assimpSkeleton).rootJointIndex = 0 := by
    unfold convertAssimpSkeleton
    rw [hJ]
  have hlen0 : ({ out_skeleton with rootJointIndex := 0 } : gobmesh.Skeleton α).joints.length
      = 0 := by
    show out_skeleton.joints.length = 0
    rw [hempty, List.length_nil]
  rw [hlen0] at hc hd
  simp only [Nat.zero_add] at hc hd
  rw [hjoints]
  have hm : J.length = assimpSkeleton.preorder.length := by
    have := congrArg List.length ha
    simpa using this
  refine ⟨ha, hroot, hb, ?_, hd⟩
  intro i joint hi hj
  refine ⟨(hc i joint hi hj).2, ?_⟩
  have hil : i < J.length := by
    by_contra hn
    rw [List.getElem?_eq_none (by omega)] at hj
    exact absurd hj (by simp)
  obtain ⟨q, nd, j, child, hq, hch, e⟩ := aiNode_preorder_cover assimpSkeleton i hi (by omega)
  have h4 := hd q nd j child hq hch
  rw [← e, hj] at h4
  have hp : joint.parentIndex = q := by simpa using h4.2
  rw [hp]
  exact ⟨nd, j, child, hq, hch, h4.1, e⟩

end ConverterClaims

/-- C26 on `demoTree`: the root joint index and the parent index of joint 0 are
0, and the joint of "hand" (position 2) has the parent index 1, the position of
"arm". -/
theorem convertAssimpSkeleton_preorder_witness :
    (convertAssimpSkeleton ⟨[], 5⟩ demoTree).rootJointIndex = 0
    ∧ (convertAssimpSkeleton ⟨[], 5⟩ demoTree).joints[0]?.map
        (fun joint => joint.parentIndex) = some 0
    ∧ (convertAssimpSkeleton ⟨[], 5⟩ demoTree).joints[2]?.map
        (fun joint => joint.parentIndex) = some 1 := by
  have h := convertAssimpSkeleton_preorder ⟨[], 5⟩ demoTree rfl (by decide)
  refine ⟨h.2.1, h.2.2.1, ?_⟩
  have h2 := (h.2.2.2.2 1 armNode 0 (.mk "hand" identityTransformation [])
    (by simp [demoTree, armNode, aiNode.preorder, aiNode.preorderList])
    (by simp [armNode, aiNode.mChildren])).2
  simpa [aiNode.preorderList] using h2

end goblin
